import Mathlib

/-!
# KWin window-management core: client visibility and the workspace registry

A shallow embedding of the parts of `client.h` and `workspace.cpp` that decide
which windows are shown, how windows enter and leave the workspace's
collections, how focus is restored after a desktop or activity switch, how
clients follow a desktop change and are sent to a desktop with their
transients, and how a client is looked up by a window id. The transiency
closure, the geometry blocker and the constrained stacking order, whose code is
in other translation units, are modelled from the specification.

Conventions of the embedding

* A C++ object is represented by its address (`Toplevel`); a pointer that may
  be null is an `Option`.
* `QList` is `List`; the `QList` operations used by the code are defined below
  with Qt's semantics.
* `Q_ASSERT(e)` is an assertion: a function whose assertion fails yields `none`.
* The members of `Workspace` are written by the statements of `workspace.cpp`
  only. A call of a method whose body is in another translation unit
  (`manage`, `requestFocus`, `updateStackingOrder`, the `StackingUpdatesBlocker`,
  ...) is recorded in `Workspace.calls`, in program order and with its
  arguments; what that method then does is not part of the embedding. The
  answers such methods give to the code are fields of `Env`.
* A long function is embedded as its parts in program order; each part names
  the source lines it covers.
-/

namespace KWin

/-! ## Qt containers and geometry -/

namespace QList

variable {α : Type} [DecidableEq α]

/-- The Qt operation `QList::contains`. -/
def contains (l : List α) (x : α) : Bool :=
  decide (x ∈ l)

/-- The Qt operation `QList::append`. -/
def append (l : List α) (x : α) : List α :=
  l ++ [x]

/-- The Qt operation `QList::removeAll`: every occurrence goes, the others keep
their order. -/
def removeAll (l : List α) (x : α) : List α :=
  l.filter (fun y => decide (y ≠ x))

/-- The Qt operation `QList::indexOf`: the index of the first occurrence, or
`-1`. -/
def indexOf (l : List α) (x : α) : Int :=
  if x ∈ l then (List.indexOf x l : Int) else -1

/-- The Qt operation `QList::replace(i, x)`. -/
def replace (l : List α) (i : Int) (x : α) : List α :=
  l.set i.toNat x

/-- The Qt operation `QList::isEmpty`. -/
def isEmpty (l : List α) : Bool :=
  l.isEmpty

/-- The Qt operation `QList::count()`. -/
def count (l : List α) : Nat :=
  l.length

end QList

/-- A `QPoint`. -/
structure QPoint where
  x : Int := 0
  y : Int := 0
  deriving DecidableEq, Repr

/-- A `QRect`, stored as Qt stores it: the two corners, both inclusive. -/
structure QRect where
  x1 : Int := 0
  y1 : Int := 0
  x2 : Int := -1
  y2 : Int := -1
  deriving DecidableEq, Repr

/-- The Qt operation `QRect::contains(const QPoint &)`. -/
def QRect.contains (r : QRect) (p : QPoint) : Bool :=
  let l := if r.x2 < r.x1 - 1 then r.x2 else r.x1
  let rr := if r.x2 < r.x1 - 1 then r.x1 else r.x2
  let t := if r.y2 < r.y1 - 1 then r.y2 else r.y1
  let b := if r.y2 < r.y1 - 1 then r.y1 else r.y2
  !(decide (p.x < l) || decide (p.x > rr)) && !(decide (p.y < t) || decide (p.y > b))

/-! ## Objects -/

/-- The address of a `Toplevel` object (client, unmanaged window or `Deleted`
placeholder). Pointers are compared by address. -/
abbrev Toplevel := Nat

/-- An X11 window id (`xcb_window_t`). -/
abbrev XWindow := Nat

/-- The address of a `Group` object. -/
abbrev Group := Nat

/-- The constant `NET::OnAllDesktops`. -/
def NET.OnAllDesktops : Int := -1

/-- The conversion of a `uint` to `int`, written `static_cast<int>` at
workspace.cpp:245 and 1169 and implicit where a `uint` is passed for an `int`
parameter. Both types have 32 bits: the values from 2^31 on wrap to the negative
numbers. -/
def static_cast_int (n : Nat) : Int :=
  if n % 2 ^ 32 < 2 ^ 31 then ((n % 2 ^ 32 : Nat) : Int)
  else ((n % 2 ^ 32 : Nat) : Int) - 2 ^ 32

/-- The shade modes of a client. The enum is declared outside the translated
sources; `isShade` (client.h:1140) only distinguishes `ShadeNormal`. -/
inductive ShadeMode where
  | ShadeNone
  | ShadeNormal
  | ShadeHover
  | ShadeActivated
  deriving DecidableEq, Repr

/-- The dynamic class of a `Toplevel`, which decides `qobject_cast`. -/
inductive Kind where
  | X11Client
  | XdgShellClient
  | InternalClient
  | Unmanaged
  | Deleted
  deriving DecidableEq, Repr

/-- The window types the code asks about (`isDesktop()`, `isDock()`,
`isUtility()`, `isMenu()`, `isToolbar()`). -/
inductive WindowType where
  | Normal
  | Desktop
  | Dock
  | Toolbar
  | Menu
  | Dialog
  | Utility
  deriving DecidableEq, Repr

/-- The part of a `TabGroup` that `Client::isShown` reads: `TabGroup::current()`. -/
structure TabGroup where
  current : Option Toplevel
  deriving DecidableEq, Repr

/-- The enum `Client::Position` (client.h:630): where a move or resize holds
the window. -/
inductive Position where
  | PositionCenter
  | PositionLeft
  | PositionRight
  | PositionTop
  | PositionBottom
  | PositionTopLeft
  | PositionTopRight
  | PositionBottomLeft
  | PositionBottomRight
  deriving DecidableEq, Repr

/-- The enumerator values of `Client::Position` (client.h:632-640); a corner is
written in the source as the union of its two edges. -/
def Position.value : Position → Nat
  | Position.PositionCenter => 0x00
  | Position.PositionLeft => 0x01
  | Position.PositionRight => 0x02
  | Position.PositionTop => 0x04
  | Position.PositionBottom => 0x08
  | Position.PositionTopLeft => 0x01 ||| 0x04
  | Position.PositionTopRight => 0x02 ||| 0x04
  | Position.PositionBottomLeft => 0x01 ||| 0x08
  | Position.PositionBottomRight => 0x02 ||| 0x08

/-- The enumerator `QuickTileNone` of `Client::QuickTileFlag` (client.h:390). -/
def QuickTileNone : Nat := 0

/-- The enumerator `QuickTileLeft` (client.h:391). -/
def QuickTileLeft : Nat := 1

/-- The enumerator `QuickTileRight` (client.h:392). -/
def QuickTileRight : Nat := 1 <<< 1

/-- The enumerator `QuickTileTop` (client.h:393). -/
def QuickTileTop : Nat := 1 <<< 2

/-- The enumerator `QuickTileBottom` (client.h:394). -/
def QuickTileBottom : Nat := 1 <<< 3

/-- The enumerator `QuickTileHorizontal` (client.h:395). -/
def QuickTileHorizontal : Nat := QuickTileLeft ||| QuickTileRight

/-- The enumerator `QuickTileVertical` (client.h:396). -/
def QuickTileVertical : Nat := QuickTileTop ||| QuickTileBottom

/-- The enumerator `QuickTileMaximize` (client.h:397). -/
def QuickTileMaximize : Nat :=
  QuickTileLeft ||| QuickTileRight ||| QuickTileTop ||| QuickTileBottom

/-- The enum `Client::PendingGeometry_t` (client.h:995). -/
inductive PendingGeometry_t where
  | PendingGeometryNone
  | PendingGeometryNormal
  | PendingGeometryForced
  deriving DecidableEq, Repr

/-- The enum `Client::ForceGeometry_t` (client.h:465). -/
inductive ForceGeometry_t where
  | NormalGeometrySet
  | ForceGeometrySet
  deriving DecidableEq, Repr

/-- The enum `Predicate` (client.h:72): the window id that `Workspace::findClient`
compares. -/
inductive Predicate where
  | WindowMatch
  | WrapperIdMatch
  | FrameIdMatch
  | InputIdMatch
  deriving DecidableEq, Repr

/-- Modelled from the spec: the layers of the stacking order, whose enum is
outside the translated sources, from back to front. -/
inductive Layer where
  | desktop
  | below
  | normal
  | dock
  | above
  | notification
  | activeFullscreen
  | onScreenDisplay
  | tooltip
  deriving DecidableEq, Repr

/-- Modelled from the spec: the layers in their order, from back to front. -/
def Layer.all : List Layer :=
  [Layer.desktop, Layer.below, Layer.normal, Layer.dock, Layer.above, Layer.notification,
    Layer.activeFullscreen, Layer.onScreenDisplay, Layer.tooltip]

/-- The constant `XCB_WINDOW_NONE` of the X protocol. -/
def XCB_WINDOW_NONE : XWindow := 0

/-- The data members of `Client` (client.h:883-1040) and the answers of the
object's accessors that the embedded code reads. The accessors whose bodies
are outside the translated sources are fields of their own; `layer` is the
layer that the stacking engine of the specification computes for the window. -/
structure Client where
  kind : Kind := Kind.X11Client
  window : XWindow := 0
  windowType : WindowType := WindowType.Normal
  minimized : Bool := false
  shade_mode : ShadeMode := ShadeMode.ShadeNone
  hidden : Bool := false
  tab_group : Option TabGroup := none
  in_group : Option Group := none
  desktop : Int := 1
  activities : List String := []
  onActiveScreen : Bool := true
  frameGeometry : QRect := {}
  hasShortcut : Bool := false
  wantsInput : Bool := true
  internal : Bool := false
  initialPositionSet : Bool := false
  fullScreen : Bool := false
  maximizeFull : Bool := false
  rulePosition : Bool := false
  wasClient : Bool := true
  m_wrapper : XWindow := 0
  frameId : XWindow := 0
  m_decoInputExtent : XWindow := 0
  moveResizeMode : Bool := false
  mode : Position := Position.PositionCenter
  m_transientForId : XWindow := 0
  transient_for : Option Toplevel := none
  transients_list : List Toplevel := []
  wantsTabFocus : Bool := true
  block_geometry_updates : Int := 0
  pending_geometry_update : PendingGeometry_t := PendingGeometry_t.PendingGeometryNone
  geom_before_block : QRect := {}
  layer : Layer := Layer.normal
  specialWindow : Bool := false
  desktops : List Nat := []
  deriving DecidableEq, Repr

/-- The function `Client::isMinimized` (client.h:1119). -/
def Client.isMinimized (c : Client) : Bool :=
  c.minimized

/-- The function `Client::isShade` (client.h:1140). -/
def Client.isShade (c : Client) : Bool :=
  c.shade_mode == ShadeMode.ShadeNormal

/-- The function `Client::tabGroup` (client.h:1114). -/
def Client.tabGroup (c : Client) : Option TabGroup :=
  c.tab_group

/-- The function `Client::isShown` (client.h:1129). `this` is the address of the
client whose members are `c`. -/
def Client.isShown (this : Toplevel) (c : Client) (shaded_is_shown : Bool) : Bool :=
  !c.isMinimized && (!c.isShade || shaded_is_shown) && !c.hidden &&
    (match c.tabGroup with
     | none => true
     | some g => g.current == some this)

/-- The accessor `isDesktop()`. -/
def Client.isDesktop (c : Client) : Bool :=
  c.windowType == WindowType.Desktop

/-- The accessor `isDock()`. -/
def Client.isDock (c : Client) : Bool :=
  c.windowType == WindowType.Dock

/-- The accessor `isUtility()`. -/
def Client.isUtility (c : Client) : Bool :=
  c.windowType == WindowType.Utility

/-- The accessor `isMenu()`. -/
def Client.isMenu (c : Client) : Bool :=
  c.windowType == WindowType.Menu

/-- The accessor `isToolbar()`. -/
def Client.isToolbar (c : Client) : Bool :=
  c.windowType == WindowType.Toolbar

/-- The function `Client::isMove` (client.h:599). -/
def Client.isMove (c : Client) : Bool :=
  c.moveResizeMode && c.mode == Position.PositionCenter

/-- The function `Client::isResize` (client.h:602). -/
def Client.isResize (c : Client) : Bool :=
  c.moveResizeMode && c.mode != Position.PositionCenter

/-- The function `Client::wrapperId` (client.h:1062). -/
def Client.wrapperId (c : Client) : XWindow :=
  c.m_wrapper

/-- The function `Client::inputId` (client.h:297). -/
def Client.inputId (c : Client) : XWindow :=
  c.m_decoInputExtent

/-- The function `Client::transientFor` (client.h:1072). -/
def Client.transientFor (c : Client) : Option Toplevel :=
  c.transient_for

/-- The function `Client::isTransient` (client.h:1094). -/
def Client.isTransient (c : Client) : Bool :=
  c.m_transientForId != XCB_WINDOW_NONE

/-- The function `Client::transients` (client.h:1099). -/
def Client.transients (c : Client) : List Toplevel :=
  c.transients_list

/-- Modelled from the spec: `isOnAllDesktops()`, declared outside the
translated sources. Membership is a desktop index or "on all desktops", the
latter being the value `NET::OnAllDesktops` that `sendClientToDesktop` accepts. -/
def Client.isOnAllDesktops (c : Client) : Bool :=
  c.desktop == NET.OnAllDesktops

/-- Modelled from the spec: `isOnDesktop(d)`, declared outside the translated
sources: the window is on desktop `d` or on all desktops. -/
def Client.isOnDesktop (c : Client) (d : Int) : Bool :=
  c.desktop == d || c.isOnAllDesktops

/-- Modelled from the spec: `isOnActivity(a)`, declared outside the translated
sources: membership is a set of activity ids, the empty set meaning "on all
activities". -/
def Client.isOnActivity (c : Client) (a : String) : Bool :=
  c.activities.isEmpty || QList.contains c.activities a

/-! ## The workspace -/

/-- The reasons of `FocusChain::update`. -/
inductive FocusChainChange where
  | MakeFirst
  | MakeLast
  | Update
  deriving DecidableEq, Repr

/-- Modelled from the spec: the focus chain, whose class is outside the
translated sources: one ordered list per desktop plus a desktop-agnostic list,
most recently focused first. -/
structure FocusChain where
  mostRecentlyUsed : List Toplevel := []
  desktopFocusChains : Nat → List Toplevel := fun _ => []

/-- Modelled from the spec: `FocusChain::remove`, outside the translated
sources: the window is detached from every list of the focus chain. -/
def FocusChain.remove (fc : FocusChain) (c : Toplevel) : FocusChain :=
  { mostRecentlyUsed := QList.removeAll fc.mostRecentlyUsed c
    desktopFocusChains := fun d => QList.removeAll (fc.desktopFocusChains d) c }

/-- Modelled from the spec: `FocusChain::contains(client, desktop)`, outside
the translated sources: the list of that desktop holds the window. -/
def FocusChain.contains (fc : FocusChain) (c : Toplevel) (desktop : Nat) : Bool :=
  QList.contains (fc.desktopFocusChains desktop) c

/-- A call that the embedded code issues: a call of a `Workspace` method, of a
method of another object, or the emission of a signal. Every embedded method
records its own invocation before it runs; a method that is not embedded here
is recorded and nothing more. -/
inductive Call where
  | blockStackingUpdates (block : Bool)
  | createClient (w : XWindow) (is_mapped : Bool)
  | setupClientConnections (c : Toplevel)
  | manage (c : Toplevel) (w : XWindow) (is_mapped : Bool)
  | deleteClient (c : Toplevel)
  | addClient (c : Toplevel)
  | clientAdded (c : Toplevel)
  | gotLeader (g : Group) (c : Toplevel)
  | lostLeader (g : Group)
  | requestFocus (c : Option Toplevel)
  | focusChainUpdate (c : Toplevel) (change : FocusChainChange)
  | focusChainRemove (c : Toplevel)
  | markXStackingOrderAsDirty
  | updateClientArea
  | updateClientLayer (c : Toplevel)
  | raiseClient (c : Toplevel)
  | lowerClient (c : Toplevel)
  | activateClient (c : Option Toplevel)
  | checkActiveModal (c : Toplevel)
  | checkTransients (w : XWindow)
  | updateStackingOrder (propagate_new_clients : Bool)
  | updateToolWindows (also_hide : Bool)
  | updateTabbox
  | tabBoxReset
  | createUnmanaged (w : XWindow)
  | track (c : Toplevel) (w : XWindow)
  | deleteUnmanaged (c : Toplevel)
  | addUnmanaged (c : Toplevel)
  | unmanagedAdded (c : Toplevel)
  | removeClient (c : Toplevel)
  | closeActivePopup
  | userActionsMenuClose
  | setupWindowShortcutDone (ok : Bool)
  | setShortcut (c : Toplevel)
  | clientShortcutUpdated (c : Toplevel)
  | cancelDelayFocus
  | clientRemoved (c : Toplevel)
  | addDeleted (c : Toplevel) (orig : Toplevel)
  | removeDeleted (c : Toplevel)
  | deletedRemoved (c : Toplevel)
  | updateClientCompositeBlocking
  | shellClientAdded (c : Toplevel)
  | updateDecoration (c : Toplevel) (check_workspace_pos : Bool)
  | placeIn (c : Toplevel)
  | activateClientOnNewDesktop (desktop : Nat)
  | setActiveClient (c : Option Toplevel)
  | focusToNull
  | nullFocusFocus
  | updateCurrentActivity (new_activity : String)
  | updateVisibility (c : Toplevel)
  | setShowingDesktop (showing : Bool)
  | rootInfoSetShowingDesktop (showing : Bool)
  | updateLayer (c : Toplevel)
  | showingDesktopChanged (showing : Bool)
  | addRepaintFull
  | updateClientVisibilityOnDesktopChange (newDesktop : Nat)
  | rootInfoSetCurrentDesktop (desktop : Nat)
  | setDesktop (c : Toplevel) (desktop : Int)
  | sendClientToDesktop (c : Toplevel) (desk : Int) (dont_activate : Bool)
  | restackClientUnderActive (c : Toplevel)
  | checkWorkspacePosition (c : Toplevel) (old_desktop : Int)
  | getInputFocus
  | getGeometry (w : XWindow)
  | desktopRemoved (desktop : Nat)
  | leaveDesktop (c : Toplevel) (desktop : Nat)
  | hideClient (c : Toplevel) (hide : Bool)
  | updateToolWindowsTimerStop
  | resetUpdateToolWindowsTimer
  | updateToolWindowsTimerStart (msec : Nat)

/-- The emissions of the signal `unmanagedAdded`. -/
def Call.isUnmanagedAdded : Call → Bool
  | Call.unmanagedAdded _ => true
  | _ => false

/-- The calls that put the input focus somewhere: `requestFocus` and
`focusToNull`. -/
def Call.isFocusAction : Call → Bool
  | Call.requestFocus _ => true
  | Call.focusToNull => true
  | _ => false

/-- The calls `c->updateVisibility()` on the client `c`. -/
def Call.isUpdateVisibility (c : Toplevel) : Call → Bool
  | Call.updateVisibility x => x == c
  | _ => false

/-- The data members of `Workspace` that the embedded code reads or writes,
the objects it points to (`heap`), and the calls issued so far (`calls`). -/
structure Workspace where
  heap : Toplevel → Client := fun _ => {}
  clients : List Toplevel := []
  m_allClients : List Toplevel := []
  desktops : List Toplevel := []
  unmanaged : List Toplevel := []
  deleted : List Toplevel := []
  unconstrained_stacking_order : List Toplevel := []
  stacking_order : List Toplevel := []
  attention_chain : List Toplevel := []
  should_get_focus : List Toplevel := []
  focusChain : FocusChain := {}
  active_popup_client : Option Toplevel := none
  m_initialDesktop : Int := 1
  active_client : Option Toplevel := none
  last_active_client : Option Toplevel := none
  most_recently_raised : Option Toplevel := none
  movingClient : Option Toplevel := none
  delayfocus_client : Option Toplevel := none
  delayFocusTimer : Bool := false
  client_keys_client : Option Toplevel := none
  force_restacking : Bool := false
  showing_desktop : Bool := false
  was_user_interaction : Bool := false
  session_saving : Bool := false
  block_focus : Int := 0
  set_active_client_recursion : Int := 0
  block_stacking_updates : Int := 0
  m_xStackingDirty : Bool := false
  m_xStackingQueryTree : Bool := false
  m_nullFocus : Bool := false
  calls : List Call := []

/-- The enum `Application::OperationMode`, declared outside the translated
sources, with the three modes that `workspace.cpp` names. -/
inductive OperationMode where
  | OperationModeX11
  | OperationModeWaylandOnly
  | OperationModeXwayland
  deriving DecidableEq, Repr

/-- The `X11Compositor`, as far as `createUnmanaged` asks it. -/
structure X11Compositor where
  checkForOverlayWindow : XWindow → Bool

/-- The `Compositor` held in `m_compositor`: whether it has a scene. -/
structure Compositor where
  scene : Bool

/-- What the embedded code asks of the rest of the program: the options, the
virtual desktop manager, the cursor, and the answers of functions whose bodies
are outside the translated sources. A function that reads the workspace is
given the workspace, calls issued so far included. -/
structure Env where
  focusPolicyIsReasonable : Bool := true
  isNextFocusPrefersMouse : Bool := false
  x11Connection : Bool := true
  tabBoxDisplayed : Bool := false
  x11CompositorSelf : Option X11Compositor := none
  m_compositor : Option Compositor := none
  rootInfo : Bool := true
  activitiesSelf : Bool := true
  currentActivity : String := ""
  vdsCurrent : Nat := 1
  vdsCount : Nat := 1
  cursorPos : QPoint := {}
  manage : Toplevel → XWindow → Bool → Option Client := fun _ _ _ => none
  track : Toplevel → XWindow → Option Client := fun _ _ => none
  findGroup : Workspace → XWindow → Option Group := fun _ _ => none
  groupMembers : Group → List Toplevel := fun _ => []
  isMenuClient : Workspace → Toplevel → Bool := fun _ _ => false
  focusChainUpdate : Workspace → Toplevel → FocusChainChange → FocusChain :=
    fun ws _ _ => ws.focusChain
  getForActivation : Workspace → Nat → Option Toplevel := fun _ _ => none
  findDesktop : Workspace → Bool → Nat → Option Toplevel := fun _ _ _ => none
  rootWindow : XWindow := 1
  setDesktop : Workspace → Toplevel → Int → Int := fun _ _ d => d
  ensureStackingOrder : Workspace → List Toplevel → List Toplevel := fun _ l => l
  is_multihead : Bool := false
  currentInputWindow : XWindow := 0
  windowGeometryRoot : XWindow → Option XWindow := fun _ => none
  operationMode : OperationMode := OperationMode.OperationModeX11
  x11DesktopNumber : Nat → Nat := fun d => d
  isHideUtilityWindowsForInactive : Bool := true
  hasTransient : Workspace → Toplevel → Toplevel → Bool → Bool := fun _ _ _ _ => false

/-- Records a call. -/
def Workspace.call (ws : Workspace) (k : Call) : Workspace :=
  { ws with calls := ws.calls ++ [k] }

/-- Records a call when the condition holds: `if (b) k();`. -/
def Workspace.callIf (ws : Workspace) (b : Bool) (k : Call) : Workspace :=
  if b then ws.call k else ws

/-- Records a call on the object a pointer refers to, when the pointer is not
null: `if (p) p->k();`. -/
def Workspace.callOn {α : Type} (ws : Workspace) (p : Option α) (k : α → Call) : Workspace :=
  match p with
  | some a => ws.call (k a)
  | none => ws

/-- The calls issued between the state `ws` and the later state `ws1`. -/
def issued (ws ws1 : Workspace) : List Call :=
  ws1.calls.drop ws.calls.length

/-- The member initialisers of the constructor `Workspace::Workspace`
(workspace.cpp:106-131); the containers are default-constructed, hence empty.
`heap` holds the objects that exist. -/
def Workspace.constructor (heap : Toplevel → Client) : Workspace :=
  { heap := heap
    active_popup_client := none
    m_initialDesktop := 1
    active_client := none
    last_active_client := none
    most_recently_raised := none
    movingClient := none
    delayfocus_client := none
    force_restacking := false
    showing_desktop := false
    was_user_interaction := false
    session_saving := false
    block_focus := 0
    client_keys_client := none
    set_active_client_recursion := 0
    block_stacking_updates := 0 }

/-- The accessor `Workspace::activeClient`. -/
def Workspace.activeClient (ws : Workspace) : Option Toplevel :=
  ws.active_client

/-- The accessor `Workspace::showingDesktop`. -/
def Workspace.showingDesktop (ws : Workspace) : Bool :=
  ws.showing_desktop

/-- Modelled from the spec: `isOnCurrentDesktop()`, declared outside the
translated sources: the window is on the desktop that the virtual desktop
manager reports as current. -/
def isOnCurrentDesktop (env : Env) (c : Client) : Bool :=
  c.isOnDesktop (env.vdsCurrent : Int)

/-- Modelled from the spec: `isOnCurrentActivity()`, declared outside the
translated sources: the window is on the current activity; without an
activities service every window is. -/
def isOnCurrentActivity (env : Env) (c : Client) : Bool :=
  if env.activitiesSelf then c.isOnActivity env.currentActivity else true

/-- The cast `qobject_cast<X11Client *>`. -/
def castX11Client (ws : Workspace) (t : Toplevel) : Option Toplevel :=
  if (ws.heap t).kind = Kind.X11Client then some t else none

/-- The cast `qobject_cast<AbstractClient *>`. -/
def castAbstractClient (ws : Workspace) (t : Toplevel) : Option Toplevel :=
  match (ws.heap t).kind with
  | Kind.X11Client => some t
  | Kind.XdgShellClient => some t
  | Kind.InternalClient => some t
  | _ => none

/-! ## Registering and releasing windows -/

/-- The function `Workspace::markXStackingOrderAsDirty` (workspace.cpp:1769). -/
def markXStackingOrderAsDirty (env : Env) (ws : Workspace) : Workspace :=
  let ws := ws.call Call.markXStackingOrderAsDirty
  let ws := { ws with m_xStackingDirty := true }
  if env.x11Connection then { ws with m_xStackingQueryTree := true } else ws

/-- The function `Workspace::setupClientConnections` (workspace.cpp:601); its
body connects signals of `c` and writes no member. -/
def setupClientConnections (ws : Workspace) (c : Toplevel) : Workspace :=
  ws.call (Call.setupClientConnections c)

/-- The function `Workspace::updateTabbox` (workspace.cpp:1791). -/
def updateTabbox (env : Env) (ws : Workspace) : Workspace :=
  let ws := ws.call Call.updateTabbox
  ws.callIf env.tabBoxDisplayed Call.tabBoxReset

/-- The function `Workspace::cancelDelayFocus` (workspace.cpp:1257). -/
def cancelDelayFocus (ws : Workspace) : Workspace :=
  let ws := ws.call Call.cancelDelayFocus
  { ws with delayFocusTimer := false }

/-- The function `Workspace::focusToNull` (workspace.cpp:1272). -/
def focusToNull (ws : Workspace) : Workspace :=
  let ws := ws.call Call.focusToNull
  ws.callIf ws.m_nullFocus Call.nullFocusFocus

/-- Lines 645-650 of `Workspace::addClient`: the group is looked up, the
signal `clientAdded` is emitted and the group, if there is one, gets its leader. -/
def addClient.announce (env : Env) (ws : Workspace) (c : Toplevel) : Workspace :=
  let ws := ws.call (Call.addClient c)
  let grp := env.findGroup ws (ws.heap c).window
  let ws := ws.call (Call.clientAdded c)
  ws.callOn grp (fun g => Call.gotLeader g c)

/-- Lines 652-660 of `Workspace::addClient`: a desktop window goes to
`desktops`, any other client to the focus chain, `clients` and `m_allClients`. -/
def addClient.register (env : Env) (ws : Workspace) (c : Toplevel) : Workspace :=
  if (ws.heap c).isDesktop then
    let ws := { ws with desktops := QList.append ws.desktops c }
    ws.callIf
      (ws.active_client == none && QList.isEmpty ws.should_get_focus &&
        isOnCurrentDesktop env (ws.heap c))
      (Call.requestFocus (some c))
  else
    let ws := ws.call (Call.focusChainUpdate c FocusChainChange.Update)
    let ws := { ws with focusChain := env.focusChainUpdate ws c FocusChainChange.Update }
    let ws := { ws with clients := QList.append ws.clients c }
    { ws with m_allClients := QList.append ws.m_allClients c }

/-- Lines 661-664 of `Workspace::addClient`: the insertion into the two
stacking lists. -/
def addClient.insert (ws : Workspace) (c : Toplevel) : Workspace :=
  let ws :=
    if !QList.contains ws.unconstrained_stacking_order c then
      { ws with unconstrained_stacking_order := QList.append ws.unconstrained_stacking_order c }
    else ws
  if !QList.contains ws.stacking_order c then
    { ws with stacking_order := QList.append ws.stacking_order c }
  else ws

/-- Lines 665-679 of `Workspace::addClient`: the calls that follow the
insertion. -/
def addClient.finish (env : Env) (ws : Workspace) (c : Toplevel) : Workspace :=
  let ws := markXStackingOrderAsDirty env ws
  let ws := ws.call Call.updateClientArea
  let ws := ws.call (Call.updateClientLayer c)
  let ws :=
    if (ws.heap c).isDesktop then
      let ws := ws.call (Call.raiseClient c)
      ws.callIf (ws.activeClient == none && QList.count ws.should_get_focus == 0)
        (Call.activateClient (env.findDesktop ws true env.vdsCurrent))
    else ws
  let ws := ws.call (Call.checkActiveModal c)
  let ws := ws.call (Call.checkTransients (ws.heap c).window)
  let ws := ws.call (Call.updateStackingOrder true)
  let ws :=
    ws.callIf ((ws.heap c).isUtility || (ws.heap c).isMenu || (ws.heap c).isToolbar)
      (Call.updateToolWindows true)
  updateTabbox env ws

/-- The function `Workspace::addClient` (workspace.cpp:643), its four parts in
program order. -/
def addClient (env : Env) (ws : Workspace) (c : Toplevel) : Workspace :=
  let ws := addClient.announce env ws c
  let ws := addClient.register env ws c
  let ws := addClient.insert ws c
  addClient.finish env ws c

/-- The function `Workspace::createClient` (workspace.cpp:608). `c` is the
address of the object made by `new X11Client()`; `manage` answers with the
members of the managed client, or with `none` when it returns `false`. The
`StackingUpdatesBlocker` is entered first and left on every return. -/
def createClient (env : Env) (ws : Workspace) (c : Toplevel) (w : XWindow) (is_mapped : Bool) :
    Workspace × Option Toplevel :=
  let ws := ws.call (Call.createClient w is_mapped)
  let ws := ws.call (Call.blockStackingUpdates true)
  let ws := setupClientConnections ws c
  let ws := ws.call (Call.manage c w is_mapped)
  match env.manage c w is_mapped with
  | none =>
    let ws := ws.call (Call.deleteClient c)
    (ws.call (Call.blockStackingUpdates false), none)
  | some members =>
    let ws := { ws with heap := Function.update ws.heap c members }
    let ws := addClient env ws c
    (ws.call (Call.blockStackingUpdates false), some c)

/-- The function `Workspace::addUnmanaged` (workspace.cpp:682). -/
def addUnmanaged (env : Env) (ws : Workspace) (c : Toplevel) : Workspace :=
  let ws := ws.call (Call.addUnmanaged c)
  let ws := { ws with unmanaged := QList.append ws.unmanaged c }
  markXStackingOrderAsDirty env ws

/-- The test of lines 627-631 of `Workspace::createUnmanaged`: there is an X11
compositor and `w` is its overlay window. -/
def checkForOverlayWindow (env : Env) (w : XWindow) : Bool :=
  match env.x11CompositorSelf with
  | some compositor => compositor.checkForOverlayWindow w
  | none => false

/-- The function `Workspace::createUnmanaged` (workspace.cpp:625). `c` is the
address of the object made by `new Unmanaged()`; `track` answers with the
members of the tracked window, or with `none` when it returns `false`. -/
def createUnmanaged (env : Env) (ws : Workspace) (c : Toplevel) (w : XWindow) :
    Workspace × Option Toplevel :=
  let ws := ws.call (Call.createUnmanaged w)
  if checkForOverlayWindow env w then (ws, none) else
  let ws := ws.call (Call.track c w)
  match env.track c w with
  | none => (ws.call (Call.deleteUnmanaged c), none)
  | some members =>
    let ws := { ws with heap := Function.update ws.heap c members }
    let ws := addUnmanaged env ws c
    let ws := ws.call (Call.unmanagedAdded c)
    (ws, some c)

/-- Lines 693-704 of `Workspace::removeClient`: popup, user actions menu and
shortcut of the client are closed or cleared. -/
def removeClient.prepare (env : Env) (ws : Workspace) (c : Toplevel) : Workspace :=
  let ws := ws.call (Call.removeClient c)
  let ws := ws.callIf (ws.active_popup_client == some c) Call.closeActivePopup
  let ws := ws.callIf (env.isMenuClient ws c) Call.userActionsMenuClose
  let ws := ws.callIf (ws.client_keys_client == some c) (Call.setupWindowShortcutDone false)
  let ws := ws.callIf (ws.heap c).hasShortcut (Call.setShortcut c)
  ws.callIf (ws.heap c).hasShortcut (Call.clientShortcutUpdated c)

/-- Lines 708-719 of `Workspace::removeClient`: the client is taken out of the
lists that `removeClient` itself maintains. -/
def removeClient.detach (env : Env) (ws : Workspace) (c : Toplevel) : Workspace :=
  let ws := { ws with clients := QList.removeAll ws.clients c }
  let ws := { ws with m_allClients := QList.removeAll ws.m_allClients c }
  let ws := { ws with desktops := QList.removeAll ws.desktops c }
  let ws := markXStackingOrderAsDirty env ws
  let ws := { ws with attention_chain := QList.removeAll ws.attention_chain c }
  let ws := ws.callOn (env.findGroup ws (ws.heap c).window) (fun group => Call.lostLeader group)
  let ws :=
    if ws.most_recently_raised == some c then { ws with most_recently_raised := none } else ws
  { ws with should_get_focus := QList.removeAll ws.should_get_focus c }

/-- Lines 721-730 of `Workspace::removeClient`. The signal `clientRemoved` is
connected to `FocusChain::remove` (workspace.cpp:218). -/
def removeClient.finish (env : Env) (ws : Workspace) (c : Toplevel) : Workspace :=
  let ws := if ws.last_active_client == some c then { ws with last_active_client := none } else ws
  let ws := if ws.delayfocus_client == some c then cancelDelayFocus ws else ws
  let ws := ws.call (Call.clientRemoved c)
  let ws := ws.call (Call.focusChainRemove c)
  let ws := { ws with focusChain := ws.focusChain.remove c }
  let ws := ws.call (Call.updateStackingOrder true)
  let ws := ws.call Call.updateClientArea
  updateTabbox env ws

/-- The function `Workspace::removeClient` (workspace.cpp:691), its parts in
program order with the two assertions between them. -/
def removeClient (env : Env) (ws : Workspace) (c : Toplevel) : Option Workspace :=
  let ws := removeClient.prepare env ws c
  if !(QList.contains ws.clients c || QList.contains ws.desktops c) then none else
  let ws := removeClient.detach env ws c
  if ws.active_client == some c then none else
  some (removeClient.finish env ws c)

/-- The function `Workspace::addDeleted` (workspace.cpp:741). -/
def addDeleted (env : Env) (ws : Workspace) (c : Toplevel) (orig : Toplevel) : Option Workspace :=
  let ws := ws.call (Call.addDeleted c orig)
  if QList.contains ws.deleted c then none else
  let ws := { ws with deleted := QList.append ws.deleted c }
  let unconstraintedIndex := QList.indexOf ws.unconstrained_stacking_order orig
  let ws :=
    if unconstraintedIndex != -1 then
      { ws with unconstrained_stacking_order :=
          QList.replace ws.unconstrained_stacking_order unconstraintedIndex c }
    else
      { ws with unconstrained_stacking_order := QList.append ws.unconstrained_stacking_order c }
  let index := QList.indexOf ws.stacking_order orig
  let ws :=
    if index != -1 then
      { ws with stacking_order := QList.replace ws.stacking_order index c }
    else
      { ws with stacking_order := QList.append ws.stacking_order c }
  some (markXStackingOrderAsDirty env ws)

/-- The function `Workspace::removeDeleted` (workspace.cpp:761). -/
def removeDeleted (env : Env) (ws : Workspace) (c : Toplevel) : Option Workspace :=
  let ws := ws.call (Call.removeDeleted c)
  if !QList.contains ws.deleted c then none else
  let ws := ws.call (Call.deletedRemoved c)
  let ws := { ws with deleted := QList.removeAll ws.deleted c }
  let ws := { ws with unconstrained_stacking_order :=
                QList.removeAll ws.unconstrained_stacking_order c }
  let ws := { ws with stacking_order := QList.removeAll ws.stacking_order c }
  let ws := markXStackingOrderAsDirty env ws
  if !(ws.heap c).wasClient then some ws else
  some (ws.callOn env.x11CompositorSelf (fun _ => Call.updateClientCompositeBlocking))

/-- Lines 299-315 of the `shellClientAdded` handler: the client is placed
unless its position is already decided. -/
def shellClientAdded.place (ws : Workspace) (c : Toplevel) : Workspace :=
  let placementDone := false
  let placementDone := if (ws.heap c).initialPositionSet then true else placementDone
  let placementDone := if (ws.heap c).fullScreen then true else placementDone
  let placementDone := if (ws.heap c).maximizeFull then true else placementDone
  let placementDone := if (ws.heap c).rulePosition then true else placementDone
  ws.callIf (!placementDone) (Call.placeIn c)

/-- Lines 316-320 of the `shellClientAdded` handler: the insertion into
`m_allClients` and the two stacking lists. -/
def shellClientAdded.insert (ws : Workspace) (c : Toplevel) : Workspace :=
  let ws := { ws with m_allClients := QList.append ws.m_allClients c }
  let ws :=
    if !QList.contains ws.unconstrained_stacking_order c then
      { ws with unconstrained_stacking_order := QList.append ws.unconstrained_stacking_order c }
    else ws
  if !QList.contains ws.stacking_order c then
    { ws with stacking_order := QList.append ws.stacking_order c }
  else ws

/-- Lines 322-328 of the `shellClientAdded` handler: the calls that follow. -/
def shellClientAdded.finish (env : Env) (ws : Workspace) (c : Toplevel) : Workspace :=
  let ws := markXStackingOrderAsDirty env ws
  let ws := ws.call (Call.updateStackingOrder true)
  let ws := ws.call Call.updateClientArea
  let ws :=
    ws.callIf ((ws.heap c).wantsInput && !(ws.heap c).isMinimized) (Call.activateClient (some c))
  updateTabbox env ws

/-- The handler of `WaylandServer::shellClientAdded` that `Workspace::init`
installs (workspace.cpp:294-328), up to the connections it makes for `c`. -/
def shellClientAdded (env : Env) (ws : Workspace) (c : Toplevel) : Workspace :=
  let ws := ws.call (Call.shellClientAdded c)
  let ws := setupClientConnections ws c
  let ws := ws.call (Call.updateDecoration c false)
  let ws := ws.call (Call.updateClientLayer c)
  let ws :=
    if !(ws.heap c).internal then
      let ws := shellClientAdded.place ws c
      shellClientAdded.insert ws c
    else ws
  shellClientAdded.finish env ws c

/-! ## Restoring the focus after a desktop or activity switch -/

/-- The loop of `Workspace::findClientToActivateOnDesktop`
(workspace.cpp:1007-1022) over the windows still to visit, topmost first:
`some c` when the loop returns `c`, `none` when it breaks or runs out. -/
def findClientToActivateOnDesktop.scan (env : Env) (ws : Workspace) (desktop : Nat) :
    List Toplevel → Option Toplevel
  | [] => none
  | t :: rest =>
    match castX11Client ws t with
    | none => findClientToActivateOnDesktop.scan env ws desktop rest
    | some client =>
      if !(Client.isShown client (ws.heap client) false &&
            (ws.heap client).isOnDesktop (desktop : Int) &&
            isOnCurrentActivity env (ws.heap client) && (ws.heap client).onActiveScreen) then
        findClientToActivateOnDesktop.scan env ws desktop rest
      else if (ws.heap client).frameGeometry.contains env.cursorPos then
        if !(ws.heap client).isDesktop then some client else none
      else findClientToActivateOnDesktop.scan env ws desktop rest

/-- The function `Workspace::findClientToActivateOnDesktop` (workspace.cpp:996). -/
def findClientToActivateOnDesktop (env : Env) (ws : Workspace) (desktop : Nat) :
    Option Toplevel :=
  let moving :=
    match ws.active_client with
    | some a =>
      ws.movingClient != none && ws.active_client == ws.movingClient &&
        ws.focusChain.contains a desktop &&
        Client.isShown a (ws.heap a) true && isOnCurrentDesktop env (ws.heap a)
    | none => false
  if moving then ws.active_client else
  let found :=
    if env.isNextFocusPrefersMouse then
      findClientToActivateOnDesktop.scan env ws desktop ws.stacking_order.reverse
    else none
  match found with
  | some client => some client
  | none => env.getForActivation ws desktop

/-- The local variable `c` of `Workspace::activateClientOnNewDesktop` after the
focus policy has been asked (workspace.cpp:972-980). -/
def activateClientOnNewDesktop.candidate (env : Env) (ws : Workspace) (desktop : Nat) :
    Option Toplevel :=
  let c : Option Toplevel := none
  if env.focusPolicyIsReasonable then findClientToActivateOnDesktop env ws desktop
  else
    match ws.active_client with
    | some a =>
      if Client.isShown a (ws.heap a) true && isOnCurrentDesktop env (ws.heap a) then
        ws.active_client
      else c
    | none => c

/-- The local variable `c` of `Workspace::activateClientOnNewDesktop` when the
comparison with `active_client` is reached (workspace.cpp:972-983). -/
def activateClientOnNewDesktop.c (env : Env) (ws : Workspace) (desktop : Nat) :
    Option Toplevel :=
  let c := activateClientOnNewDesktop.candidate env ws desktop
  if c == none && !QList.isEmpty ws.desktops then env.findDesktop ws true desktop else c

/-- The function `Workspace::activateClientOnNewDesktop` (workspace.cpp:970). -/
def activateClientOnNewDesktop (env : Env) (ws : Workspace) (desktop : Nat) : Workspace :=
  let ws := ws.call (Call.activateClientOnNewDesktop desktop)
  let c := activateClientOnNewDesktop.c env ws desktop
  let ws := ws.callIf (c != ws.active_client) (Call.setActiveClient none)
  match c with
  | some x => ws.call (Call.requestFocus (some x))
  | none =>
    if !QList.isEmpty ws.desktops then
      ws.call (Call.requestFocus (env.findDesktop ws true desktop))
    else focusToNull ws

/-- One step of the loop of `Workspace::setShowingDesktop`
(workspace.cpp:1292-1307). -/
def setShowingDesktop.step (env : Env) (acc : Workspace × Option Toplevel) (t : Toplevel) :
    Workspace × Option Toplevel :=
  let ws := acc.1
  let topDesk := acc.2
  match castAbstractClient ws t with
  | none => (ws, topDesk)
  | some c =>
    if isOnCurrentDesktop env (ws.heap c) then
      if (ws.heap c).isDock then (ws.call (Call.updateLayer c), topDesk)
      else if (ws.heap c).isDesktop && Client.isShown c (ws.heap c) true then
        let ws := ws.call (Call.updateLayer c)
        let ws := ws.call (Call.lowerClient c)
        let topDesk := if topDesk == none then some c else topDesk
        let members := match (ws.heap c).in_group with
          | some group => env.groupMembers group
          | none => []
        let ws := members.foldl (fun ws cm => ws.call (Call.updateLayer cm)) ws
        (ws, topDesk)
      else (ws, topDesk)
    else (ws, topDesk)

/-- The function `Workspace::setShowingDesktop` (workspace.cpp:1279). -/
def setShowingDesktop (env : Env) (ws : Workspace) (showing : Bool) : Workspace :=
  let ws := ws.call (Call.setShowingDesktop showing)
  let changed := showing != ws.showing_desktop
  let ws := ws.callIf (env.rootInfo && changed) (Call.rootInfoSetShowingDesktop showing)
  let ws := { ws with showing_desktop := showing }
  let ws := ws.call (Call.blockStackingUpdates true)
  let r := ws.stacking_order.reverse.foldl (setShowingDesktop.step env) (ws, none)
  let ws := r.1
  let topDesk := r.2
  let ws := ws.call (Call.blockStackingUpdates false)
  let ws :=
    if ws.showing_desktop && topDesk != none then ws.call (Call.requestFocus topDesk)
    else if !ws.showing_desktop && changed then
      ws.callOn (env.getForActivation ws env.vdsCurrent)
        (fun client => Call.activateClient (some client))
    else ws
  ws.callIf changed (Call.showingDesktopChanged showing)

/-- The hiding loop of `Workspace::updateCurrentActivity`
(workspace.cpp:1049-1059), one window. -/
def updateCurrentActivity.hide (env : Env) (new_activity : String) (ws : Workspace)
    (t : Toplevel) : Workspace :=
  match castX11Client ws t with
  | none => ws
  | some c =>
    ws.callIf
      (!(ws.heap c).isOnActivity new_activity && ws.movingClient != some c &&
        isOnCurrentDesktop env (ws.heap c))
      (Call.updateVisibility c)

/-- The showing loop of `Workspace::updateCurrentActivity`
(workspace.cpp:1070-1077), one window. -/
def updateCurrentActivity.show (new_activity : String) (ws : Workspace) (t : Toplevel) :
    Workspace :=
  match castX11Client ws t with
  | none => ws
  | some c =>
    ws.callIf ((ws.heap c).isOnActivity new_activity) (Call.updateVisibility c)

/-- The local variable `c` of `Workspace::updateCurrentActivity` after the
focus policy has been asked (workspace.cpp:1085-1096). -/
def updateCurrentActivity.candidate (env : Env) (ws : Workspace) : Option Toplevel :=
  let c : Option Toplevel := none
  if env.focusPolicyIsReasonable then env.getForActivation ws env.vdsCurrent
  else
    match ws.active_client with
    | some a =>
      if Client.isShown a (ws.heap a) true && isOnCurrentDesktop env (ws.heap a) &&
          isOnCurrentActivity env (ws.heap a) then
        ws.active_client
      else c
    | none => c

/-- The local variable `c` of `Workspace::updateCurrentActivity` when the
comparison with `active_client` is reached (workspace.cpp:1085-1099). -/
def updateCurrentActivity.c (env : Env) (ws : Workspace) : Option Toplevel :=
  let c := updateCurrentActivity.candidate env ws
  if c == none && !QList.isEmpty ws.desktops then env.findDesktop ws true env.vdsCurrent else c

/-- The focus-restoring tail of `Workspace::updateCurrentActivity`
(workspace.cpp:1085-1109). -/
def updateCurrentActivity.restoreFocus (env : Env) (ws : Workspace) : Workspace :=
  let c := updateCurrentActivity.c env ws
  let ws := ws.callIf (c != ws.active_client) (Call.setActiveClient none)
  match c with
  | some x => ws.call (Call.requestFocus (some x))
  | none =>
    if !QList.isEmpty ws.desktops then
      ws.call (Call.requestFocus (env.findDesktop ws true env.vdsCurrent))
    else focusToNull ws

/-- The function `Workspace::updateCurrentActivity` (workspace.cpp:1034), built
with activities; `env.activitiesSelf` says whether `Activities::self()` exists. -/
def updateCurrentActivity (env : Env) (ws : Workspace) (new_activity : String) : Workspace :=
  let ws := ws.call (Call.updateCurrentActivity new_activity)
  if !env.activitiesSelf then ws else
  let ws := { ws with block_focus := ws.block_focus + 1 }
  let ws := ws.call (Call.blockStackingUpdates true)
  let ws := ws.stacking_order.foldl (updateCurrentActivity.hide env new_activity) ws
  let ws := ws.stacking_order.reverse.foldl (updateCurrentActivity.show new_activity) ws
  let ws := if ws.showingDesktop then setShowingDesktop env ws false else ws
  let ws := { ws with block_focus := ws.block_focus - 1 }
  let ws := updateCurrentActivity.restoreFocus env ws
  let compositing := match env.m_compositor with
    | some compositor => compositor.scene
    | none => false
  let ws := ws.callIf compositing Call.addRepaintFull
  ws.call (Call.blockStackingUpdates false)

/-! ## Changing the desktop -/

/-- The call `c->setDesktop(desktop)`. The method is outside the translated
sources: the call is recorded, and the desktop it leaves the client on is the
answer `env.setDesktop`. The call takes effect when that answer is the desktop
asked for; `sendClientToDesktop` (workspace.cpp:1174) provides for the other
case, "No change or desktop forced". -/
def setDesktop (env : Env) (ws : Workspace) (c : Toplevel) (desktop : Int) : Workspace :=
  let ws := ws.call (Call.setDesktop c desktop)
  { ws with
    heap := Function.update ws.heap c
      { ws.heap c with desktop := env.setDesktop ws c desktop } }

/-- The first loop of `Workspace::updateClientVisibilityOnDesktopChange`
(workspace.cpp:938-948), one window. `newDesktop` is a `uint` and is passed for
the `int` parameter of `isOnDesktop`. -/
def updateClientVisibilityOnDesktopChange.hide (env : Env) (newDesktop : Nat)
    (ws : Workspace) (t : Toplevel) : Workspace :=
  match castX11Client ws t with
  | none => ws
  | some c =>
    ws.callIf
      (!(ws.heap c).isOnDesktop (static_cast_int newDesktop) && ws.movingClient != some c &&
        isOnCurrentActivity env (ws.heap c))
      (Call.updateVisibility c)

/-- The first loop of `Workspace::updateClientVisibilityOnDesktopChange`
(workspace.cpp:938-948): the hiding pass, bottom to top. -/
def updateClientVisibilityOnDesktopChange.hideAll (env : Env) (newDesktop : Nat)
    (ws : Workspace) : Workspace :=
  ws.stacking_order.foldl (updateClientVisibilityOnDesktopChange.hide env newDesktop) ws

/-- The statements of `Workspace::updateClientVisibilityOnDesktopChange` between
its loops (workspace.cpp:949-956). `newDesktop` is a `uint` and is passed for the
`int` parameters of `isOnDesktop` and `setDesktop`. -/
def updateClientVisibilityOnDesktopChange.propagate (env : Env) (newDesktop : Nat)
    (ws : Workspace) : Workspace :=
  let ws := ws.callIf env.rootInfo (Call.rootInfoSetCurrentDesktop env.vdsCurrent)
  match ws.movingClient with
  | some m =>
    if !(ws.heap m).isOnDesktop (static_cast_int newDesktop) then setDesktop env ws m (static_cast_int newDesktop)
    else ws
  | none => ws

/-- The second loop of `Workspace::updateClientVisibilityOnDesktopChange`
(workspace.cpp:958-965), one window. `newDesktop` is a `uint` and is passed for
the `int` parameter of `isOnDesktop`. -/
def updateClientVisibilityOnDesktopChange.show (env : Env) (newDesktop : Nat)
    (ws : Workspace) (t : Toplevel) : Workspace :=
  match castX11Client ws t with
  | none => ws
  | some c =>
    ws.callIf
      ((ws.heap c).isOnDesktop (static_cast_int newDesktop) && isOnCurrentActivity env (ws.heap c))
      (Call.updateVisibility c)

/-- The second loop of `Workspace::updateClientVisibilityOnDesktopChange`
(workspace.cpp:958-965): the showing pass, top to bottom. -/
def updateClientVisibilityOnDesktopChange.showAll (env : Env) (newDesktop : Nat)
    (ws : Workspace) : Workspace :=
  ws.stacking_order.reverse.foldl (updateClientVisibilityOnDesktopChange.show env newDesktop) ws

/-- The function `Workspace::updateClientVisibilityOnDesktopChange`
(workspace.cpp:936). -/
def updateClientVisibilityOnDesktopChange (env : Env) (ws : Workspace) (newDesktop : Nat) :
    Workspace :=
  let ws := ws.call (Call.updateClientVisibilityOnDesktopChange newDesktop)
  let ws := updateClientVisibilityOnDesktopChange.hideAll env newDesktop ws
  let ws := updateClientVisibilityOnDesktopChange.propagate env newDesktop ws
  let ws := updateClientVisibilityOnDesktopChange.showAll env newDesktop ws
  if ws.showingDesktop then setShowingDesktop env ws false else ws

/-- The state in which `Workspace::updateClientVisibilityOnDesktopChange` leaves
its first loop (workspace.cpp:948). -/
def updateClientVisibilityOnDesktopChange.afterHiding (env : Env) (ws : Workspace)
    (newDesktop : Nat) : Workspace :=
  updateClientVisibilityOnDesktopChange.hideAll env newDesktop
    (ws.call (Call.updateClientVisibilityOnDesktopChange newDesktop))

/-- The state in which `Workspace::updateClientVisibilityOnDesktopChange` enters
its second loop (workspace.cpp:958). -/
def updateClientVisibilityOnDesktopChange.afterPropagating (env : Env) (ws : Workspace)
    (newDesktop : Nat) : Workspace :=
  updateClientVisibilityOnDesktopChange.propagate env newDesktop
    (updateClientVisibilityOnDesktopChange.afterHiding env ws newDesktop)

/-- The state in which `Workspace::updateClientVisibilityOnDesktopChange` leaves
its second loop (workspace.cpp:965). -/
def updateClientVisibilityOnDesktopChange.afterShowing (env : Env) (ws : Workspace)
    (newDesktop : Nat) : Workspace :=
  updateClientVisibilityOnDesktopChange.showAll env newDesktop
    (updateClientVisibilityOnDesktopChange.afterPropagating env ws newDesktop)

/-- The later state `ws1` has the calls of `ws`, followed by calls none of
which is `c->updateVisibility()`. -/
def issuesNoUpdateVisibility (c : Toplevel) (ws ws1 : Workspace) : Prop :=
  ∃ extra, ws1.calls = ws.calls ++ extra ∧ extra.countP (Call.isUpdateVisibility c) = 0

/-- The later state `ws1` has the calls of `ws`, followed by calls that all
satisfy `P`. -/
def issuesOnly (P : Call → Prop) (ws ws1 : Workspace) : Prop :=
  ∃ extra, ws1.calls = ws.calls ++ extra ∧ ∀ k ∈ extra, P k

/-- The calls `updateLayer()` on a client and `lowerClient`, which the loop of
`setShowingDesktop` issues. -/
def Call.isLayering : Call → Prop
  | Call.updateLayer _ => True
  | Call.lowerClient _ => True
  | _ => False

/-- The calls `rootInfo()->setShowingDesktop`. -/
def Call.isRootInfoSetShowingDesktop : Call → Bool
  | Call.rootInfoSetShowingDesktop _ => true
  | _ => false

/-- The emissions of the signal `showingDesktopChanged`. -/
def Call.isShowingDesktopChanged : Call → Bool
  | Call.showingDesktopChanged _ => true
  | _ => false

/-- The calls `activateClient`. -/
def Call.isActivateClient : Call → Bool
  | Call.activateClient _ => true
  | _ => false

/-- The clients of the later state `ws1` are the clients of `ws`, but that some
of them have been put on the desktop `desk`. -/
def movedTo (desk : Int) (ws ws1 : Workspace) : Prop :=
  ∀ x, ws1.heap x = ws.heap x ∨ ws1.heap x = { ws.heap x with desktop := desk }

/-- The choice of `Workspace::sendClientToDesktop` between focusing, restacking
and raising the client (workspace.cpp:1178-1186). -/
def sendClientToDesktop.restack (env : Env) (ws : Workspace) (c : Toplevel)
    (was_on_desktop dont_activate : Bool) : Workspace :=
  if (ws.heap c).isOnDesktop (static_cast_int env.vdsCurrent) then
    if (ws.heap c).wantsTabFocus && env.focusPolicyIsReasonable && !was_on_desktop &&
        !dont_activate then
      ws.call (Call.requestFocus (some c))
    else ws.call (Call.restackClientUnderActive c)
  else ws.call (Call.raiseClient c)

/-- The statements of `Workspace::sendClientToDesktop` before its loop
(workspace.cpp:1169-1188), with the value of `desk` that the loop uses; no such
value when the function returns before the loop. The first test compares `desk`
with `static_cast<int>` of the number of desktops, and `isOnDesktop` is given the
current desktop, a `uint`, for its `int` parameter. -/
def sendClientToDesktop.self (env : Env) (ws : Workspace) (c : Toplevel) (desk : Int)
    (dont_activate : Bool) : Workspace × Option Int :=
  let ws := ws.call (Call.sendClientToDesktop c desk dont_activate)
  if (decide (desk < 1) && desk != NET.OnAllDesktops) ||
      decide (desk > static_cast_int env.vdsCount) then (ws, none) else
  let old_desktop := (ws.heap c).desktop
  let was_on_desktop := (ws.heap c).isOnDesktop desk || (ws.heap c).isOnAllDesktops
  let ws := setDesktop env ws c desk
  if (ws.heap c).desktop != desk then (ws, none) else
  let desk := (ws.heap c).desktop
  let ws := sendClientToDesktop.restack env ws c was_on_desktop dont_activate
  let ws := ws.call (Call.checkWorkspacePosition c old_desktop)
  (ws, some desk)

/-- The function `Workspace::sendClientToDesktop` (workspace.cpp:1167).
`ensureStackingOrder` is outside the translated sources; its answer is
`env.ensureStackingOrder`. The recursion of the source need not end, since
nothing in it keeps a window from being reached again through the transients;
`fuel` bounds the depth of the recursion, and the result is `none` when the
bound is reached. -/
def sendClientToDesktop (env : Env) :
    Nat → Workspace → Toplevel → Int → Bool → Option Workspace
  | 0, _, _, _, _ => none
  | fuel + 1, ws, c, desk, dont_activate =>
    match sendClientToDesktop.self env ws c desk dont_activate with
    | (ws, none) => some ws
    | (ws, some desk) =>
      let transients_stacking_order := env.ensureStackingOrder ws (ws.heap c).transients
      match transients_stacking_order.foldlM
          (fun ws it => sendClientToDesktop env fuel ws it desk dont_activate) ws with
      | none => none
      | some ws => some (ws.call Call.updateClientArea)

/-- The window `x` is the window `c`, or is reached from it through the
transients of the clients of `ws`. -/
def reachedFrom (ws : Workspace) (c x : Toplevel) : Prop :=
  Relation.ReflTransGen (fun p t => t ∈ (ws.heap p).transients) c x

/-- The test of the X11 branch of the `desktopRemoved` handler
(workspace.cpp:245): the client is not on all desktops and its desktop is beyond
the number of desktops, which is a `uint` that the test converts with
`static_cast<int>`. -/
def desktopRemoved.beyond (env : Env) (ws : Workspace) (it : Toplevel) : Bool :=
  !(ws.heap it).isOnAllDesktops &&
    decide ((ws.heap it).desktop > static_cast_int env.vdsCount)

/-- The X11 branch of the `desktopRemoved` handler that `Workspace::init`
connects (workspace.cpp:243-249), one client. The number of desktops, a `uint`,
is passed for the `int` parameter `desk` of `sendClientToDesktop`. -/
def desktopRemoved.x11 (env : Env) (fuel : Nat) (ws : Workspace) (it : Toplevel) :
    Option Workspace :=
  if desktopRemoved.beyond env ws it then
    sendClientToDesktop env fuel ws it (static_cast_int env.vdsCount) true
  else some ws

/-- The Wayland branch of the `desktopRemoved` handler that `Workspace::init`
connects (workspace.cpp:232-241), one client. `desktops()` is the answer
`desktops` of the client, `x11DesktopNumber()` the answer `env.x11DesktopNumber`
for the desktop; `leaveDesktop` is outside the translated sources and recorded. -/
def desktopRemoved.wayland (env : Env) (fuel : Nat) (desktop : Nat) (ws : Workspace)
    (it : Toplevel) : Option Workspace :=
  if !QList.contains (ws.heap it).desktops desktop then some ws
  else if QList.count (ws.heap it).desktops > 1 then
    some (ws.call (Call.leaveDesktop it desktop))
  else
    sendClientToDesktop env fuel ws it
      (static_cast_int (min (env.x11DesktopNumber desktop) env.vdsCount)) true

/-- The handler of `VirtualDesktopManager::desktopRemoved` that `Workspace::init`
connects (workspace.cpp:227-251). `fuel` bounds the depth of the recursion of
each `sendClientToDesktop`; the result is `none` when a bound is reached. -/
def desktopRemoved (env : Env) (fuel : Nat) (ws : Workspace) (desktop : Nat) :
    Option Workspace :=
  let ws := ws.call (Call.desktopRemoved desktop)
  if env.operationMode == OperationMode.OperationModeWaylandOnly ||
      env.operationMode == OperationMode.OperationModeXwayland then
    ws.m_allClients.foldlM (desktopRemoved.wayland env fuel desktop) ws
  else
    ws.m_allClients.foldlM (desktopRemoved.x11 env fuel) ws

/-! ## The X screen of the input focus -/

/-- The function `Workspace::isOnCurrentHead` (workspace.cpp:1207), with its
answer. `is_multihead` is a variable of `main.cpp`. The requests of
`Xcb::CurrentInput` and `Xcb::WindowGeometry` are recorded; their answers are
`env.currentInputWindow`, the window that has the input focus, and
`env.windowGeometryRoot`, the root in the geometry of a window, which is null
when the geometry cannot be queried. -/
def isOnCurrentHead (env : Env) (ws : Workspace) : Workspace × Bool :=
  if !env.is_multihead then (ws, true) else
  let ws := ws.call Call.getInputFocus
  let currentInput := env.currentInputWindow
  if currentInput == XCB_WINDOW_NONE then (ws, !env.is_multihead) else
  let ws := ws.call (Call.getGeometry currentInput)
  match env.windowGeometryRoot currentInput with
  | none => (ws, !env.is_multihead)
  | some root => (ws, env.rootWindow == root)

/-! ## Looking up a client by a window id -/

/-- The template `Toplevel::findInList`, declared outside the translated
sources, taken as the search that its name and its callers state: the first
element of the list that the function accepts, null when there is none. -/
def Toplevel.findInList (ws : Workspace) (list : List Toplevel) (func : Client → Bool) :
    Option Toplevel :=
  list.find? (fun c => func (ws.heap c))

/-- The function `Workspace::findClient(std::function<bool (const X11Client *)>)`
(workspace.cpp:1652). -/
def findClient.func (ws : Workspace) (func : Client → Bool) : Option Toplevel :=
  match Toplevel.findInList ws ws.clients func with
  | some ret => some ret
  | none =>
    match Toplevel.findInList ws ws.desktops func with
    | some ret => some ret
    | none => none

/-- The function `Workspace::findClient(Predicate, xcb_window_t)`
(workspace.cpp:1689). -/
def findClient (ws : Workspace) (predicate : Predicate) (w : XWindow) : Option Toplevel :=
  match predicate with
  | Predicate.WindowMatch => findClient.func ws (fun c => c.window == w)
  | Predicate.WrapperIdMatch => findClient.func ws (fun c => c.wrapperId == w)
  | Predicate.FrameIdMatch => findClient.func ws (fun c => c.frameId == w)
  | Predicate.InputIdMatch => findClient.func ws (fun c => c.inputId == w)

/-- The window id of a client that a `Predicate` selects: `window()`,
`wrapperId()`, `frameId()` or `inputId()`. -/
def Predicate.id (p : Predicate) (c : Client) : XWindow :=
  match p with
  | Predicate.WindowMatch => c.window
  | Predicate.WrapperIdMatch => c.wrapperId
  | Predicate.FrameIdMatch => c.frameId
  | Predicate.InputIdMatch => c.inputId

/-! ## Transiency -/

/-- The function `Client::groupTransient` (client.h:1082). `rootWindow()` is a
function of the X11 support code; its answer is `env.rootWindow`. -/
def Client.groupTransient (env : Env) (c : Client) : Bool :=
  c.m_transientForId == env.rootWindow

/-- Modelled from the spec: `Client::mainClients()`, declared in client.h:305
("is not indirect") with its body outside the translated sources: the immediate
parents of the window. A window that is not transient has none. A child holds
one parent reference, and that window is then its parent; a group-transient
window holds a group reference instead, and its parents are the windows of the
group that hold it in their set of children. -/
def mainClients (env : Env) (ws : Workspace) (w : Toplevel) : List Toplevel :=
  if !(ws.heap w).isTransient then [] else
  match (ws.heap w).transientFor with
  | some parent => [parent]
  | none =>
    if (ws.heap w).groupTransient env then
      match (ws.heap w).in_group with
      | some group =>
        (env.groupMembers group).filter (fun m => QList.contains (ws.heap m).transients w)
      | none => []
    else []

/-- Modelled from the spec: the walk of `Client::allMainClients()`, declared in
client.h:306 ("is indirect") with its body outside the translated sources. The
walk computes the transitive closure of `mainClients()`, deduplicated, and
guards against a cycle of the transiency with a visited set: `todo` are the
windows still to visit, `set` the windows found so far, and a window found
before is not visited again. `fuel` bounds the number of steps; the result is
`none` when the bound is reached. -/
def allMainClients.visit (env : Env) (ws : Workspace) :
    Nat → List Toplevel → List Toplevel → Option (List Toplevel)
  | _, [], set => some set
  | 0, _ :: _, _ => none
  | fuel + 1, x :: todo, set =>
    if QList.contains set x then allMainClients.visit env ws fuel todo set
    else allMainClients.visit env ws fuel (mainClients env ws x ++ todo) (QList.append set x)

/-- Modelled from the spec: `Client::allMainClients()`, declared in client.h:306
with its body outside the translated sources: the walk from the main clients of
the window, nothing having been found yet. -/
def allMainClients (env : Env) (ws : Workspace) (fuel : Nat) (w : Toplevel) :
    Option (List Toplevel) :=
  allMainClients.visit env ws fuel (mainClients env ws w) []

/-- The steps that the walk of `allMainClients` still has to take at most, when
the main clients of every window are among `windows`: one for every window
still to visit, and for every window not found yet one more than it has main
clients. -/
def allMainClients.steps (env : Env) (ws : Workspace) (windows todo set : List Toplevel) :
    Nat :=
  todo.length +
    ((windows.filter (fun y => !QList.contains set y)).map
      (fun y => 1 + (mainClients env ws y).length)).sum

/-! ## Tool windows -/

/-- The loop of `Workspace::updateToolWindows` that goes up in the transiency
hierarchy (workspace.cpp:789-797), with the values of `client` and `group` that
it leaves. Nothing in the loop keeps it from coming back to a client; `fuel`
bounds the number of its steps, and the result is `none` when the bound is
reached. -/
def updateToolWindows.climb (env : Env) (ws : Workspace) :
    Nat → Option Toplevel → Option (Option Toplevel × Option Group)
  | _, none => some (none, none)
  | 0, some _ => none
  | fuel + 1, some client =>
    if !(ws.heap client).isTransient then some (some client, none)
    else if (ws.heap client).groupTransient env then
      some (some client, (ws.heap client).in_group)
    else updateToolWindows.climb env ws fuel (ws.heap client).transientFor

/-- The value of `show` in `Workspace::updateToolWindows` before `also_hide` is
looked at (workspace.cpp:809-826). `hasTransient` is outside the translated
sources; its answer is `env.hasTransient`. -/
def updateToolWindows.show (env : Env) (ws : Workspace) (client : Option Toplevel)
    (group : Option Group) (c : Toplevel) : Bool :=
  if !(ws.heap c).isTransient then
    if (match (ws.heap c).in_group with
        | none => true
        | some g => QList.count (env.groupMembers g) == 1) then true
    else if (match client with
        | none => false
        | some cl => (ws.heap c).in_group == (ws.heap cl).in_group) then true
    else false
  else
    if group != none && (ws.heap c).in_group == group then true
    else if (match client with
        | none => false
        | some cl => env.hasTransient ws cl c true) then true
    else false

/-- The value of `show` in `Workspace::updateToolWindows` once the main clients
have been looked at (workspace.cpp:827-839), for a window that `show` does not
show while `also_hide` is set. -/
def updateToolWindows.showForMainClients (env : Env) (ws : Workspace) (c : Toplevel) : Bool :=
  let mainclients := mainClients env ws c
  let show' := false
  let show' := if QList.isEmpty mainclients then true else show'
  mainclients.foldl (fun show' it2 => if (ws.heap it2).specialWindow then true else show') show'

/-- One step of the loop of `Workspace::updateToolWindows` over the stacking
order (workspace.cpp:803-845), on the lists `to_show` and `to_hide`. -/
def updateToolWindows.step (env : Env) (ws : Workspace) (also_hide : Bool)
    (client : Option Toplevel) (group : Option Group)
    (acc : List Toplevel × List Toplevel) (t : Toplevel) : List Toplevel × List Toplevel :=
  let to_show := acc.1
  let to_hide := acc.2
  match castAbstractClient ws t with
  | none => (to_show, to_hide)
  | some c =>
    if (ws.heap c).isUtility || (ws.heap c).isMenu || (ws.heap c).isToolbar then
      let show' := updateToolWindows.show env ws client group c
      let show' := if !show' && also_hide then updateToolWindows.showForMainClients env ws c
        else show'
      let to_hide := if !show' && also_hide then QList.append to_hide c else to_hide
      let to_show := if show' then QList.append to_show c else to_show
      (to_show, to_hide)
    else (to_show, to_hide)

/-- The function `Workspace::resetUpdateToolWindowsTimer` (workspace.cpp:863). -/
def resetUpdateToolWindowsTimer (ws : Workspace) : Workspace :=
  let ws := ws.call Call.resetUpdateToolWindowsTimer
  ws.call (Call.updateToolWindowsTimerStart 200)

/-- The function `Workspace::updateToolWindows` (workspace.cpp:777).
`hideClient` is outside the translated sources and recorded; the function
writes no member of `Workspace`, and `addClient` records its call of it. The
result is `none` when the loop that goes up in the transiency hierarchy reaches
the bound `fuel`. -/
def updateToolWindows (env : Env) (fuel : Nat) (ws : Workspace) (also_hide : Bool) :
    Option Workspace :=
  let ws := ws.call (Call.updateToolWindows also_hide)
  if !env.isHideUtilityWindowsForInactive then
    some (ws.clients.foldl (fun ws it => ws.call (Call.hideClient it false)) ws)
  else
  match updateToolWindows.climb env ws fuel ws.active_client with
  | none => none
  | some (client, group) =>
    let lists := ws.stacking_order.foldl
      (updateToolWindows.step env ws also_hide client group) ([], [])
    let to_show := lists.1
    let to_hide := lists.2
    let ws := to_show.reverse.foldl (fun ws c => ws.call (Call.hideClient c false)) ws
    if also_hide then
      let ws := to_hide.foldl (fun ws c => ws.call (Call.hideClient c true)) ws
      some (ws.call Call.updateToolWindowsTimerStop)
    else some (resetUpdateToolWindowsTimer ws)

/-! ## The constrained stacking order -/

/-- Modelled from the spec: steps 1 and 2 of the recomputation of the
constrained stacking order, which is outside the translated sources. The
windows are partitioned into the layers, from back to front, and within a layer
they keep their relative position in the unconstrained order. The layer of a
window is the answer `layer` of the client. -/
def constrainedStackingOrder.layered (ws : Workspace) (order : List Toplevel) :
    List Toplevel :=
  Layer.all.flatMap (fun l => order.filter (fun w => decide ((ws.heap w).layer = l)))

/-- Modelled from the spec: the move of step 3 of the recomputation, which is
outside the translated sources. The transient `c` sits below the windows of
`above`, bottom first; it is moved immediately above its highest main window
among them. -/
def constrainedStackingOrder.raise (isMain : Toplevel → Bool) (c : Toplevel) :
    List Toplevel → List Toplevel
  | [] => [c]
  | x :: above =>
    if (x :: above).any isMain then x :: constrainedStackingOrder.raise isMain c above
    else c :: x :: above

/-- Modelled from the spec: one fix of step 3 of the recomputation, which is
outside the translated sources. The lowest window that sits below one of its
main windows is moved immediately above its highest main window; there is
nothing to fix, `none`, when no window sits below a main window of its own. -/
def constrainedStackingOrder.fix (mains : Toplevel → List Toplevel) :
    List Toplevel → Option (List Toplevel)
  | [] => none
  | c :: above =>
    if above.any (fun m => QList.contains (mains c) m) then
      some (constrainedStackingOrder.raise (fun m => QList.contains (mains c) m) c above)
    else (constrainedStackingOrder.fix mains above).map (fun l => c :: l)

/-- Modelled from the spec: step 3 of the recomputation, which is outside the
translated sources: the pass that enforces the transiency constraint. A window
that sits below one of its main windows is moved immediately above its highest
main window, and so again for the windows that then sit below a main window,
its own transients among them, until no window does. `fuel` bounds the number
of moves; the result is `none` when the bound is reached. -/
def constrainedStackingOrder.enforce (mains : Toplevel → List Toplevel) :
    Nat → List Toplevel → Option (List Toplevel)
  | fuel, order =>
    match constrainedStackingOrder.fix mains order, fuel with
    | none, _ => some order
    | some _, 0 => none
    | some order1, fuel1 + 1 => constrainedStackingOrder.enforce mains fuel1 order1

/-- Modelled from the spec: the constrained (effective) stacking order, whose
recomputation is outside the translated sources, bottom first: the
unconstrained order, layered and made to respect the transiency. -/
def constrainedStackingOrder (env : Env) (ws : Workspace) (fuel : Nat) :
    Option (List Toplevel) :=
  constrainedStackingOrder.enforce (mainClients env ws) fuel
    (constrainedStackingOrder.layered ws ws.unconstrained_stacking_order)

/-- A measure of how far the windows are from their places: every window counts
with its position, bottom first from `k`, weighted by `base` to the power of
its rank. -/
def constrainedStackingOrder.potential (rank : Toplevel → Nat) (base : Nat) :
    Nat → List Toplevel → Nat
  | _, [] => 0
  | k, w :: above =>
    k * base ^ rank w + constrainedStackingOrder.potential rank base (k + 1) above

/-! ## Blocking geometry updates -/

/-- Modelled from the spec: `Client::setGeometry`, whose body is outside the
translated sources, as far as the geometry blocker decides it. While the nesting
count `block_geometry_updates` is positive, the call updates only the pending
geometry and marks the flag `pending_geometry_update` (normal or forced) without
notifying anybody; the pending geometry is held by the geometry member, whose
new value "is remembered, but not actually set" (client.h:994). With no blocker
open the geometry is committed at once. The result is the client and the
geometry commits issued. -/
def Client.setGeometry (c : Client) (r : QRect) (force : ForceGeometry_t) :
    Client × List QRect :=
  if c.block_geometry_updates > 0 then
    ({ c with
       frameGeometry := r
       pending_geometry_update :=
         if c.pending_geometry_update == PendingGeometry_t.PendingGeometryForced ||
             force == ForceGeometry_t.ForceGeometrySet then
           PendingGeometry_t.PendingGeometryForced
         else PendingGeometry_t.PendingGeometryNormal }, [])
  else ({ c with frameGeometry := r }, [r])

/-- Modelled from the spec: `Client::blockGeometryUpdates`, declared in
client.h:839 with its body outside the translated sources. Entering raises the
nesting count, the first entry taking a snapshot of the current geometry.
Leaving lowers the count; on the count reaching zero with the flag marked, one
geometry commit is issued with the final pending geometry and the flag is
cleared. The result is the client and the geometry commits issued. -/
def Client.blockGeometryUpdates (c : Client) (block : Bool) : Client × List QRect :=
  if block then
    let c := if c.block_geometry_updates == 0 then { c with geom_before_block := c.frameGeometry }
      else c
    ({ c with block_geometry_updates := c.block_geometry_updates + 1 }, [])
  else
    let c := { c with block_geometry_updates := c.block_geometry_updates - 1 }
    if c.block_geometry_updates == 0 &&
        c.pending_geometry_update != PendingGeometry_t.PendingGeometryNone then
      ({ c with pending_geometry_update := PendingGeometry_t.PendingGeometryNone },
        [c.frameGeometry])
    else (c, [])

/-- What a piece of code does to the geometry of one client: it opens a
`GeometryUpdatesBlocker` scope on it, leaves such a scope, or calls
`setGeometry`. -/
inductive GeometryStep where
  | enter
  | leave
  | setGeometry (r : QRect) (force : ForceGeometry_t)
  deriving DecidableEq, Repr

/-- One step on a client: the constructor of `GeometryUpdatesBlocker`
(client.h:1050) calls `blockGeometryUpdates(true)`, its destructor
(client.h:1054) calls `blockGeometryUpdates(false)`. The result is the client
and the geometry commits issued. -/
def GeometryStep.run (c : Client) : GeometryStep → Client × List QRect
  | GeometryStep.enter => c.blockGeometryUpdates true
  | GeometryStep.leave => c.blockGeometryUpdates false
  | GeometryStep.setGeometry r force => c.setGeometry r force

/-- The steps in program order: the client they leave and the geometry commits
they issue, in order. -/
def GeometryStep.runAll (c : Client) : List GeometryStep → Client × List QRect
  | [] => (c, [])
  | s :: rest =>
    ((GeometryStep.runAll (s.run c).1 rest).1,
      (s.run c).2 ++ (GeometryStep.runAll (s.run c).1 rest).2)

/-- The number of scopes that the steps leave open, `n` of them being open
before; no number when a step leaves a scope that is not open. -/
def GeometryStep.nesting (n : Nat) : List GeometryStep → Option Nat
  | [] => some n
  | GeometryStep.enter :: rest => GeometryStep.nesting (n + 1) rest
  | GeometryStep.leave :: rest =>
    match n with
    | 0 => none
    | k + 1 => GeometryStep.nesting k rest
  | GeometryStep.setGeometry _ _ :: rest => GeometryStep.nesting n rest

/-- The rectangle of the last `setGeometry` among the steps. -/
def GeometryStep.lastGeometry : List GeometryStep → Option QRect
  | [] => none
  | GeometryStep.setGeometry r _ :: rest =>
    match GeometryStep.lastGeometry rest with
    | some r1 => some r1
    | none => some r
  | _ :: rest => GeometryStep.lastGeometry rest

/-! ## Theorems -/

/-! ### The Qt list operations -/

namespace QList

variable {α : Type} [DecidableEq α]

theorem mem_removeAll {l : List α} {x y : α} : y ∈ removeAll l x ↔ y ∈ l ∧ y ≠ x := by
  simp [removeAll]

theorem not_mem_removeAll (l : List α) (x : α) : x ∉ removeAll l x := by
  simp [removeAll]

theorem removeAll_sublist (l : List α) (x : α) : (removeAll l x).Sublist l :=
  List.filter_sublist l

theorem nodup_removeAll {l : List α} (h : l.Nodup) (x : α) : (removeAll l x).Nodup :=
  h.filter _

theorem removeAll_of_not_mem {l : List α} {x : α} (h : x ∉ l) : removeAll l x = l := by
  unfold removeAll
  rw [List.filter_eq_self]
  intro a ha
  simp only [ne_eq, decide_eq_true_eq]
  intro hax
  exact h (hax ▸ ha)

theorem removeAll_append_self {l : List α} {x : α} (h : x ∉ l) :
    removeAll (append l x) x = l := by
  unfold append removeAll
  rw [List.filter_append]
  have := removeAll_of_not_mem h
  unfold removeAll at this
  simp [this]
  intro a ha hax
  exact h (hax ▸ ha)

theorem indexOf_eq_neg_one_iff {l : List α} {x : α} : indexOf l x = -1 ↔ x ∉ l := by
  unfold indexOf
  split_ifs with h
  · simp [h]
  · simp [h]

theorem indexOf_bne_of_mem {l : List α} {x : α} (h : x ∈ l) :
    (indexOf l x != -1) = true := by
  simp only [bne_iff_ne, ne_eq, indexOf_eq_neg_one_iff, not_not, h]

theorem indexOf_bne_of_not_mem {l : List α} {x : α} (h : x ∉ l) :
    (indexOf l x != -1) = false := by
  simp only [bne_eq_false_iff_eq, indexOf_eq_neg_one_iff]
  exact h

theorem replace_indexOf {l : List α} {x : α} (h : x ∈ l) (c : α) :
    replace l (indexOf l x) c = l.set (List.indexOf x l) c := by
  simp [replace, indexOf, h]

theorem mem_set_indexOf {l : List α} {x : α} (h : x ∈ l) (c : α) :
    c ∈ l.set (List.indexOf x l) c :=
  List.mem_set l _ (List.indexOf_lt_length.mpr h) c

theorem nodup_set_indexOf {l : List α} (hl : l.Nodup) {c : α} (hc : c ∉ l) (x : α) :
    (l.set (List.indexOf x l) c).Nodup :=
  hl.set hc

theorem getElem?_indexOf {l : List α} {x : α} (h : x ∈ l) :
    l[List.indexOf x l]? = some x := by
  have := List.indexOf_get? h
  rwa [List.get?_eq_getElem?] at this

theorem getElem?_ne_of_lt_indexOf {l : List α} {x : α} {j : Nat}
    (hj : j < List.indexOf x l) : l[j]? ≠ some x := by
  induction l generalizing j with
  | nil => simp
  | cons y ys ih =>
    by_cases hyx : y = x
    · rw [List.indexOf_cons_eq _ hyx] at hj
      exact absurd hj (Nat.not_lt_zero _)
    · rw [List.indexOf_cons_ne _ hyx] at hj
      cases j with
      | zero => simpa using hyx
      | succ k =>
        simp only [List.getElem?_cons_succ]
        exact ih (Nat.lt_of_succ_lt_succ hj)

theorem removeAll_set_indexOf {l : List α} {x c : α} (hx : x ∈ l) (hc : c ∉ l) :
    removeAll (l.set (List.indexOf x l) c) c = l.erase x := by
  induction l with
  | nil => simp at hx
  | cons y ys ih =>
    have hyc : y ≠ c := fun h => hc (h ▸ List.mem_cons_self _ _)
    have hcys : c ∉ ys := fun h => hc (List.mem_cons_of_mem _ h)
    by_cases hyx : y = x
    · subst hyx
      have := removeAll_of_not_mem hcys
      simp [removeAll] at this ⊢
      exact this
    · have hxys : x ∈ ys := by
        rcases List.mem_cons.mp hx with h | h
        · exact absurd h.symm hyx
        · exact h
      rw [List.indexOf_cons_ne _ hyx, List.set_cons_succ, List.erase_cons_tail]
      · have := ih hxys hcys
        unfold removeAll at this ⊢
        rw [List.filter_cons_of_pos (by simpa using hyc), this]
      · simpa using hyx
end QList

/-! ### Members left alone by the bookkeeping methods -/

theorem ite_append_left {α : Type} (p : Prop) [Decidable p] (l a b : List α) :
    (if p then l ++ a else l ++ b) = l ++ (if p then a else b) := by
  split_ifs <;> rfl

theorem ite_cons_left {α : Type} (p : Prop) [Decidable p] (x : α) (a b : List α) :
    (if p then x :: a else x :: b) = x :: (if p then a else b) := by
  split_ifs <;> rfl

theorem issued_of_calls_eq {ws ws1 : Workspace} {xs : List Call}
    (h : ws1.calls = ws.calls ++ xs) : issued ws ws1 = xs := by
  simp [issued, h]

/-- The method `call` leaves the lists and the object members as they are. -/
@[simp] theorem call_members (ws : Workspace) (k : Call) :
    (ws.call k).heap = ws.heap ∧
      (ws.call k).clients = ws.clients ∧
      (ws.call k).m_allClients = ws.m_allClients ∧
      (ws.call k).desktops = ws.desktops ∧
      (ws.call k).unmanaged = ws.unmanaged ∧
      (ws.call k).deleted = ws.deleted ∧
      (ws.call k).unconstrained_stacking_order = ws.unconstrained_stacking_order ∧
      (ws.call k).stacking_order = ws.stacking_order ∧
      (ws.call k).attention_chain = ws.attention_chain ∧
      (ws.call k).should_get_focus = ws.should_get_focus ∧
      (ws.call k).focusChain = ws.focusChain ∧
      (ws.call k).active_client = ws.active_client ∧
      (ws.call k).m_nullFocus = ws.m_nullFocus ∧
      (ws.call k).calls = ws.calls ++ [k] := by
  simp [Workspace.call]

/-- The method `callIf` leaves the lists and the object members as they are. -/
@[simp] theorem callIf_members (ws : Workspace) (b : Bool) (k : Call) :
    (ws.callIf b k).heap = ws.heap ∧
      (ws.callIf b k).clients = ws.clients ∧
      (ws.callIf b k).m_allClients = ws.m_allClients ∧
      (ws.callIf b k).desktops = ws.desktops ∧
      (ws.callIf b k).unmanaged = ws.unmanaged ∧
      (ws.callIf b k).deleted = ws.deleted ∧
      (ws.callIf b k).unconstrained_stacking_order = ws.unconstrained_stacking_order ∧
      (ws.callIf b k).stacking_order = ws.stacking_order ∧
      (ws.callIf b k).attention_chain = ws.attention_chain ∧
      (ws.callIf b k).should_get_focus = ws.should_get_focus ∧
      (ws.callIf b k).focusChain = ws.focusChain ∧
      (ws.callIf b k).active_client = ws.active_client ∧
      (ws.callIf b k).m_nullFocus = ws.m_nullFocus ∧
      (ws.callIf b k).calls = ws.calls ++ (if b then [k] else []) := by
  cases b <;> simp [Workspace.callIf, Workspace.call]

/-- The method `callOn` leaves the lists and the object members as they are. -/
@[simp] theorem callOn_members {α : Type} (ws : Workspace) (p : Option α) (k : α → Call) :
    (ws.callOn p k).heap = ws.heap ∧
      (ws.callOn p k).clients = ws.clients ∧
      (ws.callOn p k).m_allClients = ws.m_allClients ∧
      (ws.callOn p k).desktops = ws.desktops ∧
      (ws.callOn p k).unmanaged = ws.unmanaged ∧
      (ws.callOn p k).deleted = ws.deleted ∧
      (ws.callOn p k).unconstrained_stacking_order = ws.unconstrained_stacking_order ∧
      (ws.callOn p k).stacking_order = ws.stacking_order ∧
      (ws.callOn p k).attention_chain = ws.attention_chain ∧
      (ws.callOn p k).should_get_focus = ws.should_get_focus ∧
      (ws.callOn p k).focusChain = ws.focusChain ∧
      (ws.callOn p k).active_client = ws.active_client ∧
      (ws.callOn p k).m_nullFocus = ws.m_nullFocus ∧
      (ws.callOn p k).calls = ws.calls ++ (p.map k).toList := by
  cases p <;> simp [Workspace.callOn, Workspace.call]

/-- The method `markXStackingOrderAsDirty` leaves the lists and the object members as they are. -/
@[simp] theorem markXStackingOrderAsDirty_members (env : Env) (ws : Workspace) :
    (markXStackingOrderAsDirty env ws).heap = ws.heap ∧
      (markXStackingOrderAsDirty env ws).clients = ws.clients ∧
      (markXStackingOrderAsDirty env ws).m_allClients = ws.m_allClients ∧
      (markXStackingOrderAsDirty env ws).desktops = ws.desktops ∧
      (markXStackingOrderAsDirty env ws).unmanaged = ws.unmanaged ∧
      (markXStackingOrderAsDirty env ws).deleted = ws.deleted ∧
      (markXStackingOrderAsDirty env ws).unconstrained_stacking_order =
        ws.unconstrained_stacking_order ∧
      (markXStackingOrderAsDirty env ws).stacking_order = ws.stacking_order ∧
      (markXStackingOrderAsDirty env ws).attention_chain = ws.attention_chain ∧
      (markXStackingOrderAsDirty env ws).should_get_focus = ws.should_get_focus ∧
      (markXStackingOrderAsDirty env ws).focusChain = ws.focusChain ∧
      (markXStackingOrderAsDirty env ws).active_client = ws.active_client ∧
      (markXStackingOrderAsDirty env ws).m_nullFocus = ws.m_nullFocus ∧
      (markXStackingOrderAsDirty env ws).calls = ws.calls ++ [Call.markXStackingOrderAsDirty] := by
  unfold markXStackingOrderAsDirty
  dsimp only
  split_ifs <;> simp [Workspace.call]

/-- The method `updateTabbox` leaves the lists and the object members as they are. -/
@[simp] theorem updateTabbox_members (env : Env) (ws : Workspace) :
    (updateTabbox env ws).heap = ws.heap ∧
      (updateTabbox env ws).clients = ws.clients ∧
      (updateTabbox env ws).m_allClients = ws.m_allClients ∧
      (updateTabbox env ws).desktops = ws.desktops ∧
      (updateTabbox env ws).unmanaged = ws.unmanaged ∧
      (updateTabbox env ws).deleted = ws.deleted ∧
      (updateTabbox env ws).unconstrained_stacking_order = ws.unconstrained_stacking_order ∧
      (updateTabbox env ws).stacking_order = ws.stacking_order ∧
      (updateTabbox env ws).attention_chain = ws.attention_chain ∧
      (updateTabbox env ws).should_get_focus = ws.should_get_focus ∧
      (updateTabbox env ws).focusChain = ws.focusChain ∧
      (updateTabbox env ws).active_client = ws.active_client ∧
      (updateTabbox env ws).m_nullFocus = ws.m_nullFocus := by
  simp [updateTabbox]

/-- The method `focusToNull` leaves the lists and the object members as they are. -/
@[simp] theorem focusToNull_members (ws : Workspace) :
    (focusToNull ws).heap = ws.heap ∧
      (focusToNull ws).clients = ws.clients ∧
      (focusToNull ws).m_allClients = ws.m_allClients ∧
      (focusToNull ws).desktops = ws.desktops ∧
      (focusToNull ws).unmanaged = ws.unmanaged ∧
      (focusToNull ws).deleted = ws.deleted ∧
      (focusToNull ws).unconstrained_stacking_order = ws.unconstrained_stacking_order ∧
      (focusToNull ws).stacking_order = ws.stacking_order ∧
      (focusToNull ws).attention_chain = ws.attention_chain ∧
      (focusToNull ws).should_get_focus = ws.should_get_focus ∧
      (focusToNull ws).focusChain = ws.focusChain ∧
      (focusToNull ws).active_client = ws.active_client ∧
      (focusToNull ws).m_nullFocus = ws.m_nullFocus := by
  simp [focusToNull]

/-- The method `cancelDelayFocus` leaves the lists and the object members as they are. -/
@[simp] theorem cancelDelayFocus_members (ws : Workspace) :
    (cancelDelayFocus ws).heap = ws.heap ∧
      (cancelDelayFocus ws).clients = ws.clients ∧
      (cancelDelayFocus ws).m_allClients = ws.m_allClients ∧
      (cancelDelayFocus ws).desktops = ws.desktops ∧
      (cancelDelayFocus ws).unmanaged = ws.unmanaged ∧
      (cancelDelayFocus ws).deleted = ws.deleted ∧
      (cancelDelayFocus ws).unconstrained_stacking_order = ws.unconstrained_stacking_order ∧
      (cancelDelayFocus ws).stacking_order = ws.stacking_order ∧
      (cancelDelayFocus ws).attention_chain = ws.attention_chain ∧
      (cancelDelayFocus ws).should_get_focus = ws.should_get_focus ∧
      (cancelDelayFocus ws).focusChain = ws.focusChain ∧
      (cancelDelayFocus ws).active_client = ws.active_client ∧
      (cancelDelayFocus ws).m_nullFocus = ws.m_nullFocus ∧
      (cancelDelayFocus ws).calls = ws.calls ++ [Call.cancelDelayFocus] := by
  simp [cancelDelayFocus]

/-- The method `setupClientConnections` leaves the lists and the object members as they are. -/
@[simp] theorem setupClientConnections_members (ws : Workspace) (c : Toplevel) :
    (setupClientConnections ws c).heap = ws.heap ∧
      (setupClientConnections ws c).clients = ws.clients ∧
      (setupClientConnections ws c).m_allClients = ws.m_allClients ∧
      (setupClientConnections ws c).desktops = ws.desktops ∧
      (setupClientConnections ws c).unmanaged = ws.unmanaged ∧
      (setupClientConnections ws c).deleted = ws.deleted ∧
      (setupClientConnections ws c).unconstrained_stacking_order = ws.unconstrained_stacking_order ∧
      (setupClientConnections ws c).stacking_order = ws.stacking_order ∧
      (setupClientConnections ws c).attention_chain = ws.attention_chain ∧
      (setupClientConnections ws c).should_get_focus = ws.should_get_focus ∧
      (setupClientConnections ws c).focusChain = ws.focusChain ∧
      (setupClientConnections ws c).active_client = ws.active_client ∧
      (setupClientConnections ws c).m_nullFocus = ws.m_nullFocus ∧
      (setupClientConnections ws c).calls = ws.calls ++ [Call.setupClientConnections c] := by
  simp [setupClientConnections]

/-! ### Client visibility -/

/-- C1: `isShown(shaded_is_shown)` is true exactly when the client is not
minimized, is not in `ShadeNormal` mode unless `shaded_is_shown` is set, is not
forcibly hidden, and either has no tab group or is the current member of its
tab group. -/
theorem isShown_iff (this : Toplevel) (c : Client) (shaded_is_shown : Bool) :
    Client.isShown this c shaded_is_shown = true ↔
      (c.minimized = false ∧
        (c.shade_mode ≠ ShadeMode.ShadeNormal ∨ shaded_is_shown = true) ∧
        c.hidden = false ∧
        (c.tab_group = none ∨ ∃ g, c.tab_group = some g ∧ g.current = some this)) := by
  unfold Client.isShown Client.isMinimized Client.isShade Client.tabGroup
  cases hm : c.minimized <;> cases hh : c.hidden <;> cases shaded_is_shown <;>
    cases hs : c.shade_mode <;> cases ht : c.tab_group <;> simp

/-- C2: a client that belongs to a tab group whose current member is another
client is shown neither by `isShown(true)` nor by `isShown(false)`, whatever
its minimized, shade and hidden members are. -/
theorem isShown_false_of_not_current (this : Toplevel) (c : Client) (g : TabGroup)
    (hg : c.tab_group = some g) (hcur : g.current ≠ some this) :
    Client.isShown this c true = false ∧ Client.isShown this c false = false := by
  unfold Client.isShown Client.tabGroup
  simp [hg, hcur]

/-- Witness for C2: client 1 is in a tab group whose current member is client 2. -/
theorem isShown_false_of_not_current_witness :
    Client.isShown 1 { tab_group := some ⟨some 2⟩ } true = false ∧
      Client.isShown 1 { tab_group := some ⟨some 2⟩ } false = false :=
  isShown_false_of_not_current 1 { tab_group := some ⟨some 2⟩ } ⟨some 2⟩ rfl (by decide)

/-! ### The Deleted placeholder in the stacking lists -/

/-- The assertion of `addDeleted` decides whether it returns. -/
theorem addDeleted_isSome (env : Env) (ws : Workspace) (c orig : Toplevel) :
    (addDeleted env ws c orig).isSome = true ↔ c ∉ ws.deleted := by
  unfold addDeleted
  by_cases hc : c ∈ ws.deleted <;> simp [QList.contains, hc]

/-- What `addDeleted` leaves behind when it returns. -/
theorem addDeleted_some (env : Env) (ws ws1 : Workspace) (c orig : Toplevel)
    (h : addDeleted env ws c orig = some ws1) :
    c ∉ ws.deleted ∧
      ws1.deleted = ws.deleted ++ [c] ∧
      ws1.stacking_order =
        (if orig ∈ ws.stacking_order then
          ws.stacking_order.set (List.indexOf orig ws.stacking_order) c
         else ws.stacking_order ++ [c]) ∧
      ws1.unconstrained_stacking_order =
        (if orig ∈ ws.unconstrained_stacking_order then
          ws.unconstrained_stacking_order.set
            (List.indexOf orig ws.unconstrained_stacking_order) c
         else ws.unconstrained_stacking_order ++ [c]) := by
  have hc : c ∉ ws.deleted := (addDeleted_isSome env ws c orig).mp (by simp [h])
  unfold addDeleted at h
  simp only [call_members, QList.contains, decide_eq_true_eq, hc, if_false,
    Option.some.injEq] at h
  subst h
  refine ⟨hc, ?_⟩
  by_cases h1 : orig ∈ ws.unconstrained_stacking_order <;>
    by_cases h2 : orig ∈ ws.stacking_order
  · simp [h1, h2, QList.indexOf_bne_of_mem, QList.replace_indexOf, QList.append]
  · simp [h1, h2, QList.indexOf_bne_of_mem, QList.indexOf_bne_of_not_mem,
      QList.replace_indexOf, QList.append]
  · simp [h1, h2, QList.indexOf_bne_of_mem, QList.indexOf_bne_of_not_mem,
      QList.replace_indexOf, QList.append]
  · simp [h1, h2, QList.indexOf_bne_of_not_mem, QList.append]

/-- The assertion of `removeDeleted` decides whether it returns. -/
theorem removeDeleted_isSome (env : Env) (ws : Workspace) (c : Toplevel) :
    (removeDeleted env ws c).isSome = true ↔ c ∈ ws.deleted := by
  unfold removeDeleted
  by_cases hc : c ∈ ws.deleted
  · simp only [call_members, QList.contains, hc, decide_True, Bool.not_true,
      Bool.false_eq_true, if_false, iff_true]
    split_ifs <;> rfl
  · simp [QList.contains, hc]

/-- What `removeDeleted` leaves behind when it returns. -/
theorem removeDeleted_some (env : Env) (ws ws1 : Workspace) (c : Toplevel)
    (h : removeDeleted env ws c = some ws1) :
    c ∈ ws.deleted ∧
      ws1.deleted = QList.removeAll ws.deleted c ∧
      ws1.stacking_order = QList.removeAll ws.stacking_order c ∧
      ws1.unconstrained_stacking_order = QList.removeAll ws.unconstrained_stacking_order c := by
  have hc : c ∈ ws.deleted := (removeDeleted_isSome env ws c).mp (by simp [h])
  unfold removeDeleted at h
  simp only [call_members, QList.contains, hc, decide_True, Bool.not_true,
    Bool.false_eq_true, if_false] at h
  refine ⟨hc, ?_⟩
  split_ifs at h <;> (cases h; simp)

/-- C5: when the placeholder `c` is not yet in the deleted list,
`addDeleted(c, orig)` returns, `c` is in the deleted list afterwards, and in
each of `stacking_order` and `unconstrained_stacking_order`, independently: if
`orig` occurs, `c` stands at the index of the first occurrence of `orig`, the
length is unchanged and every other index holds what it held; if `orig` does
not occur, `c` is appended at the end. -/
theorem addDeleted_takes_the_place_of_orig (env : Env) (ws : Workspace) (c orig : Toplevel)
    (hc : c ∉ ws.deleted) :
    ∃ ws1, addDeleted env ws c orig = some ws1 ∧ c ∈ ws1.deleted ∧
      (orig ∈ ws.stacking_order →
        ∃ i : Nat, ws.stacking_order[i]? = some orig ∧
          (∀ j : Nat, j < i → ws.stacking_order[j]? ≠ some orig) ∧
          ws1.stacking_order.length = ws.stacking_order.length ∧
          ws1.stacking_order[i]? = some c ∧
          ∀ j : Nat, j ≠ i → ws1.stacking_order[j]? = ws.stacking_order[j]?) ∧
      (orig ∉ ws.stacking_order → ws1.stacking_order = ws.stacking_order ++ [c]) ∧
      (orig ∈ ws.unconstrained_stacking_order →
        ∃ i : Nat, ws.unconstrained_stacking_order[i]? = some orig ∧
          (∀ j : Nat, j < i → ws.unconstrained_stacking_order[j]? ≠ some orig) ∧
          ws1.unconstrained_stacking_order.length = ws.unconstrained_stacking_order.length ∧
          ws1.unconstrained_stacking_order[i]? = some c ∧
          ∀ j : Nat, j ≠ i →
            ws1.unconstrained_stacking_order[j]? = ws.unconstrained_stacking_order[j]?) ∧
      (orig ∉ ws.unconstrained_stacking_order →
        ws1.unconstrained_stacking_order = ws.unconstrained_stacking_order ++ [c]) := by
  obtain ⟨ws1, h1⟩ := Option.isSome_iff_exists.mp ((addDeleted_isSome env ws c orig).mpr hc)
  obtain ⟨-, hd, hs, hu⟩ := addDeleted_some env ws ws1 c orig h1
  refine ⟨ws1, h1, by simp [hd], ?_, ?_, ?_, ?_⟩
  · intro ho
    rw [if_pos ho] at hs
    refine ⟨List.indexOf orig ws.stacking_order, QList.getElem?_indexOf ho,
      fun j hj => QList.getElem?_ne_of_lt_indexOf hj, by simp [hs], ?_, ?_⟩
    · rw [hs, List.getElem?_set_self (List.indexOf_lt_length.mpr ho)]
    · intro j hj
      rw [hs, List.getElem?_set_ne (Ne.symm hj)]
  · intro ho
    rw [if_neg ho] at hs
    exact hs
  · intro ho
    rw [if_pos ho] at hu
    refine ⟨List.indexOf orig ws.unconstrained_stacking_order, QList.getElem?_indexOf ho,
      fun j hj => QList.getElem?_ne_of_lt_indexOf hj, by simp [hu], ?_, ?_⟩
    · rw [hu, List.getElem?_set_self (List.indexOf_lt_length.mpr ho)]
    · intro j hj
      rw [hu, List.getElem?_set_ne (Ne.symm hj)]
  · intro ho
    rw [if_neg ho] at hu
    exact hu

/-- Witness for C5: window 2 is second in `stacking_order` and first in
`unconstrained_stacking_order`; placeholder 9 takes both places. -/
theorem addDeleted_takes_the_place_of_orig_witness :
    (9 ∉ ([] : List Toplevel)) ∧
      (addDeleted {} { stacking_order := [1, 2, 3], unconstrained_stacking_order := [2, 1, 3] }
          9 2).map (fun ws1 => (ws1.deleted, ws1.stacking_order, ws1.unconstrained_stacking_order))
        = some ([9], [1, 9, 3], [9, 1, 3]) ∧
      ∃ ws1,
        addDeleted {} { stacking_order := [1, 2, 3], unconstrained_stacking_order := [2, 1, 3] }
          9 2 = some ws1 ∧ 9 ∈ ws1.deleted := by
  obtain ⟨ws1, h1, h2, -⟩ := addDeleted_takes_the_place_of_orig {}
    { stacking_order := [1, 2, 3], unconstrained_stacking_order := [2, 1, 3] } 9 2 (by decide)
  exact ⟨by decide, rfl, ws1, h1, h2⟩

/-- C8: for stacking lists that hold `orig` and do not hold `c`, whenever
`addDeleted(c, orig)` returns, the following `removeDeleted(c)` returns too and
leaves `stacking_order` and `unconstrained_stacking_order` equal to the
original lists with `orig` erased, and the deleted list as it was before
`addDeleted`; and `addDeleted` returns whenever `c` is not yet in the deleted
list. -/
theorem addDeleted_then_removeDeleted (env : Env) (ws : Workspace) (c orig : Toplevel)
    (hos : orig ∈ ws.stacking_order) (hou : orig ∈ ws.unconstrained_stacking_order)
    (hcs : c ∉ ws.stacking_order) (hcu : c ∉ ws.unconstrained_stacking_order) :
    (c ∉ ws.deleted → (addDeleted env ws c orig).isSome = true) ∧
      ∀ ws1, addDeleted env ws c orig = some ws1 →
        ∃ ws2, removeDeleted env ws1 c = some ws2 ∧
          ws2.stacking_order = ws.stacking_order.erase orig ∧
          ws2.unconstrained_stacking_order = ws.unconstrained_stacking_order.erase orig ∧
          ws2.deleted = ws.deleted := by
  refine ⟨(addDeleted_isSome env ws c orig).mpr, ?_⟩
  intro ws1 h1
  obtain ⟨hc, hd, hs, hu⟩ := addDeleted_some env ws ws1 c orig h1
  have hc1 : c ∈ ws1.deleted := by simp [hd]
  obtain ⟨ws2, h2⟩ := Option.isSome_iff_exists.mp ((removeDeleted_isSome env ws1 c).mpr hc1)
  obtain ⟨-, hd2, hs2, hu2⟩ := removeDeleted_some env ws1 ws2 c h2
  refine ⟨ws2, h2, ?_, ?_, ?_⟩
  · rw [hs2, hs, if_pos hos, QList.removeAll_set_indexOf hos hcs]
  · rw [hu2, hu, if_pos hou, QList.removeAll_set_indexOf hou hcu]
  · rw [hd2, hd]
    exact QList.removeAll_append_self hc

/-- Witness for C8: placeholder 9 takes the place of window 2 and is removed
again; both stacking lists are the former ones without window 2. -/
theorem addDeleted_then_removeDeleted_witness :
    (2 ∈ [1, 2, 3] ∧ 2 ∈ [2, 1, 3] ∧ 9 ∉ [1, 2, 3] ∧ 9 ∉ [2, 1, 3]) ∧
      ((addDeleted {} { stacking_order := [1, 2, 3], unconstrained_stacking_order := [2, 1, 3],
                        deleted := [7] } 9 2).bind (fun ws1 => removeDeleted {} ws1 9)).map
          (fun ws2 => (ws2.deleted, ws2.stacking_order, ws2.unconstrained_stacking_order))
        = some ([7], [1, 3], [1, 3]) ∧
      (addDeleted {} { stacking_order := [1, 2, 3], unconstrained_stacking_order := [2, 1, 3],
                       deleted := [7] } 9 2).isSome = true := by
  have h := addDeleted_then_removeDeleted {}
    { stacking_order := [1, 2, 3], unconstrained_stacking_order := [2, 1, 3], deleted := [7] }
    9 2 (by decide) (by decide) (by decide) (by decide)
  exact ⟨⟨by decide, by decide, by decide, by decide⟩, rfl, h.1 (by decide)⟩

/-! ### The parts of `addClient`, of the `shellClientAdded` handler and of `removeClient` -/

/-- The lists after the part `addClient.announce`. -/
@[simp] theorem addClient_announce_members (env : Env) (ws : Workspace) (c : Toplevel) :
    (addClient.announce env ws c).heap = ws.heap ∧
      (addClient.announce env ws c).clients = ws.clients ∧
      (addClient.announce env ws c).m_allClients = ws.m_allClients ∧
      (addClient.announce env ws c).desktops = ws.desktops ∧
      (addClient.announce env ws c).unconstrained_stacking_order = ws.unconstrained_stacking_order ∧
      (addClient.announce env ws c).stacking_order = ws.stacking_order ∧
      (addClient.announce env ws c).attention_chain = ws.attention_chain ∧
      (addClient.announce env ws c).should_get_focus = ws.should_get_focus ∧
      (addClient.announce env ws c).focusChain = ws.focusChain ∧
      (addClient.announce env ws c).active_client = ws.active_client := by
  simp [addClient.announce, apply_ite Workspace.heap, apply_ite Workspace.clients,
    apply_ite Workspace.m_allClients, apply_ite Workspace.desktops,
    apply_ite Workspace.unconstrained_stacking_order, apply_ite Workspace.stacking_order,
    apply_ite Workspace.attention_chain, apply_ite Workspace.should_get_focus,
    apply_ite Workspace.focusChain, apply_ite Workspace.active_client, apply_ite Workspace.calls,
    QList.contains, QList.append]

/-- The lists after the part `addClient.register`. -/
@[simp] theorem addClient_register_members (env : Env) (ws : Workspace) (c : Toplevel) :
    (addClient.register env ws c).heap = ws.heap ∧
      (addClient.register env ws c).clients =
        (if (ws.heap c).isDesktop then ws.clients else ws.clients ++ [c]) ∧
      (addClient.register env ws c).m_allClients =
        (if (ws.heap c).isDesktop then ws.m_allClients else ws.m_allClients ++ [c]) ∧
      (addClient.register env ws c).desktops =
        (if (ws.heap c).isDesktop then ws.desktops ++ [c] else ws.desktops) ∧
      (addClient.register env ws c).unconstrained_stacking_order = ws.unconstrained_stacking_order ∧
      (addClient.register env ws c).stacking_order = ws.stacking_order ∧
      (addClient.register env ws c).attention_chain = ws.attention_chain ∧
      (addClient.register env ws c).should_get_focus = ws.should_get_focus ∧
      (addClient.register env ws c).active_client = ws.active_client := by
  simp [addClient.register, apply_ite Workspace.heap, apply_ite Workspace.clients,
    apply_ite Workspace.m_allClients, apply_ite Workspace.desktops,
    apply_ite Workspace.unconstrained_stacking_order, apply_ite Workspace.stacking_order,
    apply_ite Workspace.attention_chain, apply_ite Workspace.should_get_focus,
    apply_ite Workspace.focusChain, apply_ite Workspace.active_client, apply_ite Workspace.calls,
    QList.contains, QList.append]

/-- The part `addClient.register` only adds calls. -/
theorem addClient_register_calls (env : Env) (ws : Workspace) (c : Toplevel) :
    ∃ rest, (addClient.register env ws c).calls = ws.calls ++ rest := by
  simp [addClient.register, updateTabbox, apply_ite Workspace.calls, ite_append_left,
    ite_cons_left]

/-- The lists after the part `addClient.insert`. -/
@[simp] theorem addClient_insert_members (ws : Workspace) (c : Toplevel) :
    (addClient.insert ws c).heap = ws.heap ∧
      (addClient.insert ws c).clients = ws.clients ∧
      (addClient.insert ws c).m_allClients = ws.m_allClients ∧
      (addClient.insert ws c).desktops = ws.desktops ∧
      (addClient.insert ws c).unconstrained_stacking_order =
        (if c ∈ ws.unconstrained_stacking_order then ws.unconstrained_stacking_order
         else ws.unconstrained_stacking_order ++ [c]) ∧
      (addClient.insert ws c).stacking_order =
        (if c ∈ ws.stacking_order then ws.stacking_order else ws.stacking_order ++ [c]) ∧
      (addClient.insert ws c).attention_chain = ws.attention_chain ∧
      (addClient.insert ws c).should_get_focus = ws.should_get_focus ∧
      (addClient.insert ws c).focusChain = ws.focusChain ∧
      (addClient.insert ws c).active_client = ws.active_client ∧
      (addClient.insert ws c).calls = ws.calls := by
  simp [addClient.insert, apply_ite Workspace.heap, apply_ite Workspace.clients,
    apply_ite Workspace.m_allClients, apply_ite Workspace.desktops,
    apply_ite Workspace.unconstrained_stacking_order, apply_ite Workspace.stacking_order,
    apply_ite Workspace.attention_chain, apply_ite Workspace.should_get_focus,
    apply_ite Workspace.focusChain, apply_ite Workspace.active_client, apply_ite Workspace.calls,
    QList.contains, QList.append]

/-- The lists after the part `addClient.finish`. -/
@[simp] theorem addClient_finish_members (env : Env) (ws : Workspace) (c : Toplevel) :
    (addClient.finish env ws c).heap = ws.heap ∧
      (addClient.finish env ws c).clients = ws.clients ∧
      (addClient.finish env ws c).m_allClients = ws.m_allClients ∧
      (addClient.finish env ws c).desktops = ws.desktops ∧
      (addClient.finish env ws c).unconstrained_stacking_order = ws.unconstrained_stacking_order ∧
      (addClient.finish env ws c).stacking_order = ws.stacking_order ∧
      (addClient.finish env ws c).attention_chain = ws.attention_chain ∧
      (addClient.finish env ws c).should_get_focus = ws.should_get_focus ∧
      (addClient.finish env ws c).focusChain = ws.focusChain ∧
      (addClient.finish env ws c).active_client = ws.active_client := by
  simp [addClient.finish, apply_ite Workspace.heap, apply_ite Workspace.clients,
    apply_ite Workspace.m_allClients, apply_ite Workspace.desktops,
    apply_ite Workspace.unconstrained_stacking_order, apply_ite Workspace.stacking_order,
    apply_ite Workspace.attention_chain, apply_ite Workspace.should_get_focus,
    apply_ite Workspace.focusChain, apply_ite Workspace.active_client, apply_ite Workspace.calls,
    QList.contains, QList.append]

/-- The part `addClient.finish` only adds calls. -/
theorem addClient_finish_calls (env : Env) (ws : Workspace) (c : Toplevel) :
    ∃ rest, (addClient.finish env ws c).calls = ws.calls ++ rest := by
  simp [addClient.finish, updateTabbox, apply_ite Workspace.calls, ite_append_left, ite_cons_left]

/-- The lists after the part `shellClientAdded.insert`. -/
@[simp] theorem shellClientAdded_insert_members (ws : Workspace) (c : Toplevel) :
    (shellClientAdded.insert ws c).heap = ws.heap ∧
      (shellClientAdded.insert ws c).clients = ws.clients ∧
      (shellClientAdded.insert ws c).m_allClients = ws.m_allClients ++ [c] ∧
      (shellClientAdded.insert ws c).desktops = ws.desktops ∧
      (shellClientAdded.insert ws c).unconstrained_stacking_order =
        (if c ∈ ws.unconstrained_stacking_order then ws.unconstrained_stacking_order
         else ws.unconstrained_stacking_order ++ [c]) ∧
      (shellClientAdded.insert ws c).stacking_order =
        (if c ∈ ws.stacking_order then ws.stacking_order else ws.stacking_order ++ [c]) ∧
      (shellClientAdded.insert ws c).attention_chain = ws.attention_chain ∧
      (shellClientAdded.insert ws c).should_get_focus = ws.should_get_focus ∧
      (shellClientAdded.insert ws c).focusChain = ws.focusChain ∧
      (shellClientAdded.insert ws c).active_client = ws.active_client ∧
      (shellClientAdded.insert ws c).calls = ws.calls := by
  simp [shellClientAdded.insert, apply_ite Workspace.heap, apply_ite Workspace.clients,
    apply_ite Workspace.m_allClients, apply_ite Workspace.desktops,
    apply_ite Workspace.unconstrained_stacking_order, apply_ite Workspace.stacking_order,
    apply_ite Workspace.attention_chain, apply_ite Workspace.should_get_focus,
    apply_ite Workspace.focusChain, apply_ite Workspace.active_client, apply_ite Workspace.calls,
    QList.contains, QList.append]

/-- The lists after the part `removeClient.prepare`. -/
@[simp] theorem removeClient_prepare_members (env : Env) (ws : Workspace) (c : Toplevel) :
    (removeClient.prepare env ws c).heap = ws.heap ∧
      (removeClient.prepare env ws c).clients = ws.clients ∧
      (removeClient.prepare env ws c).m_allClients = ws.m_allClients ∧
      (removeClient.prepare env ws c).desktops = ws.desktops ∧
      (removeClient.prepare env ws c).unconstrained_stacking_order =
        ws.unconstrained_stacking_order ∧
      (removeClient.prepare env ws c).stacking_order = ws.stacking_order ∧
      (removeClient.prepare env ws c).attention_chain = ws.attention_chain ∧
      (removeClient.prepare env ws c).should_get_focus = ws.should_get_focus ∧
      (removeClient.prepare env ws c).focusChain = ws.focusChain ∧
      (removeClient.prepare env ws c).active_client = ws.active_client := by
  simp [removeClient.prepare, apply_ite Workspace.heap, apply_ite Workspace.clients,
    apply_ite Workspace.m_allClients, apply_ite Workspace.desktops,
    apply_ite Workspace.unconstrained_stacking_order, apply_ite Workspace.stacking_order,
    apply_ite Workspace.attention_chain, apply_ite Workspace.should_get_focus,
    apply_ite Workspace.focusChain, apply_ite Workspace.active_client, apply_ite Workspace.calls,
    QList.contains, QList.append]

/-- The lists after the part `removeClient.detach`. -/
@[simp] theorem removeClient_detach_members (env : Env) (ws : Workspace) (c : Toplevel) :
    (removeClient.detach env ws c).heap = ws.heap ∧
      (removeClient.detach env ws c).clients = QList.removeAll ws.clients c ∧
      (removeClient.detach env ws c).m_allClients = QList.removeAll ws.m_allClients c ∧
      (removeClient.detach env ws c).desktops = QList.removeAll ws.desktops c ∧
      (removeClient.detach env ws c).unconstrained_stacking_order =
        ws.unconstrained_stacking_order ∧
      (removeClient.detach env ws c).stacking_order = ws.stacking_order ∧
      (removeClient.detach env ws c).attention_chain = QList.removeAll ws.attention_chain c ∧
      (removeClient.detach env ws c).should_get_focus = QList.removeAll ws.should_get_focus c ∧
      (removeClient.detach env ws c).focusChain = ws.focusChain ∧
      (removeClient.detach env ws c).active_client = ws.active_client := by
  simp [removeClient.detach, apply_ite Workspace.heap, apply_ite Workspace.clients,
    apply_ite Workspace.m_allClients, apply_ite Workspace.desktops,
    apply_ite Workspace.unconstrained_stacking_order, apply_ite Workspace.stacking_order,
    apply_ite Workspace.attention_chain, apply_ite Workspace.should_get_focus,
    apply_ite Workspace.focusChain, apply_ite Workspace.active_client, apply_ite Workspace.calls,
    QList.contains, QList.append]

/-- The lists after the part `removeClient.finish`. -/
@[simp] theorem removeClient_finish_members (env : Env) (ws : Workspace) (c : Toplevel) :
    (removeClient.finish env ws c).heap = ws.heap ∧
      (removeClient.finish env ws c).clients = ws.clients ∧
      (removeClient.finish env ws c).m_allClients = ws.m_allClients ∧
      (removeClient.finish env ws c).desktops = ws.desktops ∧
      (removeClient.finish env ws c).unconstrained_stacking_order =
        ws.unconstrained_stacking_order ∧
      (removeClient.finish env ws c).stacking_order = ws.stacking_order ∧
      (removeClient.finish env ws c).attention_chain = ws.attention_chain ∧
      (removeClient.finish env ws c).should_get_focus = ws.should_get_focus ∧
      (removeClient.finish env ws c).focusChain = ws.focusChain.remove c ∧
      (removeClient.finish env ws c).active_client = ws.active_client := by
  simp [removeClient.finish, apply_ite Workspace.heap, apply_ite Workspace.clients,
    apply_ite Workspace.m_allClients, apply_ite Workspace.desktops,
    apply_ite Workspace.unconstrained_stacking_order, apply_ite Workspace.stacking_order,
    apply_ite Workspace.attention_chain, apply_ite Workspace.should_get_focus,
    apply_ite Workspace.focusChain, apply_ite Workspace.active_client, apply_ite Workspace.calls,
    QList.contains, QList.append]

/-! ### Creating a client or an unmanaged window -/

/-- The whole of `addClient` only adds calls, its own invocation first. -/
theorem addClient_calls (env : Env) (ws : Workspace) (c : Toplevel) :
    ∃ rest, (addClient env ws c).calls = ws.calls ++ Call.addClient c :: rest := by
  unfold addClient
  dsimp only
  obtain ⟨r4, h4⟩ := addClient_finish_calls env
    (addClient.insert (addClient.register env (addClient.announce env ws c) c) c) c
  obtain ⟨r2, h2⟩ := addClient_register_calls env (addClient.announce env ws c) c
  have h1 : ∃ r1, (addClient.announce env ws c).calls = ws.calls ++ Call.addClient c :: r1 := by
    simp [addClient.announce]
  obtain ⟨r1, h1⟩ := h1
  refine ⟨r1 ++ r2 ++ r4, ?_⟩
  rw [h4, (addClient_insert_members _ c).2.2.2.2.2.2.2.2.2.2, h2, h1]
  simp

/-- What `createClient` does when `manage` fails. -/
theorem createClient_of_manage_none (env : Env) (ws : Workspace) (c : Toplevel) (w : XWindow)
    (is_mapped : Bool) (h : env.manage c w is_mapped = none) :
    createClient env ws c w is_mapped =
      ({ ws with calls := ws.calls ++
          [Call.createClient w is_mapped, Call.blockStackingUpdates true,
           Call.setupClientConnections c, Call.manage c w is_mapped, Call.deleteClient c,
           Call.blockStackingUpdates false] }, none) := by
  simp [createClient, h, Workspace.call, setupClientConnections]

/-- What `createClient` does when `manage` succeeds. -/
theorem createClient_of_manage_some (env : Env) (ws : Workspace) (c : Toplevel) (w : XWindow)
    (is_mapped : Bool) (members : Client) (h : env.manage c w is_mapped = some members) :
    createClient env ws c w is_mapped =
      ((addClient env
          { ws with
            heap := Function.update ws.heap c members
            calls := ws.calls ++
              [Call.createClient w is_mapped, Call.blockStackingUpdates true,
               Call.setupClientConnections c, Call.manage c w is_mapped] } c).call
        (Call.blockStackingUpdates false), some c) := by
  simp [createClient, h, Workspace.call, setupClientConnections]

/-- The lists after the whole of `addClient`. -/
theorem addClient_lists (env : Env) (ws : Workspace) (c : Toplevel) :
    (addClient env ws c).heap = ws.heap ∧
      (addClient env ws c).clients =
        (if (ws.heap c).isDesktop then ws.clients else ws.clients ++ [c]) ∧
      (addClient env ws c).m_allClients =
        (if (ws.heap c).isDesktop then ws.m_allClients else ws.m_allClients ++ [c]) ∧
      (addClient env ws c).desktops =
        (if (ws.heap c).isDesktop then ws.desktops ++ [c] else ws.desktops) ∧
      (addClient env ws c).unconstrained_stacking_order =
        (if c ∈ ws.unconstrained_stacking_order then ws.unconstrained_stacking_order
         else ws.unconstrained_stacking_order ++ [c]) ∧
      (addClient env ws c).stacking_order =
        (if c ∈ ws.stacking_order then ws.stacking_order else ws.stacking_order ++ [c]) := by
  unfold addClient
  simp

/-- C3: when `manage(w, is_mapped)` fails, `createClient` returns null, the
lists `clients`, `m_allClients`, `desktops`, `unconstrained_stacking_order`,
`stacking_order` and the focus chain are as before the call, and `addClient`
is not invoked: the calls issued are those of the stacking-updates blocker,
`setupClientConnections`, `manage` and `deleteClient`; when `manage` succeeds, `createClient` returns the new client
after `addClient` has been invoked for it, and the client then stands in both
stacking lists and in `desktops` (a desktop window) or in `clients` and
`m_allClients` (any other client). -/
theorem createClient_registers_only_managed (env : Env) (ws : Workspace) (c : Toplevel)
    (w : XWindow) (is_mapped : Bool) :
    (env.manage c w is_mapped = none →
      (createClient env ws c w is_mapped).2 = none ∧
      (createClient env ws c w is_mapped).1.clients = ws.clients ∧
      (createClient env ws c w is_mapped).1.m_allClients = ws.m_allClients ∧
      (createClient env ws c w is_mapped).1.desktops = ws.desktops ∧
      (createClient env ws c w is_mapped).1.unconstrained_stacking_order =
        ws.unconstrained_stacking_order ∧
      (createClient env ws c w is_mapped).1.stacking_order = ws.stacking_order ∧
      (createClient env ws c w is_mapped).1.focusChain = ws.focusChain ∧
      issued ws (createClient env ws c w is_mapped).1 =
        [Call.createClient w is_mapped, Call.blockStackingUpdates true,
         Call.setupClientConnections c, Call.manage c w is_mapped, Call.deleteClient c,
         Call.blockStackingUpdates false] ∧
      ∀ x, Call.addClient x ∉ issued ws (createClient env ws c w is_mapped).1) ∧
    (∀ members, env.manage c w is_mapped = some members →
      (createClient env ws c w is_mapped).2 = some c ∧
      Call.addClient c ∈ issued ws (createClient env ws c w is_mapped).1 ∧
      (createClient env ws c w is_mapped).1.heap c = members ∧
      c ∈ (createClient env ws c w is_mapped).1.unconstrained_stacking_order ∧
      c ∈ (createClient env ws c w is_mapped).1.stacking_order ∧
      (members.isDesktop = true →
        (createClient env ws c w is_mapped).1.desktops = ws.desktops ++ [c] ∧
        (createClient env ws c w is_mapped).1.clients = ws.clients ∧
        (createClient env ws c w is_mapped).1.m_allClients = ws.m_allClients) ∧
      (members.isDesktop = false →
        (createClient env ws c w is_mapped).1.desktops = ws.desktops ∧
        (createClient env ws c w is_mapped).1.clients = ws.clients ++ [c] ∧
        (createClient env ws c w is_mapped).1.m_allClients = ws.m_allClients ++ [c])) := by
  constructor
  · intro h
    rw [createClient_of_manage_none env ws c w is_mapped h]
    have hcalls : ({ ws with calls := ws.calls ++
          [Call.createClient w is_mapped, Call.blockStackingUpdates true,
           Call.setupClientConnections c, Call.manage c w is_mapped, Call.deleteClient c,
           Call.blockStackingUpdates false] } : Workspace).calls =
        ws.calls ++ [Call.createClient w is_mapped, Call.blockStackingUpdates true,
          Call.setupClientConnections c, Call.manage c w is_mapped, Call.deleteClient c,
          Call.blockStackingUpdates false] := rfl
    refine ⟨rfl, rfl, rfl, rfl, rfl, rfl, rfl, issued_of_calls_eq hcalls, ?_⟩
    intro x
    rw [issued_of_calls_eq hcalls]
    simp
  · intro members h
    rw [createClient_of_manage_some env ws c w is_mapped members h]
    obtain ⟨rest, hcalls⟩ := addClient_calls env
      { ws with
        heap := Function.update ws.heap c members
        calls := ws.calls ++
          [Call.createClient w is_mapped, Call.blockStackingUpdates true,
           Call.setupClientConnections c, Call.manage c w is_mapped] } c
    obtain ⟨hheap, hcl, hall, hdesk, hu, hs⟩ := addClient_lists env
      { ws with
        heap := Function.update ws.heap c members
        calls := ws.calls ++
          [Call.createClient w is_mapped, Call.blockStackingUpdates true,
           Call.setupClientConnections c, Call.manage c w is_mapped] } c
    simp only [Function.update_same] at hcl hall hdesk
    refine ⟨rfl, ?_, ?_, ?_, ?_, ?_, ?_⟩
    · have hall : ((addClient env
            { ws with
              heap := Function.update ws.heap c members
              calls := ws.calls ++
                [Call.createClient w is_mapped, Call.blockStackingUpdates true,
                 Call.setupClientConnections c, Call.manage c w is_mapped] } c).call
            (Call.blockStackingUpdates false)).calls =
          ws.calls ++ ([Call.createClient w is_mapped, Call.blockStackingUpdates true,
            Call.setupClientConnections c, Call.manage c w is_mapped] ++
            Call.addClient c :: rest ++ [Call.blockStackingUpdates false]) := by
        simp [hcalls]
      rw [issued_of_calls_eq hall]
      simp
    · simp [hheap]
    · simp only [call_members, hu]
      split_ifs with hm
      · exact hm
      · simp
    · simp only [call_members, hs]
      split_ifs with hm
      · exact hm
      · simp
    · intro hd
      simp [hcl, hall, hdesk, hd]
    · intro hd
      simp [hcl, hall, hdesk, hd]

/-- C4: when `w` is the overlay window of the compositor or `track(w)` fails,
`createUnmanaged` returns null, leaves `unmanaged` unchanged and emits no
`unmanagedAdded`; otherwise it appends exactly the new window to `unmanaged`,
emits `unmanagedAdded` once, for that window, and returns it. -/
theorem createUnmanaged_adds_only_tracked (env : Env) (ws : Workspace) (c : Toplevel)
    (w : XWindow) :
    ((checkForOverlayWindow env w = true ∨ env.track c w = none) →
      (createUnmanaged env ws c w).2 = none ∧
      (createUnmanaged env ws c w).1.unmanaged = ws.unmanaged ∧
      ∀ x, Call.unmanagedAdded x ∉ issued ws (createUnmanaged env ws c w).1) ∧
    (checkForOverlayWindow env w = false → ∀ members, env.track c w = some members →
      (createUnmanaged env ws c w).2 = some c ∧
      (createUnmanaged env ws c w).1.unmanaged = ws.unmanaged ++ [c] ∧
      (issued ws (createUnmanaged env ws c w).1).filter Call.isUnmanagedAdded =
        [Call.unmanagedAdded c]) := by
  constructor
  · intro h
    by_cases ho : checkForOverlayWindow env w = true
    · have hcalls : (createUnmanaged env ws c w).1.calls =
          ws.calls ++ [Call.createUnmanaged w] := by
        simp [createUnmanaged, ho]
      refine ⟨by simp [createUnmanaged, ho], by simp [createUnmanaged, ho], ?_⟩
      intro x
      rw [issued_of_calls_eq hcalls]
      simp
    · have ht : env.track c w = none := h.resolve_left ho
      have hcalls : (createUnmanaged env ws c w).1.calls =
          ws.calls ++ [Call.createUnmanaged w, Call.track c w, Call.deleteUnmanaged c] := by
        simp [createUnmanaged, ho, ht]
      refine ⟨by simp [createUnmanaged, ho, ht], by simp [createUnmanaged, ho, ht], ?_⟩
      intro x
      rw [issued_of_calls_eq hcalls]
      simp
  · intro ho members ht
    have hcalls : (createUnmanaged env ws c w).1.calls =
        ws.calls ++ [Call.createUnmanaged w, Call.track c w, Call.addUnmanaged c,
          Call.markXStackingOrderAsDirty, Call.unmanagedAdded c] := by
      simp [createUnmanaged, ho, ht, addUnmanaged]
    refine ⟨by simp [createUnmanaged, ho, ht],
      by simp [createUnmanaged, ho, ht, addUnmanaged, QList.append], ?_⟩
    rw [issued_of_calls_eq hcalls]
    rfl

/-- C6: when `stacking_order` and `unconstrained_stacking_order` hold no window
twice, they still hold none twice after the insertion step of `addClient(c)`,
after the insertion step of the `shellClientAdded` handler, after
`addDeleted(c, orig)` for a `c` in neither list, and after `removeDeleted(c)`;
after each insertion the inserted window is in both lists; `addDeleted` and
`removeDeleted` return whenever their assertion on the deleted list holds. -/
theorem stacking_lists_keep_no_duplicates (env : Env) (ws : Workspace) (c orig : Toplevel)
    (hs : ws.stacking_order.Nodup) (hu : ws.unconstrained_stacking_order.Nodup) :
    ((addClient.insert ws c).stacking_order.Nodup ∧
      (addClient.insert ws c).unconstrained_stacking_order.Nodup ∧
      c ∈ (addClient.insert ws c).stacking_order ∧
      c ∈ (addClient.insert ws c).unconstrained_stacking_order) ∧
    ((shellClientAdded.insert ws c).stacking_order.Nodup ∧
      (shellClientAdded.insert ws c).unconstrained_stacking_order.Nodup ∧
      c ∈ (shellClientAdded.insert ws c).stacking_order ∧
      c ∈ (shellClientAdded.insert ws c).unconstrained_stacking_order) ∧
    ((c ∉ ws.deleted → (addDeleted env ws c orig).isSome = true) ∧
      (c ∉ ws.stacking_order → c ∉ ws.unconstrained_stacking_order →
        ∀ ws1, addDeleted env ws c orig = some ws1 →
          ws1.stacking_order.Nodup ∧ ws1.unconstrained_stacking_order.Nodup ∧
          c ∈ ws1.stacking_order ∧ c ∈ ws1.unconstrained_stacking_order)) ∧
    ((c ∈ ws.deleted → (removeDeleted env ws c).isSome = true) ∧
      ∀ ws1, removeDeleted env ws c = some ws1 →
        ws1.stacking_order.Nodup ∧ ws1.unconstrained_stacking_order.Nodup) := by
  have happ : ∀ l : List Toplevel, l.Nodup →
      (if c ∈ l then l else l ++ [c]).Nodup ∧ c ∈ (if c ∈ l then l else l ++ [c]) := by
    intro l hl
    split_ifs with hm
    · exact ⟨hl, hm⟩
    · refine ⟨?_, by simp⟩
      rw [List.nodup_append]
      refine ⟨hl, List.nodup_singleton c, ?_⟩
      intro a ha hb
      rw [List.mem_singleton] at hb
      exact hm (hb ▸ ha)
  have hrep : ∀ l : List Toplevel, l.Nodup → c ∉ l →
      (if orig ∈ l then l.set (List.indexOf orig l) c else l ++ [c]).Nodup ∧
        c ∈ (if orig ∈ l then l.set (List.indexOf orig l) c else l ++ [c]) := by
    intro l hl hc
    split_ifs with ho
    · exact ⟨QList.nodup_set_indexOf hl hc orig, QList.mem_set_indexOf ho c⟩
    · have := happ l hl
      rw [if_neg hc] at this
      exact this
  refine ⟨?_, ?_, ⟨(addDeleted_isSome env ws c orig).mpr, ?_⟩,
    ⟨(removeDeleted_isSome env ws c).mpr, ?_⟩⟩
  · simp only [addClient_insert_members]
    exact ⟨(happ _ hs).1, (happ _ hu).1, (happ _ hs).2, (happ _ hu).2⟩
  · simp only [shellClientAdded_insert_members]
    exact ⟨(happ _ hs).1, (happ _ hu).1, (happ _ hs).2, (happ _ hu).2⟩
  · intro hcs hcu ws1 h1
    obtain ⟨-, -, hs1, hu1⟩ := addDeleted_some env ws ws1 c orig h1
    rw [hs1, hu1]
    exact ⟨(hrep _ hs hcs).1, (hrep _ hu hcu).1, (hrep _ hs hcs).2, (hrep _ hu hcu).2⟩
  · intro ws1 h1
    obtain ⟨-, -, hs1, hu1⟩ := removeDeleted_some env ws ws1 c h1
    rw [hs1, hu1]
    exact ⟨QList.nodup_removeAll hs c, QList.nodup_removeAll hu c⟩

/-- Witness for C6: both stacking lists hold the windows 1, 2, 3 once each;
window 4 is inserted by `addClient`. -/
theorem stacking_lists_keep_no_duplicates_witness :
    ([1, 2, 3].Nodup ∧ [2, 1, 3].Nodup) ∧
      (addClient.insert { stacking_order := [1, 2, 3],
                          unconstrained_stacking_order := [2, 1, 3] } 4).stacking_order =
        [1, 2, 3, 4] ∧
      (addClient.insert { stacking_order := [1, 2, 3],
                          unconstrained_stacking_order := [2, 1, 3] } 4).stacking_order.Nodup ∧
      (addClient.insert { stacking_order := [1, 2, 3],
                          unconstrained_stacking_order := [2, 1, 3] }
        4).unconstrained_stacking_order.Nodup := by
  have h := stacking_lists_keep_no_duplicates {}
    { stacking_order := [1, 2, 3], unconstrained_stacking_order := [2, 1, 3] } 4 2
    (by decide) (by decide)
  exact ⟨⟨by decide, by decide⟩, rfl, h.1.1, h.1.2.1⟩

/-! ### Releasing a client -/

/-- The two assertions of `removeClient` decide whether it returns. -/
theorem removeClient_isSome (env : Env) (ws : Workspace) (c : Toplevel) :
    (removeClient env ws c).isSome = true ↔
      (c ∈ ws.clients ∨ c ∈ ws.desktops) ∧ ws.active_client ≠ some c := by
  unfold removeClient
  simp only [removeClient_prepare_members, removeClient_detach_members, QList.contains]
  by_cases h1 : c ∈ ws.clients <;> by_cases h2 : c ∈ ws.desktops <;>
    by_cases h3 : ws.active_client = some c <;> simp [h1, h2, h3]

/-- What `removeClient` returns. -/
theorem removeClient_some (env : Env) (ws ws1 : Workspace) (c : Toplevel)
    (h : removeClient env ws c = some ws1) :
    ws1 = removeClient.finish env
      (removeClient.detach env (removeClient.prepare env ws c) c) c := by
  unfold removeClient at h
  dsimp only at h
  split_ifs at h
  exact (Option.some.inj h).symm

/-- C7, as the code has it: for a client `c` registered in `clients` or
`desktops`, `removeClient(c)` returns unless `c` is the active client, and after
it has returned `c` is in none of `clients`, `m_allClients`, `desktops`,
`attention_chain`, `should_get_focus` and the lists of the focus chain, each of
which is the former list without `c`, the other entries in their former order;
`unconstrained_stacking_order` is not written, and a client listed in a
stacking list stays listed there. -/
theorem removeClient_detaches (env : Env) (ws : Workspace) (c : Toplevel)
    (hreg : c ∈ ws.clients ∨ c ∈ ws.desktops) :
    (ws.active_client ≠ some c → (removeClient env ws c).isSome = true) ∧
    ∀ ws1, removeClient env ws c = some ws1 →
      (c ∉ ws1.clients ∧ c ∉ ws1.m_allClients ∧ c ∉ ws1.desktops ∧
        c ∉ ws1.attention_chain ∧ c ∉ ws1.should_get_focus ∧
        c ∉ ws1.focusChain.mostRecentlyUsed ∧
        ∀ d, c ∉ ws1.focusChain.desktopFocusChains d) ∧
      (ws1.clients = ws.clients.filter (fun x => decide (x ≠ c)) ∧
        ws1.m_allClients = ws.m_allClients.filter (fun x => decide (x ≠ c)) ∧
        ws1.desktops = ws.desktops.filter (fun x => decide (x ≠ c)) ∧
        ws1.attention_chain = ws.attention_chain.filter (fun x => decide (x ≠ c)) ∧
        ws1.should_get_focus = ws.should_get_focus.filter (fun x => decide (x ≠ c)) ∧
        ws1.focusChain.mostRecentlyUsed =
          ws.focusChain.mostRecentlyUsed.filter (fun x => decide (x ≠ c)) ∧
        ∀ d, ws1.focusChain.desktopFocusChains d =
          (ws.focusChain.desktopFocusChains d).filter (fun x => decide (x ≠ c))) ∧
      ws1.unconstrained_stacking_order = ws.unconstrained_stacking_order ∧
      (c ∈ ws.unconstrained_stacking_order → c ∈ ws1.unconstrained_stacking_order) ∧
      (c ∈ ws.stacking_order → c ∈ ws1.stacking_order) := by
  refine ⟨fun ha => (removeClient_isSome env ws c).mpr ⟨hreg, ha⟩, ?_⟩
  intro ws1 h1
  rw [removeClient_some env ws ws1 c h1]
  simp [FocusChain.remove, QList.removeAll]

/-- C7 fails as stated: client 1 is registered in `clients` and stands in both
stacking lists; after `removeClient(1)` has returned it still stands in both. -/
theorem removeClient_leaves_stacking_lists :
    ∃ ws1,
      removeClient {} { clients := [1], m_allClients := [1],
                        unconstrained_stacking_order := [1], stacking_order := [1] } 1 =
        some ws1 ∧
      1 ∈ ws1.unconstrained_stacking_order ∧ 1 ∈ ws1.stacking_order := by
  refine ⟨_, rfl, ?_, ?_⟩ <;> simp

/-- Witness for C7: client 1 is registered in `clients` and in the focus chain
of desktop 1, client 2 is active. -/
theorem removeClient_detaches_witness :
    (1 ∈ [1, 2] ∨ 1 ∈ ([] : List Toplevel)) ∧
      ∃ ws1,
        removeClient {} { clients := [1, 2], m_allClients := [1, 2],
                          focusChain := { mostRecentlyUsed := [2, 1] },
                          active_client := some 2 } 1 = some ws1 ∧
        ws1.clients = [2] ∧ ws1.focusChain.mostRecentlyUsed = [2] := by
  have h := removeClient_detaches {}
    { clients := [1, 2], m_allClients := [1, 2],
      focusChain := { mostRecentlyUsed := [2, 1] }, active_client := some 2 } 1
    (Or.inl (by decide))
  refine ⟨Or.inl (by decide), ?_⟩
  obtain ⟨ws1, h1⟩ := Option.isSome_iff_exists.mp (h.1 (by decide))
  refine ⟨ws1, h1, ?_, ?_⟩
  · rw [(h.2 ws1 h1).2.1.1]
    decide
  · rw [(h.2 ws1 h1).2.1.2.2.2.2.2.1]
    decide

/-! ### Restoring the focus -/

/-- The calls of `focusToNull`. -/
theorem focusToNull_calls (ws : Workspace) :
    (focusToNull ws).calls =
      ws.calls ++ Call.focusToNull :: (if ws.m_nullFocus then [Call.nullFocusFocus] else []) := by
  simp [focusToNull]

/-- The calls of the focus-restoring tail, by the client it has chosen. -/
theorem restoreFocus_calls (env : Env) (ws : Workspace) :
    (updateCurrentActivity.restoreFocus env ws).calls =
      ws.calls ++
        ((if updateCurrentActivity.c env ws != ws.active_client then
            [Call.setActiveClient none] else []) ++
          (match updateCurrentActivity.c env ws with
           | some x => [Call.requestFocus (some x)]
           | none =>
             if QList.isEmpty ws.desktops then
               Call.focusToNull :: (if ws.m_nullFocus then [Call.nullFocusFocus] else [])
             else
               [Call.requestFocus (env.findDesktop
                 (ws.callIf (updateCurrentActivity.c env ws != ws.active_client)
                   (Call.setActiveClient none)) true env.vdsCurrent)])) := by
  unfold updateCurrentActivity.restoreFocus
  dsimp only
  cases hc : updateCurrentActivity.c env ws with
  | some x => simp
  | none =>
    by_cases hd : QList.isEmpty ws.desktops = true
    · simp [hd, focusToNull_calls]
    · simp [hd]

/-- The calls of `activateClientOnNewDesktop`, by the client it has chosen. -/
theorem activateClientOnNewDesktop_calls (env : Env) (ws : Workspace) (desktop : Nat) :
    (activateClientOnNewDesktop env ws desktop).calls =
      ws.calls ++ Call.activateClientOnNewDesktop desktop ::
        ((if activateClientOnNewDesktop.c env
              (ws.call (Call.activateClientOnNewDesktop desktop)) desktop != ws.active_client then
            [Call.setActiveClient none] else []) ++
          (match activateClientOnNewDesktop.c env
              (ws.call (Call.activateClientOnNewDesktop desktop)) desktop with
           | some x => [Call.requestFocus (some x)]
           | none =>
             if QList.isEmpty ws.desktops then
               Call.focusToNull :: (if ws.m_nullFocus then [Call.nullFocusFocus] else [])
             else
               [Call.requestFocus (env.findDesktop
                 ((ws.call (Call.activateClientOnNewDesktop desktop)).callIf
                   (activateClientOnNewDesktop.c env
                     (ws.call (Call.activateClientOnNewDesktop desktop)) desktop !=
                       ws.active_client)
                   (Call.setActiveClient none)) true desktop)])) := by
  unfold activateClientOnNewDesktop
  dsimp only
  cases hc : activateClientOnNewDesktop.c env
      (ws.call (Call.activateClientOnNewDesktop desktop)) desktop with
  | some x => simp
  | none =>
    by_cases hd : QList.isEmpty ws.desktops = true
    · simp [hd, focusToNull_calls]
    · simp [hd]

/-- Where the client chosen by `activateClientOnNewDesktop` comes from. -/
theorem activateClientOnNewDesktop_c_some (env : Env) (ws : Workspace) (desktop : Nat)
    (x : Toplevel) (h : activateClientOnNewDesktop.c env ws desktop = some x) :
    activateClientOnNewDesktop.candidate env ws desktop = some x ∨
      (activateClientOnNewDesktop.candidate env ws desktop = none ∧ ws.desktops ≠ [] ∧
        env.findDesktop ws true desktop = some x) := by
  unfold activateClientOnNewDesktop.c at h
  dsimp only at h
  cases hc : activateClientOnNewDesktop.candidate env ws desktop with
  | some y =>
    simp [hc] at h
    exact Or.inl (by rw [h])
  | none =>
    simp only [hc, beq_self_eq_true, Bool.true_and] at h
    by_cases hd : ws.desktops = []
    · simp [hd, QList.isEmpty] at h
    · have : QList.isEmpty ws.desktops = false := by
        simpa [QList.isEmpty, List.isEmpty_iff] using hd
      simp only [this, Bool.not_false, if_true] at h
      exact Or.inr ⟨rfl, hd, h⟩

/-- Where the client chosen by the tail of `updateCurrentActivity` comes from. -/
theorem updateCurrentActivity_c_some (env : Env) (ws : Workspace)
    (x : Toplevel) (h : updateCurrentActivity.c env ws = some x) :
    updateCurrentActivity.candidate env ws = some x ∨
      (updateCurrentActivity.candidate env ws = none ∧ ws.desktops ≠ [] ∧
        env.findDesktop ws true env.vdsCurrent = some x) := by
  unfold updateCurrentActivity.c at h
  dsimp only at h
  cases hc : updateCurrentActivity.candidate env ws with
  | some y =>
    simp [hc] at h
    exact Or.inl (by rw [h])
  | none =>
    simp only [hc, beq_self_eq_true, Bool.true_and] at h
    by_cases hd : ws.desktops = []
    · simp [hd, QList.isEmpty] at h
    · have : QList.isEmpty ws.desktops = false := by
        simpa [QList.isEmpty, List.isEmpty_iff] using hd
      simp only [this, Bool.not_false, if_true] at h
      exact Or.inr ⟨rfl, hd, h⟩

/-- C9, as the code has it: `activateClientOnNewDesktop` and the
focus-restoring tail of `updateCurrentActivity` each issue exactly one focus
action. It is `requestFocus` on the chosen client when one was chosen, that
client being the candidate of the focus policy or else the window returned by
`findDesktop`; when none was chosen it is `requestFocus` on whatever a second
`findDesktop` call returns if `desktops` is not empty, and `focusToNull()` if
`desktops` is empty. -/
theorem focus_restoration_issues_one_focus_action (env : Env) (ws : Workspace)
    (desktop : Nat) :
    (∃ a, (issued ws (activateClientOnNewDesktop env ws desktop)).filter Call.isFocusAction =
        [a] ∧
      ((∃ x, activateClientOnNewDesktop.c env
            (ws.call (Call.activateClientOnNewDesktop desktop)) desktop = some x ∧
          a = Call.requestFocus (some x) ∧
          (activateClientOnNewDesktop.candidate env
              (ws.call (Call.activateClientOnNewDesktop desktop)) desktop = some x ∨
            env.findDesktop (ws.call (Call.activateClientOnNewDesktop desktop)) true desktop =
              some x)) ∨
        (activateClientOnNewDesktop.c env
            (ws.call (Call.activateClientOnNewDesktop desktop)) desktop = none ∧
          ws.desktops ≠ [] ∧
          a = Call.requestFocus (env.findDesktop
            ((ws.call (Call.activateClientOnNewDesktop desktop)).callIf
              (none != ws.active_client) (Call.setActiveClient none)) true desktop)) ∨
        (activateClientOnNewDesktop.c env
            (ws.call (Call.activateClientOnNewDesktop desktop)) desktop = none ∧
          ws.desktops = [] ∧ a = Call.focusToNull))) ∧
    (∃ a, (issued ws (updateCurrentActivity.restoreFocus env ws)).filter Call.isFocusAction =
        [a] ∧
      ((∃ x, updateCurrentActivity.c env ws = some x ∧ a = Call.requestFocus (some x) ∧
          (updateCurrentActivity.candidate env ws = some x ∨
            env.findDesktop ws true env.vdsCurrent = some x)) ∨
        (updateCurrentActivity.c env ws = none ∧ ws.desktops ≠ [] ∧
          a = Call.requestFocus (env.findDesktop
            (ws.callIf (none != ws.active_client) (Call.setActiveClient none))
            true env.vdsCurrent)) ∨
        (updateCurrentActivity.c env ws = none ∧ ws.desktops = [] ∧ a = Call.focusToNull))) := by
  have hempty : ∀ l : List Toplevel, QList.isEmpty l = true ↔ l = [] := by
    intro l
    simp [QList.isEmpty, List.isEmpty_iff]
  constructor
  · rw [issued_of_calls_eq (activateClientOnNewDesktop_calls env ws desktop)]
    cases hc : activateClientOnNewDesktop.c env
        (ws.call (Call.activateClientOnNewDesktop desktop)) desktop with
    | some x =>
      refine ⟨Call.requestFocus (some x), ?_, Or.inl ⟨x, rfl, rfl, ?_⟩⟩
      · by_cases ha : (some x != ws.active_client) = true <;>
          simp [ha, Call.isFocusAction, List.filter]
      · rcases activateClientOnNewDesktop_c_some env _ desktop x hc with h | ⟨-, -, h⟩
        · exact Or.inl h
        · exact Or.inr h
    | none =>
      by_cases hd : ws.desktops = []
      · refine ⟨Call.focusToNull, ?_, Or.inr (Or.inr ⟨rfl, hd, rfl⟩)⟩
        by_cases ha : (none != ws.active_client) = true <;>
          by_cases hn : ws.m_nullFocus = true <;>
          simp [ha, hn, hd, QList.isEmpty, Call.isFocusAction, List.filter]
      · refine ⟨_, ?_, Or.inr (Or.inl ⟨rfl, hd, rfl⟩)⟩
        have hd1 : QList.isEmpty ws.desktops = false := by
          simpa [QList.isEmpty, List.isEmpty_iff] using hd
        by_cases ha : (none != ws.active_client) = true <;>
          simp [ha, hd1, Call.isFocusAction, List.filter]
  · rw [issued_of_calls_eq (restoreFocus_calls env ws)]
    cases hc : updateCurrentActivity.c env ws with
    | some x =>
      refine ⟨Call.requestFocus (some x), ?_, Or.inl ⟨x, rfl, rfl, ?_⟩⟩
      · by_cases ha : (some x != ws.active_client) = true <;>
          simp [ha, Call.isFocusAction, List.filter]
      · rcases updateCurrentActivity_c_some env ws x hc with h | ⟨-, -, h⟩
        · exact Or.inl h
        · exact Or.inr h
    | none =>
      by_cases hd : ws.desktops = []
      · refine ⟨Call.focusToNull, ?_, Or.inr (Or.inr ⟨rfl, hd, rfl⟩)⟩
        by_cases ha : (none != ws.active_client) = true <;>
          by_cases hn : ws.m_nullFocus = true <;>
          simp [ha, hn, hd, QList.isEmpty, Call.isFocusAction, List.filter]
      · refine ⟨_, ?_, Or.inr (Or.inl ⟨rfl, hd, rfl⟩)⟩
        have hd1 : QList.isEmpty ws.desktops = false := by
          simpa [QList.isEmpty, List.isEmpty_iff] using hd
        by_cases ha : (none != ws.active_client) = true <;>
          simp [ha, hd1, Call.isFocusAction, List.filter]

/-- C9 fails as stated: the focus policy is not "reasonable", no client is
active, the only desktop window (5) is on desktop 2, and `findDesktop` finds no
desktop window for desktop 1: `activateClientOnNewDesktop(1)` issues
`requestFocus` with a null client, which is neither `requestFocus` on an
existing client nor `focusToNull()`. -/
theorem activateClientOnNewDesktop_requests_focus_for_null :
    (issued
        { heap := fun _ => { windowType := WindowType.Desktop, desktop := 2 },
          desktops := [5], stacking_order := [5], unconstrained_stacking_order := [5] }
        (activateClientOnNewDesktop { focusPolicyIsReasonable := false }
          { heap := fun _ => { windowType := WindowType.Desktop, desktop := 2 },
            desktops := [5], stacking_order := [5], unconstrained_stacking_order := [5] }
          1)).filter Call.isFocusAction = [Call.requestFocus none] ∧
      ¬ ∃ a,
        (issued
            { heap := fun _ => { windowType := WindowType.Desktop, desktop := 2 },
              desktops := [5], stacking_order := [5], unconstrained_stacking_order := [5] }
            (activateClientOnNewDesktop { focusPolicyIsReasonable := false }
              { heap := fun _ => { windowType := WindowType.Desktop, desktop := 2 },
                desktops := [5], stacking_order := [5], unconstrained_stacking_order := [5] }
              1)).filter Call.isFocusAction = [a] ∧
          ((∃ x, a = Call.requestFocus (some x)) ∨ a = Call.focusToNull) := by
  have h : (issued
        { heap := fun _ => { windowType := WindowType.Desktop, desktop := 2 },
          desktops := [5], stacking_order := [5], unconstrained_stacking_order := [5] }
        (activateClientOnNewDesktop { focusPolicyIsReasonable := false }
          { heap := fun _ => { windowType := WindowType.Desktop, desktop := 2 },
            desktops := [5], stacking_order := [5], unconstrained_stacking_order := [5] }
          1)).filter Call.isFocusAction = [Call.requestFocus none] := by
    rfl
  refine ⟨h, ?_⟩
  rintro ⟨a, ha, hx | hx⟩
  · rw [h] at ha
    obtain ⟨x, hx⟩ := hx
    rw [hx] at ha
    simp at ha
  · rw [h] at ha
    rw [hx] at ha
    simp at ha

/-- C13: the quick-tile flags are a bitmask of four edges. `QuickTileNone` is 0;
`QuickTileLeft`, `QuickTileRight`, `QuickTileTop` and `QuickTileBottom` are the
four distinct single bits 1, 2, 4 and 8; `QuickTileHorizontal` is left|right,
`QuickTileVertical` is top|bottom, and `QuickTileMaximize` is the union of all
four bits, 15, which is `QuickTileHorizontal | QuickTileVertical`. Every subset
of the four edges is a value in 0..15, different subsets are different values,
and every value in 0..15 is such a subset. -/
theorem quickTile_is_a_mask_of_four_edges :
    QuickTileNone = 0 ∧
    QuickTileLeft = 2 ^ 0 ∧ QuickTileRight = 2 ^ 1 ∧ QuickTileTop = 2 ^ 2 ∧
    QuickTileBottom = 2 ^ 3 ∧
    [QuickTileLeft, QuickTileRight, QuickTileTop, QuickTileBottom].Nodup ∧
    QuickTileHorizontal = QuickTileLeft ||| QuickTileRight ∧
    QuickTileVertical = QuickTileTop ||| QuickTileBottom ∧
    QuickTileMaximize =
      QuickTileLeft ||| QuickTileRight ||| QuickTileTop ||| QuickTileBottom ∧
    QuickTileMaximize = 15 ∧
    QuickTileMaximize = QuickTileHorizontal ||| QuickTileVertical ∧
    (∀ l r t b : Bool,
      ((if l then QuickTileLeft else 0) ||| (if r then QuickTileRight else 0) |||
        (if t then QuickTileTop else 0) ||| (if b then QuickTileBottom else 0)) ≤ 15) ∧
    (∀ l r t b l1 r1 t1 b1 : Bool,
      ((if l then QuickTileLeft else 0) ||| (if r then QuickTileRight else 0) |||
        (if t then QuickTileTop else 0) ||| (if b then QuickTileBottom else 0)) =
      ((if l1 then QuickTileLeft else 0) ||| (if r1 then QuickTileRight else 0) |||
        (if t1 then QuickTileTop else 0) ||| (if b1 then QuickTileBottom else 0)) →
      l = l1 ∧ r = r1 ∧ t = t1 ∧ b = b1) ∧
    (∀ n : Fin 16, ∃ l r t b : Bool,
      ((if l then QuickTileLeft else 0) ||| (if r then QuickTileRight else 0) |||
        (if t then QuickTileTop else 0) ||| (if b then QuickTileBottom else 0)) = n.val) := by
  simp only [QuickTileNone, QuickTileLeft, QuickTileRight, QuickTileTop, QuickTileBottom,
    QuickTileHorizontal, QuickTileVertical, QuickTileMaximize]
  decide

/-- C14: `isMove()` and `isResize()` are never both true; both are false exactly
when `moveResizeMode` is false; `isMove()` holds exactly when `moveResizeMode`
is true and the mode is `PositionCenter`, and `isResize()` exactly when
`moveResizeMode` is true and the mode is one of the eight edge and corner
positions. The four edges are the single bits 1, 2, 4 and 8 and each corner is
the union of the bits of its two edges. -/
theorem isMove_and_isResize_exclude_each_other (c : Client) :
    ¬(c.isMove = true ∧ c.isResize = true) ∧
    ((c.isMove = false ∧ c.isResize = false) ↔ c.moveResizeMode = false) ∧
    (c.isMove = true ↔ c.moveResizeMode = true ∧ c.mode = Position.PositionCenter) ∧
    (c.isResize = true ↔ c.moveResizeMode = true ∧
      c.mode ∈ [Position.PositionLeft, Position.PositionRight, Position.PositionTop,
        Position.PositionBottom, Position.PositionTopLeft, Position.PositionTopRight,
        Position.PositionBottomLeft, Position.PositionBottomRight]) ∧
    Position.PositionCenter.value = 0 ∧
    Position.PositionLeft.value = 2 ^ 0 ∧ Position.PositionRight.value = 2 ^ 1 ∧
    Position.PositionTop.value = 2 ^ 2 ∧ Position.PositionBottom.value = 2 ^ 3 ∧
    Position.PositionTopLeft.value =
      Position.PositionLeft.value ||| Position.PositionTop.value ∧
    Position.PositionTopRight.value =
      Position.PositionRight.value ||| Position.PositionTop.value ∧
    Position.PositionBottomLeft.value =
      Position.PositionLeft.value ||| Position.PositionBottom.value ∧
    Position.PositionBottomRight.value =
      Position.PositionRight.value ||| Position.PositionBottom.value := by
  refine ⟨?_, ?_, ?_, ?_, by decide, by decide, by decide, by decide, by decide, by decide,
    by decide, by decide, by decide⟩
  · cases h : c.moveResizeMode <;> cases hm : c.mode <;> simp [Client.isMove, Client.isResize, h, hm]
  · cases h : c.moveResizeMode <;> cases hm : c.mode <;> simp [Client.isMove, Client.isResize, h, hm]
  · cases h : c.moveResizeMode <;> cases hm : c.mode <;> simp [Client.isMove, h, hm]
  · cases h : c.moveResizeMode <;> cases hm : c.mode <;> simp [Client.isResize, h, hm]

/-- C19: `isShade()` is true only for `ShadeNormal`. A client in any other
shade mode that is not minimized, not hidden and not a tab other than the
current one of its tab group is not shaded, and `isShown(false)` shows it as
well as `isShown(true)`. -/
theorem isShown_whatever_the_flag_when_not_ShadeNormal (this : Toplevel) (c : Client)
    (hmode : c.shade_mode ≠ ShadeMode.ShadeNormal)
    (hmin : c.isMinimized = false) (hhidden : c.hidden = false)
    (htab : ∀ g, c.tabGroup = some g → g.current = some this) :
    (∀ m : ShadeMode,
      Client.isShade { c with shade_mode := m } = true ↔ m = ShadeMode.ShadeNormal) ∧
    c.isShade = false ∧
    Client.isShown this c false = true ∧ Client.isShown this c true = true := by
  have hs : c.isShade = false := by
    simp [Client.isShade, hmode]
  refine ⟨?_, hs, ?_, ?_⟩
  · intro m
    simp [Client.isShade]
  · cases hg : c.tabGroup with
    | none => simp [Client.isShown, hs, hmin, hhidden, hg]
    | some g => simp [Client.isShown, hs, hmin, hhidden, hg, htab g hg]
  · cases hg : c.tabGroup with
    | none => simp [Client.isShown, hmin, hhidden, hg]
    | some g => simp [Client.isShown, hmin, hhidden, hg, htab g hg]

/-- A client in shade mode `ShadeHover` that is a tab of the group whose current
tab it is: both `isShown(false)` and `isShown(true)` show it. -/
theorem isShown_whatever_the_flag_when_not_ShadeNormal_witness :
    (∀ m : ShadeMode,
      Client.isShade
        { ({ shade_mode := ShadeMode.ShadeHover, tab_group := some ⟨some 7⟩ } : Client) with
          shade_mode := m } = true ↔ m = ShadeMode.ShadeNormal) ∧
    Client.isShade { shade_mode := ShadeMode.ShadeHover, tab_group := some ⟨some 7⟩ } = false ∧
    Client.isShown 7 { shade_mode := ShadeMode.ShadeHover, tab_group := some ⟨some 7⟩ } false
      = true ∧
    Client.isShown 7 { shade_mode := ShadeMode.ShadeHover, tab_group := some ⟨some 7⟩ } true
      = true :=
  isShown_whatever_the_flag_when_not_ShadeNormal 7
    { shade_mode := ShadeMode.ShadeHover, tab_group := some ⟨some 7⟩ }
    (by decide) (by decide) (by decide) (by decide)

/-! ### Looking up a client by a window id -/

/-- The two searches of `findClient`, as one search of `clients` and then of
`desktops`. -/
theorem findClient_func_eq (ws : Workspace) (func : Client → Bool) :
    findClient.func ws func =
      match ws.clients.find? (fun c => func (ws.heap c)) with
      | some c => some c
      | none => ws.desktops.find? (fun c => func (ws.heap c)) := by
  unfold findClient.func Toplevel.findInList
  cases ws.clients.find? (fun c => func (ws.heap c)) with
  | some c => rfl
  | none =>
    cases ws.desktops.find? (fun c => func (ws.heap c)) with
    | some c => rfl
    | none => rfl

/-- The search of `findClient(p, w)` in terms of the id that `p` selects. -/
theorem findClient_eq (ws : Workspace) (p : Predicate) (w : XWindow) :
    findClient ws p w =
      match ws.clients.find? (fun c => p.id (ws.heap c) == w) with
      | some c => some c
      | none => ws.desktops.find? (fun c => p.id (ws.heap c) == w) := by
  cases p <;> simp only [findClient, findClient_func_eq, Predicate.id]

/-- C20: `findClient(p, w)` returns the first client of `clients` whose id
selected by `p` equals `w`: no client before it in the list has that id. When
`clients` holds no such client it returns the first such client of `desktops`.
It returns null exactly when no client of `clients` or `desktops` has that id
equal to `w`, and a client it returns has the id `w`. -/
theorem findClient_returns_the_first_match (ws : Workspace) (p : Predicate) (w : XWindow) :
    (∀ c, findClient ws p w = some c ↔
      ((∃ before after, ws.clients = before ++ c :: after ∧ p.id (ws.heap c) = w ∧
          ∀ d ∈ before, p.id (ws.heap d) ≠ w) ∨
        ((∀ d ∈ ws.clients, p.id (ws.heap d) ≠ w) ∧
          ∃ before after, ws.desktops = before ++ c :: after ∧ p.id (ws.heap c) = w ∧
            ∀ d ∈ before, p.id (ws.heap d) ≠ w))) ∧
    (findClient ws p w = none ↔
      ∀ c, c ∈ ws.clients ∨ c ∈ ws.desktops → p.id (ws.heap c) ≠ w) ∧
    (∀ c, findClient ws p w = some c →
      p.id (ws.heap c) = w ∧ (c ∈ ws.clients ∨ c ∈ ws.desktops)) := by
  rw [findClient_eq]
  refine ⟨?_, ?_, ?_⟩
  · intro c
    cases h : ws.clients.find? (fun c => p.id (ws.heap c) == w) with
    | some x =>
      have hx := h
      rw [List.find?_eq_some] at hx
      obtain ⟨hpx, as, bs, hl, has⟩ := hx
      constructor
      · intro hc
        simp only [Option.some.injEq] at hc
        subst hc
        exact Or.inl ⟨as, bs, hl, by simpa using hpx, fun d hd => by simpa using has d hd⟩
      · rintro (⟨before, after, hl1, hc, hb⟩ | ⟨hno, _⟩)
        · have : ws.clients.find? (fun c => p.id (ws.heap c) == w) = some c := by
            rw [List.find?_eq_some]
            exact ⟨by simpa using hc, before, after, hl1, fun d hd => by simpa using hb d hd⟩
          rw [h] at this
          simpa using this
        · exfalso
          have hmem := List.mem_of_find?_eq_some h
          exact hno x hmem (by simpa using hpx)
    | none =>
      rw [List.find?_eq_none] at h
      simp only [List.find?_eq_some]
      constructor
      · rintro ⟨hc, as, bs, hl, has⟩
        exact Or.inr ⟨fun d hd => by simpa using h d hd, as, bs, hl, by simpa using hc,
          fun d hd => by simpa using has d hd⟩
      · rintro (⟨before, after, hl1, hc, _⟩ | ⟨_, before, after, hl1, hc, hb⟩)
        · exfalso
          exact h c (by rw [hl1]; simp) (by simpa using hc)
        · exact ⟨by simpa using hc, before, after, hl1, fun d hd => by simpa using hb d hd⟩
  · cases h : ws.clients.find? (fun c => p.id (ws.heap c) == w) with
    | some x =>
      have hmem := List.mem_of_find?_eq_some h
      have hpx := List.find?_some h
      constructor
      · intro hc
        cases hc
      · intro hall
        exact absurd (by simpa using hpx) (hall x (Or.inl hmem))
    | none =>
      rw [List.find?_eq_none] at h
      simp only [List.find?_eq_none]
      constructor
      · rintro hd c (hc | hc)
        · simpa using h c hc
        · simpa using hd c hc
      · intro hall c hc
        simpa using hall c (Or.inr hc)
  · intro c
    cases h : ws.clients.find? (fun c => p.id (ws.heap c) == w) with
    | some x =>
      intro hc
      simp only [Option.some.injEq] at hc
      subst hc
      exact ⟨by simpa using List.find?_some h, Or.inl (List.mem_of_find?_eq_some h)⟩
    | none =>
      intro hc
      exact ⟨by simpa using List.find?_some hc, Or.inr (List.mem_of_find?_eq_some hc)⟩

/-! ### Transient windows and their main windows -/

/-- C15, as the sources have it: a window with a main client is transient, and
a transient window that holds a parent reference has exactly that parent as its
main client. A transient window without a parent reference has a main client
exactly when it is group-transient and a window of its group holds it among its
transients; so a group-transient window that no window of its group lists is
transient and has no main client. -/
theorem mainClients_of_a_transient (env : Env) (ws : Workspace) (w : Toplevel) :
    (mainClients env ws w ≠ [] → (ws.heap w).isTransient = true) ∧
    (∀ parent, (ws.heap w).isTransient = true → (ws.heap w).transientFor = some parent →
      mainClients env ws w = [parent]) ∧
    ((ws.heap w).isTransient = true → (ws.heap w).transientFor = none →
      (mainClients env ws w ≠ [] ↔
        ((ws.heap w).groupTransient env = true ∧
          ∃ group, (ws.heap w).in_group = some group ∧
            ∃ m ∈ env.groupMembers group, w ∈ (ws.heap m).transients))) := by
  refine ⟨?_, ?_, ?_⟩
  · intro h
    by_contra hn
    apply h
    simp [mainClients, hn]
  · intro parent ht hp
    simp [mainClients, ht, hp]
  · intro ht hp
    by_cases hg : (ws.heap w).groupTransient env = true
    · cases hgr : (ws.heap w).in_group with
      | none => simp [mainClients, ht, hp, hg, hgr]
      | some group =>
        simp [mainClients, ht, hp, hg, hgr, QList.contains, List.filter_eq_nil_iff]
    · simp [mainClients, ht, hp, hg]

/-- C15 fails for a group-transient window alone in its group: the window 5 has
the root window as `m_transientForId`, so `isTransient()` is true, and no window
of its group lists it as a transient, so `mainClients()` is empty. -/
theorem group_transient_alone_has_no_main_client :
    Client.isTransient { m_transientForId := 1, in_group := some 0 } = true ∧
    Client.groupTransient { rootWindow := 1, groupMembers := fun _ => [5] }
      { m_transientForId := 1, in_group := some 0 } = true ∧
    mainClients { rootWindow := 1, groupMembers := fun _ => [5] }
      { heap := fun _ => { m_transientForId := 1, in_group := some 0 } } 5 = [] := by
  refine ⟨by decide, by decide, ?_⟩
  simp [mainClients, Client.isTransient, Client.transientFor, Client.groupTransient,
    Client.transients, QList.contains, XCB_WINDOW_NONE]

/-! ### Client visibility on a desktop change -/

/-- A loop that does nothing but issue a call for the windows that pass a test
issues the calls of the windows that pass, in the order of the loop. -/
theorem foldl_callIf (f : Workspace → Toplevel → Workspace) (g : Workspace → Toplevel → Bool)
    (k : Toplevel → Call) (hf : ∀ ws t, f ws t = ws.callIf (g ws t) (k t))
    (hg : ∀ ws b c, g (ws.callIf b c) = g ws) (l : List Toplevel) (ws : Workspace) :
    l.foldl f ws = { ws with calls := ws.calls ++ (l.filter (g ws)).map k } := by
  induction l generalizing ws with
  | nil => simp
  | cons t l ih =>
    rw [List.foldl_cons, ih, hf, hg]
    cases hgt : g ws t <;> simp [Workspace.callIf, Workspace.call, List.filter_cons, hgt]

/-- In a list without duplicates that holds `c`, exactly one element is `c`; it
passes a test when `c` does. -/
theorem countP_eq_and (g : Toplevel → Bool) (c : Toplevel) (l : List Toplevel)
    (hmem : c ∈ l) (hnodup : l.Nodup) :
    (l.filter g).countP (fun x => x == c) = if g c then 1 else 0 := by
  induction l with
  | nil => simp at hmem
  | cons x l ih =>
    rw [List.nodup_cons] at hnodup
    by_cases hx : x = c
    · subst hx
      have h0 : (l.filter g).countP (fun y => y == x) = 0 := by
        rw [List.countP_eq_zero]
        intro a ha
        have := (List.mem_filter.mp ha).1
        simp only [beq_iff_eq]
        rintro rfl
        exact hnodup.1 this
      cases hg : g x <;> simp [List.filter_cons, hg, h0]
    · have hmem1 : c ∈ l := by
        rcases List.mem_cons.mp hmem with h | h
        · exact absurd h.symm hx
        · exact h
      have := ih hmem1 hnodup.2
      cases hg : g x <;> simp [List.filter_cons, hg, this, hx]

/-- The calls `updateVisibility()` among the calls that a loop issues for the
windows that pass a test. -/
theorem countP_isUpdateVisibility_map (c : Toplevel) (l : List Toplevel) :
    (l.map Call.updateVisibility).countP (Call.isUpdateVisibility c)
      = l.countP (fun x => x == c) := by
  rw [List.countP_map]
  rfl

/-- The first loop of `updateClientVisibilityOnDesktopChange` as a whole. -/
theorem hideAll_eq (env : Env) (newDesktop : Nat) (ws : Workspace) :
    updateClientVisibilityOnDesktopChange.hideAll env newDesktop ws =
      { ws with
        calls := ws.calls ++
          (ws.stacking_order.filter (fun t =>
            decide ((ws.heap t).kind = Kind.X11Client) &&
              (!(ws.heap t).isOnDesktop (static_cast_int newDesktop) && ws.movingClient != some t &&
                isOnCurrentActivity env (ws.heap t)))).map Call.updateVisibility } := by
  unfold updateClientVisibilityOnDesktopChange.hideAll
  rw [foldl_callIf (updateClientVisibilityOnDesktopChange.hide env newDesktop)
    (fun ws t => decide ((ws.heap t).kind = Kind.X11Client) &&
      (!(ws.heap t).isOnDesktop (static_cast_int newDesktop) && ws.movingClient != some t &&
        isOnCurrentActivity env (ws.heap t))) Call.updateVisibility]
  · intro ws t
    unfold updateClientVisibilityOnDesktopChange.hide castX11Client
    by_cases hk : (ws.heap t).kind = Kind.X11Client
    · simp [hk]
    · simp [hk, Workspace.callIf]
  · intro ws b c
    cases b <;> simp [Workspace.callIf, Workspace.call]

/-- The second loop of `updateClientVisibilityOnDesktopChange` as a whole. -/
theorem showAll_eq (env : Env) (newDesktop : Nat) (ws : Workspace) :
    updateClientVisibilityOnDesktopChange.showAll env newDesktop ws =
      { ws with
        calls := ws.calls ++
          (ws.stacking_order.reverse.filter (fun t =>
            decide ((ws.heap t).kind = Kind.X11Client) &&
              ((ws.heap t).isOnDesktop (static_cast_int newDesktop) &&
                isOnCurrentActivity env (ws.heap t)))).map Call.updateVisibility } := by
  unfold updateClientVisibilityOnDesktopChange.showAll
  rw [foldl_callIf (updateClientVisibilityOnDesktopChange.show env newDesktop)
    (fun ws t => decide ((ws.heap t).kind = Kind.X11Client) &&
      ((ws.heap t).isOnDesktop (static_cast_int newDesktop) &&
        isOnCurrentActivity env (ws.heap t))) Call.updateVisibility]
  · intro ws t
    unfold updateClientVisibilityOnDesktopChange.show castX11Client
    by_cases hk : (ws.heap t).kind = Kind.X11Client
    · simp [hk]
    · simp [hk, Workspace.callIf]
  · intro ws b c
    cases b <;> simp [Workspace.callIf, Workspace.call]

/-- No call is no call of `updateVisibility()`. -/
theorem issuesNoUpdateVisibility_refl (c : Toplevel) (ws : Workspace) :
    issuesNoUpdateVisibility c ws ws :=
  ⟨[], by simp, by simp⟩

/-- A statement that issues no call issues no call of `updateVisibility()`. -/
theorem issuesNoUpdateVisibility_of_calls_eq (c : Toplevel) {ws ws1 : Workspace}
    (h : ws1.calls = ws.calls) : issuesNoUpdateVisibility c ws ws1 :=
  ⟨[], by simp [h], by simp⟩

/-- Statements in sequence that call `updateVisibility()` on no client. -/
theorem issuesNoUpdateVisibility_trans (c : Toplevel) {ws ws1 ws2 : Workspace}
    (h1 : issuesNoUpdateVisibility c ws ws1) (h2 : issuesNoUpdateVisibility c ws1 ws2) :
    issuesNoUpdateVisibility c ws ws2 := by
  obtain ⟨e1, he1, hc1⟩ := h1
  obtain ⟨e2, he2, hc2⟩ := h2
  exact ⟨e1 ++ e2, by rw [he2, he1, List.append_assoc], by rw [List.countP_append, hc1, hc2]⟩

/-- A call that is not `c->updateVisibility()`. -/
theorem issuesNoUpdateVisibility_call (c : Toplevel) (ws : Workspace) (k : Call)
    (hk : Call.isUpdateVisibility c k = false) :
    issuesNoUpdateVisibility c ws (ws.call k) :=
  ⟨[k], rfl, by simp [hk]⟩

/-- A conditional call that is not `c->updateVisibility()`. -/
theorem issuesNoUpdateVisibility_callIf (c : Toplevel) (ws : Workspace) (b : Bool) (k : Call)
    (hk : Call.isUpdateVisibility c k = false) :
    issuesNoUpdateVisibility c ws (ws.callIf b k) := by
  cases b
  · exact issuesNoUpdateVisibility_refl c ws
  · exact issuesNoUpdateVisibility_call c ws k hk

/-- The loop of `setShowingDesktop` over the members of a group calls
`updateLayer()` only. -/
theorem issuesNoUpdateVisibility_foldl_updateLayer (c : Toplevel) (l : List Toplevel)
    (ws : Workspace) :
    issuesNoUpdateVisibility c ws (l.foldl (fun ws cm => ws.call (Call.updateLayer cm)) ws) := by
  induction l generalizing ws with
  | nil => exact issuesNoUpdateVisibility_refl c ws
  | cons x l ih =>
    exact issuesNoUpdateVisibility_trans c
      (issuesNoUpdateVisibility_call c ws (Call.updateLayer x) rfl) (ih _)

/-- One step of the loop of `setShowingDesktop` calls `updateVisibility()` on no
client. -/
theorem issuesNoUpdateVisibility_step (env : Env) (c : Toplevel)
    (acc : Workspace × Option Toplevel) (t : Toplevel) :
    issuesNoUpdateVisibility c acc.1 (setShowingDesktop.step env acc t).1 := by
  unfold setShowingDesktop.step
  dsimp only
  cases castAbstractClient acc.1 t with
  | none => exact issuesNoUpdateVisibility_refl c _
  | some x =>
    dsimp only
    split_ifs <;>
      first
      | exact issuesNoUpdateVisibility_refl c _
      | exact issuesNoUpdateVisibility_call c acc.1 (Call.updateLayer x) rfl
      | exact issuesNoUpdateVisibility_trans c
          (issuesNoUpdateVisibility_trans c
            (issuesNoUpdateVisibility_call c acc.1 (Call.updateLayer x) rfl)
            (issuesNoUpdateVisibility_call c _ (Call.lowerClient x) rfl))
          (issuesNoUpdateVisibility_foldl_updateLayer c _ _)

/-- The loop of `setShowingDesktop` calls `updateVisibility()` on no client. -/
theorem issuesNoUpdateVisibility_foldl_step (env : Env) (c : Toplevel) (l : List Toplevel)
    (acc : Workspace × Option Toplevel) :
    issuesNoUpdateVisibility c acc.1 (l.foldl (setShowingDesktop.step env) acc).1 := by
  induction l generalizing acc with
  | nil => exact issuesNoUpdateVisibility_refl c _
  | cons x l ih =>
    exact issuesNoUpdateVisibility_trans c (issuesNoUpdateVisibility_step env c acc x) (ih _)

/-- The function `setShowingDesktop` calls `updateVisibility()` on no client. -/
theorem issuesNoUpdateVisibility_setShowingDesktop (env : Env) (c : Toplevel) (ws : Workspace)
    (showing : Bool) :
    issuesNoUpdateVisibility c ws (setShowingDesktop env ws showing) := by
  unfold setShowingDesktop
  lift_lets
  intro ws1 changed ws2 ws3 ws4 r ws5 topDesk ws6 ws7
  have h1 : issuesNoUpdateVisibility c ws ws1 :=
    issuesNoUpdateVisibility_call c ws (Call.setShowingDesktop showing) rfl
  have h2 : issuesNoUpdateVisibility c ws1 ws2 :=
    issuesNoUpdateVisibility_callIf c ws1 _ (Call.rootInfoSetShowingDesktop showing) rfl
  have h3 : issuesNoUpdateVisibility c ws2 ws3 := issuesNoUpdateVisibility_of_calls_eq c rfl
  have h4 : issuesNoUpdateVisibility c ws3 ws4 :=
    issuesNoUpdateVisibility_call c ws3 (Call.blockStackingUpdates true) rfl
  have h5 : issuesNoUpdateVisibility c ws4 ws5 :=
    issuesNoUpdateVisibility_foldl_step env c _ (ws4, none)
  have h6 : issuesNoUpdateVisibility c ws5 ws6 :=
    issuesNoUpdateVisibility_call c ws5 (Call.blockStackingUpdates false) rfl
  have h7 : issuesNoUpdateVisibility c ws6 ws7 := by
    show issuesNoUpdateVisibility c ws6
      (if ws6.showing_desktop && topDesk != none then ws6.call (Call.requestFocus topDesk)
       else if !ws6.showing_desktop && changed then
         ws6.callOn (env.getForActivation ws6 env.vdsCurrent)
           (fun client => Call.activateClient (some client))
       else ws6)
    split_ifs
    · exact issuesNoUpdateVisibility_call c ws6 (Call.requestFocus topDesk) rfl
    · cases env.getForActivation ws6 env.vdsCurrent with
      | none => exact issuesNoUpdateVisibility_refl c _
      | some x => exact issuesNoUpdateVisibility_call c ws6 (Call.activateClient (some x)) rfl
    · exact issuesNoUpdateVisibility_refl c _
  have h8 := issuesNoUpdateVisibility_callIf c ws7 changed (Call.showingDesktopChanged showing) rfl
  exact issuesNoUpdateVisibility_trans c h1 (issuesNoUpdateVisibility_trans c h2
    (issuesNoUpdateVisibility_trans c h3 (issuesNoUpdateVisibility_trans c h4
    (issuesNoUpdateVisibility_trans c h5 (issuesNoUpdateVisibility_trans c h6
    (issuesNoUpdateVisibility_trans c h7 h8))))))

/-- What the statements between the two loops of
`updateClientVisibilityOnDesktopChange` do: they call `updateVisibility()` on no
client and leave every client as it is, but for the moving client when it is not
on the new desktop, on which they call `setDesktop`. -/
theorem propagate_spec (env : Env) (newDesktop : Nat) (ws : Workspace) (c : Toplevel) :
    issuesNoUpdateVisibility c ws
      (updateClientVisibilityOnDesktopChange.propagate env newDesktop ws) ∧
    (updateClientVisibilityOnDesktopChange.propagate env newDesktop ws).stacking_order
      = ws.stacking_order ∧
    (updateClientVisibilityOnDesktopChange.propagate env newDesktop ws).showing_desktop
      = ws.showing_desktop ∧
    (∀ x, ((updateClientVisibilityOnDesktopChange.propagate env newDesktop ws).heap x).kind
        = (ws.heap x).kind ∧
      isOnCurrentActivity env
          ((updateClientVisibilityOnDesktopChange.propagate env newDesktop ws).heap x)
        = isOnCurrentActivity env (ws.heap x)) ∧
    (∀ x, ws.movingClient ≠ some x ∨ (ws.heap x).isOnDesktop (static_cast_int newDesktop) = true →
      (updateClientVisibilityOnDesktopChange.propagate env newDesktop ws).heap x = ws.heap x) ∧
    (∀ x, ws.movingClient = some x → (ws.heap x).isOnDesktop (static_cast_int newDesktop) = false →
      Call.setDesktop x (static_cast_int newDesktop) ∈
          issued ws (updateClientVisibilityOnDesktopChange.propagate env newDesktop ws) ∧
        (updateClientVisibilityOnDesktopChange.propagate env newDesktop ws).heap x =
          { ws.heap x with
            desktop := env.setDesktop
              ((ws.callIf env.rootInfo (Call.rootInfoSetCurrentDesktop env.vdsCurrent)).call
                (Call.setDesktop x (static_cast_int newDesktop))) x (static_cast_int newDesktop) }) := by
  have h0 : issuesNoUpdateVisibility c ws
      (ws.callIf env.rootInfo (Call.rootInfoSetCurrentDesktop env.vdsCurrent)) :=
    issuesNoUpdateVisibility_callIf c ws _ (Call.rootInfoSetCurrentDesktop env.vdsCurrent) rfl
  have hheap : (ws.callIf env.rootInfo (Call.rootInfoSetCurrentDesktop env.vdsCurrent)).heap
      = ws.heap := by cases env.rootInfo <;> rfl
  have hmov : (ws.callIf env.rootInfo
      (Call.rootInfoSetCurrentDesktop env.vdsCurrent)).movingClient = ws.movingClient := by
    cases env.rootInfo <;> rfl
  have hst : (ws.callIf env.rootInfo
      (Call.rootInfoSetCurrentDesktop env.vdsCurrent)).stacking_order = ws.stacking_order := by
    cases env.rootInfo <;> rfl
  have hsd : (ws.callIf env.rootInfo
      (Call.rootInfoSetCurrentDesktop env.vdsCurrent)).showing_desktop = ws.showing_desktop := by
    cases env.rootInfo <;> rfl
  unfold updateClientVisibilityOnDesktopChange.propagate
  dsimp only
  generalize ws.callIf env.rootInfo (Call.rootInfoSetCurrentDesktop env.vdsCurrent) = w0 at *
  rw [hmov]
  cases hm : ws.movingClient with
  | none =>
    dsimp only
    refine ⟨h0, hst, hsd, fun x => by rw [hheap]; exact ⟨rfl, rfl⟩, fun x _ => by rw [hheap],
      fun x hx => by simp at hx⟩
  | some m =>
    dsimp only
    rw [hheap]
    by_cases hon : (ws.heap m).isOnDesktop (static_cast_int newDesktop) = true
    · simp only [hon, Bool.not_true, Bool.false_eq_true, if_false]
      refine ⟨h0, hst, hsd, fun x => by rw [hheap]; exact ⟨rfl, rfl⟩, fun x _ => by rw [hheap],
        fun x hx hx1 => ?_⟩
      simp only [Option.some.injEq] at hx
      subst hx
      rw [hon] at hx1
      cases hx1
    · simp only [hon, Bool.not_false, if_true]
      have hset : issuesNoUpdateVisibility c w0 (setDesktop env w0 m (static_cast_int newDesktop)) :=
        ⟨[Call.setDesktop m (static_cast_int newDesktop)], rfl, by simp [Call.isUpdateVisibility]⟩
      have hh : ∀ x, (setDesktop env w0 m (static_cast_int newDesktop)).heap x =
          if x = m then
            { ws.heap m with
              desktop := env.setDesktop (w0.call (Call.setDesktop m (static_cast_int newDesktop))) m
                (static_cast_int newDesktop) }
          else ws.heap x := by
        intro x
        show Function.update (w0.call (Call.setDesktop m (static_cast_int newDesktop))).heap m _ x = _
        have : (w0.call (Call.setDesktop m (static_cast_int newDesktop))).heap = ws.heap := hheap
        rw [this]
        by_cases hxm : x = m
        · subst hxm
          simp
        · simp [Function.update, hxm]
      refine ⟨issuesNoUpdateVisibility_trans c h0 hset, hst, hsd, fun x => ?_, fun x hx => ?_,
        fun x hx hx1 => ?_⟩
      · rw [hh]
        by_cases hxm : x = m
        · subst hxm
          simp [isOnCurrentActivity, Client.isOnActivity]
        · simp [hxm]
      · have hxm : x ≠ m := by
          rcases hx with hx | hx
          · intro h
            exact hx (by rw [h])
          · intro h
            rw [h] at hx
            exact hon hx
        rw [hh]
        simp [hxm]
      · simp only [Option.some.injEq] at hx
        subst hx
        constructor
        · obtain ⟨pre, hpre, _⟩ := h0
          have : (setDesktop env w0 m (static_cast_int newDesktop)).calls
              = ws.calls ++ (pre ++ [Call.setDesktop m (static_cast_int newDesktop)]) := by
            show w0.calls ++ [Call.setDesktop m (static_cast_int newDesktop)] = _
            rw [hpre, List.append_assoc]
          rw [issued_of_calls_eq this]
          simp
        · rw [hh]
          simp

/-- C12, as the sources have it. Let `c` be an X11 client of a duplicate-free
`stacking_order` that is on the current activity. The hiding pass calls
`c->updateVisibility()` once when `c` is not on `newDesktop` and is not the
moving client, and not at all otherwise. Between the passes a client other than
the moving client, or one already on `newDesktop`, is left as it is, and
`setDesktop(newDesktop)` is called on a moving client that is not on
`newDesktop`. The showing pass calls `c->updateVisibility()` once when `c` is
then on `newDesktop`, and not at all otherwise. The function as a whole calls it
as often as the two passes together: exactly once, unless `c` is the moving
client, was not on `newDesktop` and `setDesktop` has not left it there. A client
on all desktops is called in the showing pass and not in the hiding pass. The
hiding pass goes from the bottom of the stacking order to its top: the calls it
issues are `updateVisibility()` on the X11 clients of `stacking_order` that are
not on `newDesktop`, are not the moving client and are on the current activity,
in the order of `stacking_order`. The showing pass goes from the top to the
bottom: the calls it issues are `updateVisibility()` on the X11 clients that are
then on `newDesktop` and are on the current activity, in the order of
`stacking_order` reversed. -/
theorem updateVisibility_on_desktop_change (env : Env) (ws : Workspace) (newDesktop : Nat)
    (c : Toplevel) (hkind : (ws.heap c).kind = Kind.X11Client)
    (hmem : c ∈ ws.stacking_order) (hnodup : ws.stacking_order.Nodup)
    (hact : isOnCurrentActivity env (ws.heap c) = true) :
    (issued (ws.call (Call.updateClientVisibilityOnDesktopChange newDesktop))
        (updateClientVisibilityOnDesktopChange.afterHiding env ws newDesktop)).countP
        (Call.isUpdateVisibility c) =
      (if (ws.heap c).isOnDesktop (static_cast_int newDesktop) = false ∧ ws.movingClient ≠ some c
        then 1 else 0) ∧
    (ws.movingClient ≠ some c ∨ (ws.heap c).isOnDesktop (static_cast_int newDesktop) = true →
      (updateClientVisibilityOnDesktopChange.afterPropagating env ws newDesktop).heap c
        = ws.heap c) ∧
    (ws.movingClient = some c → (ws.heap c).isOnDesktop (static_cast_int newDesktop) = false →
      Call.setDesktop c (static_cast_int newDesktop) ∈
          issued (updateClientVisibilityOnDesktopChange.afterHiding env ws newDesktop)
            (updateClientVisibilityOnDesktopChange.afterPropagating env ws newDesktop) ∧
        (updateClientVisibilityOnDesktopChange.afterPropagating env ws newDesktop).heap c =
          { ws.heap c with
            desktop := env.setDesktop
              (((updateClientVisibilityOnDesktopChange.afterHiding env ws newDesktop).callIf
                  env.rootInfo (Call.rootInfoSetCurrentDesktop env.vdsCurrent)).call
                (Call.setDesktop c (static_cast_int newDesktop))) c (static_cast_int newDesktop) }) ∧
    (issued (updateClientVisibilityOnDesktopChange.afterPropagating env ws newDesktop)
        (updateClientVisibilityOnDesktopChange.afterShowing env ws newDesktop)).countP
        (Call.isUpdateVisibility c) =
      (if ((updateClientVisibilityOnDesktopChange.afterPropagating env ws newDesktop).heap
          c).isOnDesktop (static_cast_int newDesktop) = true then 1 else 0) ∧
    (issued ws (updateClientVisibilityOnDesktopChange env ws newDesktop)).countP
        (Call.isUpdateVisibility c) =
      (if (ws.heap c).isOnDesktop (static_cast_int newDesktop) = false ∧ ws.movingClient ≠ some c
        then 1 else 0) +
      (if ((updateClientVisibilityOnDesktopChange.afterPropagating env ws newDesktop).heap
          c).isOnDesktop (static_cast_int newDesktop) = true then 1 else 0) ∧
    ((issued ws (updateClientVisibilityOnDesktopChange env ws newDesktop)).countP
        (Call.isUpdateVisibility c) = 1 ↔
      (ws.movingClient = some c → (ws.heap c).isOnDesktop (static_cast_int newDesktop) = false →
        ((updateClientVisibilityOnDesktopChange.afterPropagating env ws newDesktop).heap
          c).isOnDesktop (static_cast_int newDesktop) = true)) ∧
    ((ws.heap c).isOnAllDesktops = true →
      (issued (ws.call (Call.updateClientVisibilityOnDesktopChange newDesktop))
        (updateClientVisibilityOnDesktopChange.afterHiding env ws newDesktop)).countP
        (Call.isUpdateVisibility c) = 0 ∧
      (issued (updateClientVisibilityOnDesktopChange.afterPropagating env ws newDesktop)
        (updateClientVisibilityOnDesktopChange.afterShowing env ws newDesktop)).countP
        (Call.isUpdateVisibility c) = 1) ∧
    issued (ws.call (Call.updateClientVisibilityOnDesktopChange newDesktop))
        (updateClientVisibilityOnDesktopChange.afterHiding env ws newDesktop) =
      (ws.stacking_order.filter (fun t =>
        decide ((ws.heap t).kind = Kind.X11Client) &&
          (!(ws.heap t).isOnDesktop (static_cast_int newDesktop) && ws.movingClient != some t &&
            isOnCurrentActivity env (ws.heap t)))).map Call.updateVisibility ∧
    issued (updateClientVisibilityOnDesktopChange.afterPropagating env ws newDesktop)
        (updateClientVisibilityOnDesktopChange.afterShowing env ws newDesktop) =
      (ws.stacking_order.reverse.filter (fun t =>
        decide ((ws.heap t).kind = Kind.X11Client) &&
          (((updateClientVisibilityOnDesktopChange.afterPropagating env ws newDesktop).heap
              t).isOnDesktop (static_cast_int newDesktop) &&
            isOnCurrentActivity env (ws.heap t)))).map Call.updateVisibility := by
  -- the hiding pass
  have haH := hideAll_eq env newDesktop
    (ws.call (Call.updateClientVisibilityOnDesktopChange newDesktop))
  have hHheap : (updateClientVisibilityOnDesktopChange.afterHiding env ws newDesktop).heap
      = ws.heap := by
    unfold updateClientVisibilityOnDesktopChange.afterHiding
    rw [haH]
    rfl
  have hHmov : (updateClientVisibilityOnDesktopChange.afterHiding env ws newDesktop).movingClient
      = ws.movingClient := by
    unfold updateClientVisibilityOnDesktopChange.afterHiding
    rw [haH]
    rfl
  have hHst : (updateClientVisibilityOnDesktopChange.afterHiding env ws newDesktop).stacking_order
      = ws.stacking_order := by
    unfold updateClientVisibilityOnDesktopChange.afterHiding
    rw [haH]
    rfl
  have hHsd : (updateClientVisibilityOnDesktopChange.afterHiding env ws newDesktop).showing_desktop
      = ws.showing_desktop := by
    unfold updateClientVisibilityOnDesktopChange.afterHiding
    rw [haH]
    rfl
  obtain ⟨hl, hHcalls, hHcount⟩ : ∃ hl,
      (updateClientVisibilityOnDesktopChange.afterHiding env ws newDesktop).calls =
        (ws.call (Call.updateClientVisibilityOnDesktopChange newDesktop)).calls ++ hl ∧
      hl.countP (Call.isUpdateVisibility c) =
        (if (ws.heap c).isOnDesktop (static_cast_int newDesktop) = false ∧ ws.movingClient ≠ some c
          then 1 else 0) := by
    refine ⟨((ws.call (Call.updateClientVisibilityOnDesktopChange
      newDesktop)).stacking_order.filter (fun t =>
        decide (((ws.call (Call.updateClientVisibilityOnDesktopChange newDesktop)).heap t).kind
            = Kind.X11Client) &&
          (!((ws.call (Call.updateClientVisibilityOnDesktopChange newDesktop)).heap
              t).isOnDesktop (static_cast_int newDesktop) &&
            (ws.call (Call.updateClientVisibilityOnDesktopChange newDesktop)).movingClient
              != some t &&
            isOnCurrentActivity env
              ((ws.call (Call.updateClientVisibilityOnDesktopChange newDesktop)).heap
                t)))).map Call.updateVisibility, ?_, ?_⟩
    · unfold updateClientVisibilityOnDesktopChange.afterHiding
      rw [haH]
    · rw [countP_isUpdateVisibility_map]
      have hmem0 : c ∈ (ws.call
          (Call.updateClientVisibilityOnDesktopChange newDesktop)).stacking_order := hmem
      have hnodup0 : (ws.call
          (Call.updateClientVisibilityOnDesktopChange newDesktop)).stacking_order.Nodup := hnodup
      rw [countP_eq_and _ c _ hmem0 hnodup0]
      have hh : (ws.call (Call.updateClientVisibilityOnDesktopChange newDesktop)).heap
          = ws.heap := rfl
      have hm : (ws.call (Call.updateClientVisibilityOnDesktopChange newDesktop)).movingClient
          = ws.movingClient := rfl
      simp only [hh, hm, hkind, hact, decide_True, Bool.true_and, Bool.and_true]
      cases hon : (ws.heap c).isOnDesktop (static_cast_int newDesktop) <;>
        by_cases hmv : ws.movingClient = some c <;> simp [hmv]
  -- between the passes
  obtain ⟨hPno, hPst, hPsd, hPkind, hPsame, hPset⟩ := propagate_spec env newDesktop
    (updateClientVisibilityOnDesktopChange.afterHiding env ws newDesktop) c
  rw [hHheap, hHmov] at hPsame hPset
  simp only [hHheap] at hPkind
  rw [hHst] at hPst
  have hPsame1 : ws.movingClient ≠ some c ∨
      (ws.heap c).isOnDesktop (static_cast_int newDesktop) = true →
      (updateClientVisibilityOnDesktopChange.afterPropagating env ws newDesktop).heap c
        = ws.heap c := hPsame c
  have hPset1 := hPset c
  obtain ⟨pl, hPcalls, hPcount⟩ := hPno
  -- the showing pass
  have haS := showAll_eq env newDesktop
    (updateClientVisibilityOnDesktopChange.afterPropagating env ws newDesktop)
  obtain ⟨sl, hScalls, hScount⟩ : ∃ sl,
      (updateClientVisibilityOnDesktopChange.afterShowing env ws newDesktop).calls =
        (updateClientVisibilityOnDesktopChange.afterPropagating env ws newDesktop).calls ++ sl ∧
      sl.countP (Call.isUpdateVisibility c) =
        (if ((updateClientVisibilityOnDesktopChange.afterPropagating env ws newDesktop).heap
          c).isOnDesktop (static_cast_int newDesktop) = true then 1 else 0) := by
    refine ⟨((updateClientVisibilityOnDesktopChange.afterPropagating env ws
      newDesktop).stacking_order.reverse.filter (fun t =>
        decide (((updateClientVisibilityOnDesktopChange.afterPropagating env ws
            newDesktop).heap t).kind = Kind.X11Client) &&
          (((updateClientVisibilityOnDesktopChange.afterPropagating env ws
              newDesktop).heap t).isOnDesktop (static_cast_int newDesktop) &&
            isOnCurrentActivity env
              ((updateClientVisibilityOnDesktopChange.afterPropagating env ws
                newDesktop).heap t)))).map Call.updateVisibility, ?_, ?_⟩
    · unfold updateClientVisibilityOnDesktopChange.afterShowing
      rw [haS]
    · rw [countP_isUpdateVisibility_map]
      have hmem0 : c ∈ (updateClientVisibilityOnDesktopChange.afterPropagating env ws
          newDesktop).stacking_order.reverse := by
        unfold updateClientVisibilityOnDesktopChange.afterPropagating
        rw [hPst]
        exact List.mem_reverse.mpr hmem
      have hnodup0 : (updateClientVisibilityOnDesktopChange.afterPropagating env ws
          newDesktop).stacking_order.reverse.Nodup := by
        unfold updateClientVisibilityOnDesktopChange.afterPropagating
        rw [hPst]
        exact List.nodup_reverse.mpr hnodup
      rw [countP_eq_and _ c _ hmem0 hnodup0]
      have hk := (hPkind c).1
      have ha := (hPkind c).2
      unfold updateClientVisibilityOnDesktopChange.afterPropagating
      simp only [hk, ha, hkind, hact, decide_True, Bool.true_and, Bool.and_true]
  -- the function as a whole
  have hSsd : issuesNoUpdateVisibility c
      (updateClientVisibilityOnDesktopChange.afterShowing env ws newDesktop)
      (updateClientVisibilityOnDesktopChange env ws newDesktop) := by
    show issuesNoUpdateVisibility c _
      (if (updateClientVisibilityOnDesktopChange.afterShowing env ws newDesktop).showingDesktop
        then setShowingDesktop env
          (updateClientVisibilityOnDesktopChange.afterShowing env ws newDesktop) false
        else updateClientVisibilityOnDesktopChange.afterShowing env ws newDesktop)
    split_ifs
    · exact issuesNoUpdateVisibility_setShowingDesktop env c _ false
    · exact issuesNoUpdateVisibility_refl c _
  obtain ⟨tl, hTcalls, hTcount⟩ := hSsd
  have hPcalls1 : (updateClientVisibilityOnDesktopChange.afterPropagating env ws newDesktop).calls
      = (updateClientVisibilityOnDesktopChange.afterHiding env ws newDesktop).calls ++ pl :=
    hPcalls
  have hwhole : (updateClientVisibilityOnDesktopChange env ws newDesktop).calls =
      ws.calls ++ ([Call.updateClientVisibilityOnDesktopChange newDesktop] ++ hl ++ pl ++ sl
        ++ tl) := by
    rw [hTcalls, hScalls, hPcalls1, hHcalls]
    simp [Workspace.call]
  have hT : (issued ws (updateClientVisibilityOnDesktopChange env ws newDesktop)).countP
      (Call.isUpdateVisibility c) =
      (if (ws.heap c).isOnDesktop (static_cast_int newDesktop) = false ∧ ws.movingClient ≠ some c
        then 1 else 0) +
      (if ((updateClientVisibilityOnDesktopChange.afterPropagating env ws newDesktop).heap
          c).isOnDesktop (static_cast_int newDesktop) = true then 1 else 0) := by
    rw [issued_of_calls_eq hwhole]
    simp only [List.countP_append, hHcount, hPcount, hScount, hTcount]
    simp [Call.isUpdateVisibility]
  have hH : (issued (ws.call (Call.updateClientVisibilityOnDesktopChange newDesktop))
        (updateClientVisibilityOnDesktopChange.afterHiding env ws newDesktop)).countP
        (Call.isUpdateVisibility c) =
      (if (ws.heap c).isOnDesktop (static_cast_int newDesktop) = false ∧ ws.movingClient ≠ some c
        then 1 else 0) := by
    rw [issued_of_calls_eq hHcalls, hHcount]
  have hS : (issued (updateClientVisibilityOnDesktopChange.afterPropagating env ws newDesktop)
        (updateClientVisibilityOnDesktopChange.afterShowing env ws newDesktop)).countP
        (Call.isUpdateVisibility c) =
      (if ((updateClientVisibilityOnDesktopChange.afterPropagating env ws newDesktop).heap
          c).isOnDesktop (static_cast_int newDesktop) = true then 1 else 0) := by
    rw [issued_of_calls_eq hScalls, hScount]
  have hHorder : issued (ws.call (Call.updateClientVisibilityOnDesktopChange newDesktop))
        (updateClientVisibilityOnDesktopChange.afterHiding env ws newDesktop) =
      (ws.stacking_order.filter (fun t =>
        decide ((ws.heap t).kind = Kind.X11Client) &&
          (!(ws.heap t).isOnDesktop (static_cast_int newDesktop) && ws.movingClient != some t &&
            isOnCurrentActivity env (ws.heap t)))).map Call.updateVisibility := by
    unfold updateClientVisibilityOnDesktopChange.afterHiding
    rw [haH]
    exact issued_of_calls_eq rfl
  have hSorder : issued (updateClientVisibilityOnDesktopChange.afterPropagating env ws newDesktop)
        (updateClientVisibilityOnDesktopChange.afterShowing env ws newDesktop) =
      (ws.stacking_order.reverse.filter (fun t =>
        decide ((ws.heap t).kind = Kind.X11Client) &&
          (((updateClientVisibilityOnDesktopChange.afterPropagating env ws newDesktop).heap
              t).isOnDesktop (static_cast_int newDesktop) &&
            isOnCurrentActivity env (ws.heap t)))).map Call.updateVisibility := by
    have e : issued (updateClientVisibilityOnDesktopChange.afterPropagating env ws newDesktop)
        (updateClientVisibilityOnDesktopChange.afterShowing env ws newDesktop) =
        ((updateClientVisibilityOnDesktopChange.afterPropagating env ws
          newDesktop).stacking_order.reverse.filter (fun t =>
            decide (((updateClientVisibilityOnDesktopChange.afterPropagating env ws
                newDesktop).heap t).kind = Kind.X11Client) &&
              (((updateClientVisibilityOnDesktopChange.afterPropagating env ws
                  newDesktop).heap t).isOnDesktop (static_cast_int newDesktop) &&
                isOnCurrentActivity env
                  ((updateClientVisibilityOnDesktopChange.afterPropagating env ws
                    newDesktop).heap t)))).map Call.updateVisibility := by
      unfold updateClientVisibilityOnDesktopChange.afterShowing
      rw [haS]
      exact issued_of_calls_eq rfl
    have hst1 : (updateClientVisibilityOnDesktopChange.afterPropagating env ws
        newDesktop).stacking_order = ws.stacking_order := hPst
    rw [e, hst1]
    congr 1
    apply List.filter_congr
    intro t _
    have hk : ((updateClientVisibilityOnDesktopChange.afterPropagating env ws
        newDesktop).heap t).kind = (ws.heap t).kind := (hPkind t).1
    have ha : isOnCurrentActivity env
        ((updateClientVisibilityOnDesktopChange.afterPropagating env ws newDesktop).heap t)
        = isOnCurrentActivity env (ws.heap t) := (hPkind t).2
    rw [hk, ha]
  refine ⟨hH, hPsame1, ?_, hS, hT, ?_, ?_, hHorder, hSorder⟩
  · intro hmv hon
    obtain ⟨h1, h2⟩ := hPset1 hmv hon
    exact ⟨h1, h2⟩
  · rw [hT]
    by_cases hmv : ws.movingClient = some c
    · cases hon : (ws.heap c).isOnDesktop (static_cast_int newDesktop)
      · cases hp : ((updateClientVisibilityOnDesktopChange.afterPropagating env ws
            newDesktop).heap c).isOnDesktop (static_cast_int newDesktop) <;> simp [hmv]
      · have := hPsame1 (Or.inr hon)
        rw [this, hon]
        simp [hmv]
    · have := hPsame1 (Or.inl hmv)
      rw [this]
      cases hon : (ws.heap c).isOnDesktop (static_cast_int newDesktop) <;> simp [hmv]
  · intro hall
    have hon : (ws.heap c).isOnDesktop (static_cast_int newDesktop) = true := by
      simp [Client.isOnDesktop, hall]
    rw [hH, hS, hPsame1 (Or.inr hon), hon]
    simp

/-- Witness for C12: the client 3 is being moved, is on desktop 1 and follows to
desktop 2; `updateVisibility()` is called on it once. -/
theorem updateVisibility_on_desktop_change_witness :
    (issued { stacking_order := [3, 4], movingClient := some 3,
              heap := fun _ => { desktop := 1 } }
        (updateClientVisibilityOnDesktopChange {}
          { stacking_order := [3, 4], movingClient := some 3,
            heap := fun _ => { desktop := 1 } } 2)).countP
      (Call.isUpdateVisibility 3) = 1 :=
  (updateVisibility_on_desktop_change {}
    { stacking_order := [3, 4], movingClient := some 3, heap := fun _ => { desktop := 1 } }
    2 3 (by decide) (by decide) (by decide) (by decide)).2.2.2.2.2.1.mpr
    (fun _ _ => by decide)

/-- C12 fails for a moving client whose desktop is forced: the X11 client 3 of
`stacking_order` is on the current activity and on desktop 1, it is the moving
client, and `setDesktop(2)` leaves it on desktop 1. The hiding pass skips it as
the moving client, the showing pass skips it as not on desktop 2, and
`updateVisibility()` is not called on it at all. -/
theorem moving_client_on_a_forced_desktop_is_not_updated :
    (({ stacking_order := [3, 4], movingClient := some 3,
        heap := fun _ => { desktop := 1 } } : Workspace).heap 3).kind = Kind.X11Client ∧
    3 ∈ ({ stacking_order := [3, 4], movingClient := some 3,
           heap := fun _ => { desktop := 1 } } : Workspace).stacking_order ∧
    isOnCurrentActivity { setDesktop := fun _ _ _ => 1 }
      (({ stacking_order := [3, 4], movingClient := some 3,
          heap := fun _ => { desktop := 1 } } : Workspace).heap 3) = true ∧
    (issued { stacking_order := [3, 4], movingClient := some 3,
              heap := fun _ => { desktop := 1 } }
        (updateClientVisibilityOnDesktopChange { setDesktop := fun _ _ _ => 1 }
          { stacking_order := [3, 4], movingClient := some 3,
            heap := fun _ => { desktop := 1 } } 2)).countP
      (Call.isUpdateVisibility 3) = 0 := by
  decide

/-! ### Sending a client and its transients to a desktop -/

/-- No client has been put on another desktop when nothing has been done. -/
theorem movedTo_refl (desk : Int) (ws : Workspace) : movedTo desk ws ws :=
  fun _ => Or.inl rfl

/-- Statements that write no client put no client on another desktop. -/
theorem movedTo_of_heap_eq (desk : Int) {ws ws1 : Workspace} (h : ws1.heap = ws.heap) :
    movedTo desk ws ws1 :=
  fun x => Or.inl (by rw [h])

/-- Clients put on the desktop `desk`, and then further clients. -/
theorem movedTo_trans (desk : Int) {ws ws1 ws2 : Workspace} (h1 : movedTo desk ws ws1)
    (h2 : movedTo desk ws1 ws2) : movedTo desk ws ws2 := by
  intro x
  rcases h2 x with h | h <;> rcases h1 x with h' | h'
  · exact Or.inl (by rw [h, h'])
  · exact Or.inr (by rw [h, h'])
  · exact Or.inr (by rw [h, h'])
  · exact Or.inr (by rw [h, h'])

/-- Putting clients on a desktop keeps the transients of every client. -/
theorem movedTo_transients (desk : Int) {ws ws1 : Workspace} (h : movedTo desk ws ws1)
    (x : Toplevel) : (ws1.heap x).transients = (ws.heap x).transients := by
  rcases h x with h | h <;> rw [h]
  rfl

/-- A client on the desktop `desk` stays there when clients are put on it. -/
theorem movedTo_desktop (desk : Int) {ws ws1 : Workspace} (h : movedTo desk ws ws1)
    (x : Toplevel) (hx : (ws.heap x).desktop = desk) : (ws1.heap x).desktop = desk := by
  rcases h x with h | h <;> rw [h]
  exact hx

/-- The choice between focusing, restacking and raising writes no client. -/
theorem restack_heap (env : Env) (ws : Workspace) (c : Toplevel) (w d : Bool) :
    (sendClientToDesktop.restack env ws c w d).heap = ws.heap := by
  unfold sendClientToDesktop.restack
  split_ifs <;> rfl

/-- The conversion to `int` of a `uint` that an `int` holds is the value itself. -/
theorem static_cast_int_of_lt (n : Nat) (h : n < 2 ^ 31) : static_cast_int n = (n : Int) := by
  unfold static_cast_int
  have h1 : n % 2 ^ 32 = n := Nat.mod_eq_of_lt (by omega)
  rw [h1, if_pos h]

/-- The conversion to `int` of a `uint` gives no more than the value. -/
theorem static_cast_int_le (n : Nat) : static_cast_int n ≤ (n : Int) := by
  unfold static_cast_int
  have h1 : n % 2 ^ 32 ≤ n := Nat.mod_le _ _
  split_ifs <;> omega

/-- With 2^31 desktops the conversion gives a negative number, and
`sendClientToDesktop` returns at its first test for the desktop 1. -/
theorem sendClientToDesktop_with_a_count_beyond_int :
    static_cast_int 2147483648 = -2147483648 ∧
    (sendClientToDesktop.self { vdsCount := 2147483648 } { heap := fun _ => {} } 1 1 false).2
      = none ∧
    sendClientToDesktop { vdsCount := 2147483648 } 1 { heap := fun _ => {} } 1 1 false
      = some (({ heap := fun _ => {} } : Workspace).call (Call.sendClientToDesktop 1 1 false)) := by
  refine ⟨by decide, by decide, ?_⟩
  rfl

/-- The statements of `sendClientToDesktop` before its loop, case by case. -/
theorem self_eq (env : Env) (ws : Workspace) (c : Toplevel) (desk : Int) (dont_activate : Bool) :
    sendClientToDesktop.self env ws c desk dont_activate =
      if (decide (desk < 1) && desk != NET.OnAllDesktops) ||
          decide (desk > static_cast_int env.vdsCount) then
        (ws.call (Call.sendClientToDesktop c desk dont_activate), none)
      else if ((setDesktop env (ws.call (Call.sendClientToDesktop c desk dont_activate)) c
          desk).heap c).desktop != desk then
        (setDesktop env (ws.call (Call.sendClientToDesktop c desk dont_activate)) c desk, none)
      else
        ((sendClientToDesktop.restack env
            (setDesktop env (ws.call (Call.sendClientToDesktop c desk dont_activate)) c desk) c
            ((ws.heap c).isOnDesktop desk || (ws.heap c).isOnAllDesktops) dont_activate).call
            (Call.checkWorkspacePosition c (ws.heap c).desktop),
          some ((setDesktop env (ws.call (Call.sendClientToDesktop c desk dont_activate)) c
            desk).heap c).desktop) := by
  rfl

/-- The call `setDesktop` writes the desktop of its client and nothing else. -/
theorem setDesktop_heap (env : Env) (ws : Workspace) (c : Toplevel) (desk : Int) (x : Toplevel) :
    (setDesktop env ws c desk).heap x =
      if x = c then
        { ws.heap c with desktop := env.setDesktop (ws.call (Call.setDesktop c desk)) c desk }
      else ws.heap x := by
  show Function.update ws.heap c _ x = _
  by_cases hxc : x = c
  · subst hxc
    simp
  · simp [Function.update, hxc]

/-- The statements of `sendClientToDesktop` before its loop keep the transients
of every client. -/
theorem self_transients (env : Env) (ws : Workspace) (c : Toplevel) (desk : Int)
    (dont_activate : Bool) (x : Toplevel) :
    ((sendClientToDesktop.self env ws c desk dont_activate).1.heap x).transients
      = (ws.heap x).transients := by
  rw [self_eq]
  split_ifs
  · rfl
  · show ((setDesktop env _ c desk).heap x).transients = _
    rw [setDesktop_heap]
    split_ifs with hxc
    · subst hxc
      rfl
    · rfl
  · show ((sendClientToDesktop.restack env _ c _ dont_activate).heap x).transients = _
    rw [restack_heap, setDesktop_heap]
    split_ifs with hxc
    · subst hxc
      rfl
    · rfl

/-- When the statements of `sendClientToDesktop` before its loop reach the loop,
the client is on the desktop asked for, which is the desktop the loop uses; no
other client has been written. -/
theorem self_some (env : Env) (ws : Workspace) (c : Toplevel) (desk d : Int)
    (dont_activate : Bool)
    (h : (sendClientToDesktop.self env ws c desk dont_activate).2 = some d) :
    d = desk ∧
    ((sendClientToDesktop.self env ws c desk dont_activate).1.heap c).desktop = desk ∧
    movedTo desk ws (sendClientToDesktop.self env ws c desk dont_activate).1 := by
  rw [self_eq] at h ⊢
  split_ifs at h ⊢ with h1 h2
  · have h2' : ((setDesktop env (ws.call (Call.sendClientToDesktop c desk dont_activate)) c
        desk).heap c).desktop = desk := by
      simpa using h2
    simp only [Option.some.injEq] at h
    refine ⟨by rw [← h, h2'], ?_, ?_⟩
    · show ((sendClientToDesktop.restack env _ c _ dont_activate).heap c).desktop = desk
      rw [restack_heap]
      exact h2'
    · intro x
      show (sendClientToDesktop.restack env _ c _ dont_activate).heap x = _ ∨
        (sendClientToDesktop.restack env _ c _ dont_activate).heap x = _
      rw [restack_heap]
      rw [setDesktop_heap] at h2' ⊢
      simp only [if_true] at h2'
      split_ifs with hxc
      · subst hxc
        right
        have : env.setDesktop ((ws.call (Call.sendClientToDesktop x desk dont_activate)).call
            (Call.setDesktop x desk)) x desk = desk := h2'
        rw [this]
        rfl
      · left
        rfl

/-- The statements of `sendClientToDesktop` before its loop reach the loop when
the desktop is valid and `setDesktop` takes effect. -/
theorem self_reaches_loop (env : Env) (ws : Workspace) (c : Toplevel) (desk : Int)
    (dont_activate : Bool)
    (hvalid : ¬(desk < 1 ∧ desk ≠ NET.OnAllDesktops) ∧ desk ≤ static_cast_int env.vdsCount)
    (heffect : ((setDesktop env (ws.call (Call.sendClientToDesktop c desk dont_activate)) c
      desk).heap c).desktop = desk) :
    (sendClientToDesktop.self env ws c desk dont_activate).2 = some desk := by
  rw [self_eq]
  have h1 : ((decide (desk < 1) && desk != NET.OnAllDesktops) ||
      decide (desk > static_cast_int env.vdsCount)) = false := by
    rcases hvalid with ⟨ha, hb⟩
    simp only [Bool.or_eq_false_iff, Bool.and_eq_false_iff, decide_eq_false_iff_not,
      bne_eq_false_iff_eq, not_lt, gt_iff_lt]
    refine ⟨?_, hb⟩
    by_cases hd : desk < 1
    · right
      by_contra hne
      exact ha ⟨hd, hne⟩
    · left
      exact not_lt.mp hd
  rw [h1]
  simp only [Bool.false_eq_true, if_false, heffect, bne_self_eq_false]

/-- One activation of `sendClientToDesktop`: the statements before the loop, the
loop over the transients in the order of `ensureStackingOrder`, and the call of
`updateClientArea`. -/
theorem sendClientToDesktop_succ (env : Env) (fuel : Nat) (ws : Workspace) (c : Toplevel)
    (desk : Int) (dont_activate : Bool) :
    sendClientToDesktop env (fuel + 1) ws c desk dont_activate =
      match (sendClientToDesktop.self env ws c desk dont_activate).2 with
      | none => some (sendClientToDesktop.self env ws c desk dont_activate).1
      | some d =>
        ((env.ensureStackingOrder (sendClientToDesktop.self env ws c desk dont_activate).1
            ((sendClientToDesktop.self env ws c desk dont_activate).1.heap c).transients).foldlM
          (fun w it => sendClientToDesktop env fuel w it d dont_activate)
          (sendClientToDesktop.self env ws c desk dont_activate).1).map
          (fun w => w.call Call.updateClientArea) := by
  rw [sendClientToDesktop]
  rcases sendClientToDesktop.self env ws c desk dont_activate with ⟨w, r⟩
  cases r with
  | none => rfl
  | some d =>
    dsimp only
    cases List.foldlM (fun w it => sendClientToDesktop env fuel w it d dont_activate) w
        (env.ensureStackingOrder w (w.heap c).transients) with
    | none => rfl
    | some w1 => rfl

/-- Whenever `sendClientToDesktop` returns, having been called with a valid
desktop and every `setDesktop` taking effect, the client and every window that
can be reached from it through the transients are on that desktop. -/
theorem sendClientToDesktop_reaches (env : Env) (desk : Int) (dont_activate : Bool)
    (tr : Toplevel → List Toplevel)
    (hvalid : ¬(desk < 1 ∧ desk ≠ NET.OnAllDesktops) ∧ desk ≤ static_cast_int env.vdsCount)
    (heffect : ∀ w x, env.setDesktop w x desk = desk)
    (hmem : ∀ w l x, x ∈ l → x ∈ env.ensureStackingOrder w l) :
    ∀ (fuel : Nat) (ws : Workspace) (c : Toplevel) (ws1 : Workspace),
      (∀ x, (ws.heap x).transients = tr x) →
      sendClientToDesktop env fuel ws c desk dont_activate = some ws1 →
      movedTo desk ws ws1 ∧ (ws1.heap c).desktop = desk ∧
        ∀ x, Relation.TransGen (fun p t => t ∈ tr p) c x → (ws1.heap x).desktop = desk := by
  intro fuel
  induction fuel with
  | zero =>
    intro ws c ws1 _ h
    simp [sendClientToDesktop] at h
  | succ fuel ih =>
    intro ws c ws1 htr h
    rw [sendClientToDesktop_succ] at h
    have hloop := self_reaches_loop env ws c desk dont_activate hvalid (by
      rw [setDesktop_heap]
      simp only [if_true]
      exact heffect _ _)
    obtain ⟨_, hc, hmoved⟩ := self_some env ws c desk desk dont_activate hloop
    rw [hloop] at h
    simp only [Option.map_eq_some'] at h
    obtain ⟨w2, hfold, hw2⟩ := h
    have htr1 : ∀ x, ((sendClientToDesktop.self env ws c desk dont_activate).1.heap x).transients
        = tr x := fun x => by rw [movedTo_transients desk hmoved x, htr x]
    -- the loop
    have hfoldl : ∀ (l : List Toplevel) (w1 w2 : Workspace),
        (∀ x, (w1.heap x).transients = tr x) →
        List.foldlM (fun w it => sendClientToDesktop env fuel w it desk dont_activate) w1 l
          = some w2 →
        movedTo desk w1 w2 ∧ ∀ t ∈ l, (w2.heap t).desktop = desk ∧
          ∀ x, Relation.TransGen (fun p t => t ∈ tr p) t x → (w2.heap x).desktop = desk := by
      intro l
      induction l with
      | nil =>
        intro w1 w2 _ h
        simp only [List.foldlM_nil, Option.pure_def, Option.some.injEq] at h
        subst h
        exact ⟨movedTo_refl desk w1, fun t ht => by simp at ht⟩
      | cons t l ihl =>
        intro w1 w2 hw1 h
        simp only [List.foldlM_cons, Option.bind_eq_bind, Option.bind_eq_some] at h
        obtain ⟨wm, hwm, hrest⟩ := h
        obtain ⟨hm1, hd1, hr1⟩ := ih w1 t wm hw1 hwm
        have hwmtr : ∀ x, (wm.heap x).transients = tr x :=
          fun x => by rw [movedTo_transients desk hm1 x, hw1 x]
        obtain ⟨hm2, hall⟩ := ihl wm w2 hwmtr hrest
        refine ⟨movedTo_trans desk hm1 hm2, ?_⟩
        intro t1 ht1
        rcases List.mem_cons.mp ht1 with rfl | ht1
        · exact ⟨movedTo_desktop desk hm2 _ hd1,
            fun x hx => movedTo_desktop desk hm2 _ (hr1 x hx)⟩
        · exact hall t1 ht1
    obtain ⟨hm2, hall⟩ := hfoldl _ _ _ htr1 hfold
    have hheap : ws1.heap = w2.heap := by rw [← hw2]; rfl
    have hm3 : movedTo desk w2 ws1 := movedTo_of_heap_eq desk hheap
    refine ⟨movedTo_trans desk hmoved (movedTo_trans desk hm2 hm3), ?_, ?_⟩
    · rw [hheap]
      exact movedTo_desktop desk hm2 _ hc
    · intro x hx
      rw [hheap]
      obtain ⟨t, hct, htx⟩ := Relation.TransGen.head'_iff.mp hx
      have ht : t ∈ env.ensureStackingOrder (sendClientToDesktop.self env ws c desk
          dont_activate).1
          ((sendClientToDesktop.self env ws c desk dont_activate).1.heap c).transients := by
        apply hmem
        rw [htr1 c]
        exact hct
      obtain ⟨hd, hr⟩ := hall t ht
      rcases Relation.reflTransGen_iff_eq_or_transGen.mp htx with h | h
      · rw [h]
        exact hd
      · exact hr x h

/-- When no window can be reached from itself through the transients, which a
rank that falls from a window to its transients says, `sendClientToDesktop`
returns: the depth of its recursion is at most the rank of the client. -/
theorem sendClientToDesktop_returns (env : Env) (dont_activate : Bool)
    (tr : Toplevel → List Toplevel) (rank : Toplevel → Nat)
    (hrank : ∀ p t, t ∈ tr p → rank t < rank p)
    (hsub : ∀ w l x, x ∈ env.ensureStackingOrder w l → x ∈ l) :
    ∀ (fuel : Nat) (ws : Workspace) (c : Toplevel) (d : Int),
      (∀ x, (ws.heap x).transients = tr x) → rank c < fuel →
      ∃ ws1, sendClientToDesktop env fuel ws c d dont_activate = some ws1 ∧
        ∀ x, (ws1.heap x).transients = tr x := by
  intro fuel
  induction fuel with
  | zero =>
    intro ws c d _ h
    exact absurd h (Nat.not_lt_zero _)
  | succ fuel ih =>
    intro ws c d htr hlt
    rw [sendClientToDesktop_succ]
    have htr1 : ∀ x, ((sendClientToDesktop.self env ws c d dont_activate).1.heap x).transients
        = tr x := fun x => by rw [self_transients, htr x]
    cases hr : (sendClientToDesktop.self env ws c d dont_activate).2 with
    | none => exact ⟨_, rfl, htr1⟩
    | some d1 =>
      dsimp only
      have hfoldl : ∀ (l : List Toplevel) (w1 : Workspace),
          (∀ x, (w1.heap x).transients = tr x) → (∀ t ∈ l, rank t < fuel) →
          ∃ w2, List.foldlM (fun w it => sendClientToDesktop env fuel w it d1 dont_activate)
            w1 l = some w2 ∧ ∀ x, (w2.heap x).transients = tr x := by
        intro l
        induction l with
        | nil =>
          intro w1 hw1 _
          exact ⟨w1, rfl, hw1⟩
        | cons t l ihl =>
          intro w1 hw1 hl
          obtain ⟨wm, hwm, hwmtr⟩ := ih w1 t d1 hw1 (hl t (List.mem_cons_self _ _))
          obtain ⟨w2, hw2, hw2tr⟩ := ihl wm hwmtr
            (fun t1 ht1 => hl t1 (List.mem_cons_of_mem _ ht1))
          refine ⟨w2, ?_, hw2tr⟩
          simp only [List.foldlM_cons, Option.bind_eq_bind, hwm, Option.some_bind]
          exact hw2
      have hl : ∀ t ∈ env.ensureStackingOrder
          (sendClientToDesktop.self env ws c d dont_activate).1
          ((sendClientToDesktop.self env ws c d dont_activate).1.heap c).transients,
          rank t < fuel := by
        intro t ht
        have ht1 := hsub _ _ _ ht
        rw [htr1 c] at ht1
        have := hrank c t ht1
        omega
      obtain ⟨w2, hw2, hw2tr⟩ := hfoldl _ _ htr1 hl
      exact ⟨w2.call Call.updateClientArea, by rw [hw2]; rfl, hw2tr⟩

/-- The statements of `sendClientToDesktop` before its loop record the
invocation first. -/
theorem self_calls (env : Env) (ws : Workspace) (c : Toplevel) (desk : Int)
    (dont_activate : Bool) :
    ∃ extra, (sendClientToDesktop.self env ws c desk dont_activate).1.calls
      = ws.calls ++ Call.sendClientToDesktop c desk dont_activate :: extra := by
  rw [self_eq]
  split_ifs
  · exact ⟨[], rfl⟩
  · exact ⟨[Call.setDesktop c desk], by simp [setDesktop, Workspace.call]⟩
  · unfold sendClientToDesktop.restack
    split_ifs
    · exact ⟨[Call.setDesktop c desk, Call.requestFocus (some c),
        Call.checkWorkspacePosition c (ws.heap c).desktop], by simp [setDesktop, Workspace.call]⟩
    · exact ⟨[Call.setDesktop c desk, Call.restackClientUnderActive c,
        Call.checkWorkspacePosition c (ws.heap c).desktop], by simp [setDesktop, Workspace.call]⟩
    · exact ⟨[Call.setDesktop c desk, Call.raiseClient c,
        Call.checkWorkspacePosition c (ws.heap c).desktop], by simp [setDesktop, Workspace.call]⟩

/-- Whenever `sendClientToDesktop` returns, the calls it has issued begin with
its own invocation. -/
theorem sendClientToDesktop_calls (env : Env) (dont_activate : Bool) :
    ∀ (fuel : Nat) (ws : Workspace) (c : Toplevel) (desk : Int) (ws1 : Workspace),
      sendClientToDesktop env fuel ws c desk dont_activate = some ws1 →
      ∃ extra, ws1.calls = ws.calls ++ Call.sendClientToDesktop c desk dont_activate :: extra := by
  intro fuel
  induction fuel with
  | zero =>
    intro ws c desk ws1 h
    simp [sendClientToDesktop] at h
  | succ fuel ih =>
    intro ws c desk ws1 h
    rw [sendClientToDesktop_succ] at h
    obtain ⟨pre, hpre⟩ := self_calls env ws c desk dont_activate
    cases hr : (sendClientToDesktop.self env ws c desk dont_activate).2 with
    | none =>
      rw [hr] at h
      simp only [Option.some.injEq] at h
      rw [← h]
      exact ⟨pre, hpre⟩
    | some d =>
      rw [hr] at h
      simp only [Option.map_eq_some'] at h
      obtain ⟨w2, hfold, hw2⟩ := h
      have hfoldl : ∀ (l : List Toplevel) (w1 w2 : Workspace),
          List.foldlM (fun w it => sendClientToDesktop env fuel w it d dont_activate) w1 l
            = some w2 → ∃ e, w2.calls = w1.calls ++ e := by
        intro l
        induction l with
        | nil =>
          intro w1 w2 h
          simp only [List.foldlM_nil, Option.pure_def, Option.some.injEq] at h
          exact ⟨[], by rw [h]; simp⟩
        | cons t l ihl =>
          intro w1 w2 h
          simp only [List.foldlM_cons, Option.bind_eq_bind, Option.bind_eq_some] at h
          obtain ⟨wm, hwm, hrest⟩ := h
          obtain ⟨e1, he1⟩ := ih w1 t d wm hwm
          obtain ⟨e2, he2⟩ := ihl wm w2 hrest
          exact ⟨Call.sendClientToDesktop t d dont_activate :: e1 ++ e2, by
            rw [he2, he1]; simp⟩
      obtain ⟨e, he⟩ := hfoldl _ _ _ hfold
      refine ⟨pre ++ e ++ [Call.updateClientArea], ?_⟩
      rw [← hw2]
      show w2.calls ++ [Call.updateClientArea] = _
      rw [he, hpre]
      simp

/-- Whenever the loop of `sendClientToDesktop` returns, it has invoked
`sendClientToDesktop` on every window of its list. -/
theorem sendClientToDesktop_loop_calls (env : Env) (fuel : Nat) (desk : Int)
    (dont_activate : Bool) :
    ∀ (l : List Toplevel) (w1 w2 : Workspace),
      List.foldlM (fun w it => sendClientToDesktop env fuel w it desk dont_activate) w1 l
        = some w2 →
      ∃ e, w2.calls = w1.calls ++ e ∧
        ∀ t ∈ l, Call.sendClientToDesktop t desk dont_activate ∈ e := by
  intro l
  induction l with
  | nil =>
    intro w1 w2 h
    simp only [List.foldlM_nil, Option.pure_def, Option.some.injEq] at h
    exact ⟨[], by rw [h]; simp, fun t ht => by simp at ht⟩
  | cons t l ihl =>
    intro w1 w2 h
    simp only [List.foldlM_cons, Option.bind_eq_bind, Option.bind_eq_some] at h
    obtain ⟨wm, hwm, hrest⟩ := h
    obtain ⟨e1, he1⟩ := sendClientToDesktop_calls env dont_activate fuel w1 t desk wm hwm
    obtain ⟨e2, he2, hall⟩ := ihl wm w2 hrest
    refine ⟨Call.sendClientToDesktop t desk dont_activate :: e1 ++ e2, by
      rw [he2, he1]; simp, ?_⟩
    intro t1 ht1
    rcases List.mem_cons.mp ht1 with rfl | ht1
    · simp
    · have := hall t1 ht1
      simp [this]

/-- C11: `sendClientToDesktop` takes care of the transients. Let `desk` be
valid, which is the test of workspace.cpp:1169 with its `static_cast<int>` of the
number of desktops, let `c->setDesktop(desk)` take effect, and let
`ensureStackingOrder` reorder the list it is given. Then the call goes on, after its own statements,
to invoke `sendClientToDesktop` with the same `desk` and `dont_activate` on the
clients of `ensureStackingOrder(c->transients())` in that order, which are the
clients of `c->transients()`, each as often as it is listed there, and then
calls `updateClientArea`; whenever it returns, the calls it has issued hold the
invocation of `sendClientToDesktop` on every client of `c->transients()`.
Whenever it returns, every `setDesktop` having taken effect, `c` and every
direct and indirect transient of `c` are on `desk`. It
returns, with a recursion no deeper than the rank of `c`, when a rank falls from
every window to its transients, that is when no window is reached from itself
through the transients. -/
theorem sendClientToDesktop_takes_care_of_transients (env : Env) (ws : Workspace)
    (c : Toplevel) (desk : Int) (dont_activate : Bool)
    (hvalid : ¬(desk < 1 ∧ desk ≠ NET.OnAllDesktops) ∧ desk ≤ static_cast_int env.vdsCount)
    (heffect : ((setDesktop env (ws.call (Call.sendClientToDesktop c desk dont_activate)) c
      desk).heap c).desktop = desk)
    (hperm : ∀ w l, (env.ensureStackingOrder w l).Perm l) :
    (∀ fuel, sendClientToDesktop env (fuel + 1) ws c desk dont_activate =
      ((env.ensureStackingOrder (sendClientToDesktop.self env ws c desk dont_activate).1
          (ws.heap c).transients).foldlM
        (fun w it => sendClientToDesktop env fuel w it desk dont_activate)
        (sendClientToDesktop.self env ws c desk dont_activate).1).map
        (fun w => w.call Call.updateClientArea)) ∧
    (env.ensureStackingOrder (sendClientToDesktop.self env ws c desk dont_activate).1
      (ws.heap c).transients).Perm (ws.heap c).transients ∧
    (∀ fuel ws1, sendClientToDesktop env fuel ws c desk dont_activate = some ws1 →
      ∀ t ∈ (ws.heap c).transients,
        Call.sendClientToDesktop t desk dont_activate ∈ issued ws ws1) ∧
    ((∀ w x, env.setDesktop w x desk = desk) →
      ∀ fuel ws1, sendClientToDesktop env fuel ws c desk dont_activate = some ws1 →
        (ws1.heap c).desktop = desk ∧
        ∀ t, Relation.TransGen (fun p t => t ∈ (ws.heap p).transients) c t →
          (ws1.heap t).desktop = desk) ∧
    (∀ rank : Toplevel → Nat, (∀ p t, t ∈ (ws.heap p).transients → rank t < rank p) →
      ∀ fuel, rank c < fuel →
        (sendClientToDesktop env fuel ws c desk dont_activate).isSome = true) := by
  refine ⟨?_, hperm _ _, ?_, ?_, ?_⟩
  · intro fuel
    rw [sendClientToDesktop_succ, self_reaches_loop env ws c desk dont_activate hvalid heffect,
      self_transients]
  · intro fuel ws1 h t ht
    cases fuel with
    | zero => simp [sendClientToDesktop] at h
    | succ fuel =>
      rw [sendClientToDesktop_succ,
        self_reaches_loop env ws c desk dont_activate hvalid heffect, self_transients] at h
      simp only [Option.map_eq_some'] at h
      obtain ⟨w2, hfold, hw2⟩ := h
      obtain ⟨pre, hpre⟩ := self_calls env ws c desk dont_activate
      obtain ⟨e, he, hall⟩ := sendClientToDesktop_loop_calls env fuel desk dont_activate _ _ _
        hfold
      have hcalls : ws1.calls = ws.calls ++
          (Call.sendClientToDesktop c desk dont_activate :: pre ++ e ++
            [Call.updateClientArea]) := by
        rw [← hw2]
        show w2.calls ++ [Call.updateClientArea] = _
        rw [he, hpre]
        simp
      rw [issued_of_calls_eq hcalls]
      have := hall t ((hperm _ _).mem_iff.mpr ht)
      simp [this]
  · intro hall fuel ws1 h
    exact (sendClientToDesktop_reaches env desk dont_activate
      (fun x => (ws.heap x).transients) hvalid hall (fun w l x hx => (hperm w l).mem_iff.mpr hx)
      fuel ws c ws1 (fun _ => rfl) h).2
  · intro rank hrank fuel hlt
    obtain ⟨ws1, h, _⟩ := sendClientToDesktop_returns env dont_activate
      (fun x => (ws.heap x).transients) rank hrank (fun w l x hx => (hperm w l).mem_iff.mp hx)
      fuel ws c desk (fun _ => rfl) hlt
    rw [h]
    rfl

/-- Witness for C11: the window 2 is the transient of the client 1 and the window
3 the transient of 2, all on desktop 1 of 2; sending the client 1 to desktop 2
returns and leaves the windows 2 and 3 on desktop 2. -/
theorem sendClientToDesktop_takes_care_of_transients_witness :
    ∃ ws1,
      sendClientToDesktop { vdsCount := 2 } 3
        { heap := fun x => { transients_list := if x = 1 then [2] else if x = 2 then [3] else [] } }
        1 2 false = some ws1 ∧
      (ws1.heap 2).desktop = 2 ∧ (ws1.heap 3).desktop = 2 := by
  have h := sendClientToDesktop_takes_care_of_transients { vdsCount := 2 }
    { heap := fun x => { transients_list := if x = 1 then [2] else if x = 2 then [3] else [] } }
    1 2 false (by decide) (by decide) (fun _ l => List.Perm.refl l)
  have hrank : ∀ p t : Toplevel,
      t ∈ (({ heap := fun x =>
        { transients_list := if x = 1 then [2] else if x = 2 then [3] else [] } } :
          Workspace).heap p).transients → 3 - t < 3 - p := by
    intro p t ht
    by_cases h1 : p = 1
    · subst h1
      have : t = 2 := by simpa [Client.transients] using ht
      subst this
      decide
    · by_cases h2 : p = 2
      · subst h2
        have : t = 3 := by simpa [Client.transients] using ht
        subst this
        decide
      · simp [Client.transients, h1, h2] at ht
  obtain ⟨ws1, h1⟩ := Option.isSome_iff_exists.mp
    (h.2.2.2.2 (fun x => 3 - x) hrank 3 (by decide))
  have h2 := (h.2.2.2.1 (fun _ _ => rfl) 3 ws1 h1).2
  refine ⟨ws1, h1, h2 2 ?_, h2 3 ?_⟩
  · exact Relation.TransGen.single (by simp [Client.transients])
  · have h12 : Relation.TransGen (fun p t => t ∈ (({ heap := fun x =>
        { transients_list := if x = 1 then [2] else if x = 2 then [3] else [] } } :
          Workspace).heap p).transients) 1 2 :=
      Relation.TransGen.single (by simp [Client.transients])
    exact Relation.TransGen.tail h12 (by simp [Client.transients])

/-! ### Blocking geometry updates -/

/-- The steps of a first part, then those of a second part. -/
theorem runAll_append (c : Client) (xs ys : List GeometryStep) :
    GeometryStep.runAll c (xs ++ ys) =
      ((GeometryStep.runAll (GeometryStep.runAll c xs).1 ys).1,
        (GeometryStep.runAll c xs).2 ++ (GeometryStep.runAll (GeometryStep.runAll c xs).1 ys).2) := by
  induction xs generalizing c with
  | nil => simp [GeometryStep.runAll]
  | cons x xs ih =>
    rw [List.cons_append]
    simp only [GeometryStep.runAll]
    rw [ih]
    simp

/-- A first part of properly nested steps leaves no scope that is not open. -/
theorem nesting_of_append (xs ys : List GeometryStep) (n m : Nat)
    (h : GeometryStep.nesting n (xs ++ ys) = some m) :
    ∃ k, GeometryStep.nesting n xs = some k := by
  induction xs generalizing n with
  | nil => exact ⟨n, rfl⟩
  | cons x xs ih =>
    cases x with
    | enter => exact ih (n + 1) h
    | leave =>
      cases n with
      | zero => simp [GeometryStep.nesting] at h
      | succ n => exact ih n h
    | setGeometry r f => exact ih n h

/-- While a scope is open, steps that leave it open issue no geometry commit;
they keep count of the scopes, remember the last rectangle set and mark the
flag when they set one. -/
theorem runAll_while_blocked (steps : List GeometryStep) (n m : Nat) (c : Client)
    (h : GeometryStep.nesting n steps = some m)
    (hc : c.block_geometry_updates = (n : Int) + 1) :
    (GeometryStep.runAll c steps).2 = [] ∧
    (GeometryStep.runAll c steps).1.block_geometry_updates = (m : Int) + 1 ∧
    (GeometryStep.runAll c steps).1.frameGeometry
      = (GeometryStep.lastGeometry steps).getD c.frameGeometry ∧
    ((GeometryStep.lastGeometry steps).isSome = true ∨
        c.pending_geometry_update ≠ PendingGeometry_t.PendingGeometryNone →
      (GeometryStep.runAll c steps).1.pending_geometry_update
        ≠ PendingGeometry_t.PendingGeometryNone) := by
  induction steps generalizing n c with
  | nil =>
    simp only [GeometryStep.nesting, Option.some.injEq] at h
    subst h
    refine ⟨rfl, hc, rfl, ?_⟩
    rintro (h | h)
    · simp [GeometryStep.lastGeometry] at h
    · exact h
  | cons s steps ih =>
    cases s with
    | enter =>
      have hc1 : (GeometryStep.run c GeometryStep.enter).1.block_geometry_updates
          = ((n + 1 : Nat) : Int) + 1 := by
        simp only [GeometryStep.run, Client.blockGeometryUpdates, if_true]
        split_ifs <;> simp [hc]
      have hg : (GeometryStep.run c GeometryStep.enter).1.frameGeometry = c.frameGeometry := by
        simp only [GeometryStep.run, Client.blockGeometryUpdates, if_true]
        split_ifs <;> rfl
      have hp : (GeometryStep.run c GeometryStep.enter).1.pending_geometry_update
          = c.pending_geometry_update := by
        simp only [GeometryStep.run, Client.blockGeometryUpdates, if_true]
        split_ifs <;> rfl
      have ho : (GeometryStep.run c GeometryStep.enter).2 = [] := by
        simp [GeometryStep.run, Client.blockGeometryUpdates]
      obtain ⟨h1, h2, h3, h4⟩ := ih (n + 1) _ h hc1
      simp only [GeometryStep.runAll, ho, List.nil_append, GeometryStep.lastGeometry]
      rw [hg, hp] at *
      exact ⟨h1, h2, h3, h4⟩
    | leave =>
      cases n with
      | zero => simp [GeometryStep.nesting] at h
      | succ k =>
        have hne : ¬(c.block_geometry_updates - 1 = 0) := by
          rw [hc]
          push_cast
          omega
        have hrun : GeometryStep.run c GeometryStep.leave =
            ({ c with block_geometry_updates := c.block_geometry_updates - 1 }, []) := by
          simp [GeometryStep.run, Client.blockGeometryUpdates, hne]
        have hc1 : (GeometryStep.run c GeometryStep.leave).1.block_geometry_updates
            = (k : Int) + 1 := by
          rw [hrun]
          show c.block_geometry_updates - 1 = _
          rw [hc]
          push_cast
          omega
        obtain ⟨h1, h2, h3, h4⟩ := ih k _ h hc1
        simp only [GeometryStep.runAll, GeometryStep.lastGeometry]
        rw [hrun] at h1 h2 h3 h4 ⊢
        exact ⟨by simpa using h1, h2, h3, h4⟩
    | setGeometry r f =>
      have hpos : c.block_geometry_updates > 0 := by
        rw [hc]
        omega
      have hrun : GeometryStep.run c (GeometryStep.setGeometry r f) =
          ({ c with
             frameGeometry := r
             pending_geometry_update :=
               if c.pending_geometry_update == PendingGeometry_t.PendingGeometryForced ||
                   f == ForceGeometry_t.ForceGeometrySet then
                 PendingGeometry_t.PendingGeometryForced
               else PendingGeometry_t.PendingGeometryNormal }, []) := by
        simp [GeometryStep.run, Client.setGeometry, hpos]
      obtain ⟨h1, h2, h3, h4⟩ := ih n
        (GeometryStep.run c (GeometryStep.setGeometry r f)).1 h (by rw [hrun]; exact hc)
      simp only [GeometryStep.runAll, GeometryStep.lastGeometry]
      rw [hrun] at h1 h2 h3 h4 ⊢
      refine ⟨by simpa using h1, h2, ?_, ?_⟩
      · rw [h3]
        cases GeometryStep.lastGeometry steps <;> rfl
      · intro _
        apply h4
        right
        dsimp only
        split_ifs <;> simp

/-- C16: let a `GeometryUpdatesBlocker` scope be opened on a client on which no
scope is open, and let the steps inside it be properly nested scopes and calls
of `setGeometry`, the last of these with the rectangle `r`. Then no geometry
commit is issued while the scope is open, the nesting count being positive all
the while; leaving the scope issues exactly one geometry commit, which carries
`r`, and brings `block_geometry_updates` back to its value before the scope. -/
theorem geometry_blocker_commits_once (c : Client) (body : List GeometryStep) (r : QRect)
    (h0 : c.block_geometry_updates = 0)
    (hnested : GeometryStep.nesting 0 body = some 0)
    (hlast : GeometryStep.lastGeometry body = some r) :
    (∀ pre, pre <+: body →
      (GeometryStep.runAll c (GeometryStep.enter :: pre)).2 = [] ∧
      (GeometryStep.runAll c (GeometryStep.enter :: pre)).1.block_geometry_updates > 0) ∧
    (GeometryStep.runAll c (GeometryStep.enter :: body)).2 = [] ∧
    (GeometryStep.runAll c (GeometryStep.enter :: (body ++ [GeometryStep.leave]))).2 = [r] ∧
    (GeometryStep.runAll c
      (GeometryStep.enter :: (body ++ [GeometryStep.leave]))).1.block_geometry_updates
      = c.block_geometry_updates ∧
    (GeometryStep.runAll c
      (GeometryStep.enter :: (body ++ [GeometryStep.leave]))).1.frameGeometry = r := by
  have hc1 : (GeometryStep.run c GeometryStep.enter).1.block_geometry_updates
      = ((0 : Nat) : Int) + 1 := by
    simp [GeometryStep.run, Client.blockGeometryUpdates, h0]
  have ho : (GeometryStep.run c GeometryStep.enter).2 = [] := by
    simp [GeometryStep.run, Client.blockGeometryUpdates]
  have hpre : ∀ pre, pre <+: body →
      (GeometryStep.runAll c (GeometryStep.enter :: pre)).2 = [] ∧
      (GeometryStep.runAll c (GeometryStep.enter :: pre)).1.block_geometry_updates > 0 := by
    rintro pre ⟨suf, rfl⟩
    obtain ⟨k, hk⟩ := nesting_of_append pre suf 0 0 hnested
    obtain ⟨h1, h2, _, _⟩ := runAll_while_blocked pre 0 k _ hk hc1
    simp only [GeometryStep.runAll, ho, List.nil_append]
    refine ⟨h1, ?_⟩
    rw [h2]
    omega
  obtain ⟨h1, h2, h3, h4⟩ := runAll_while_blocked body 0 0 _ hnested hc1
  have h4' := h4 (Or.inl (by rw [hlast]; rfl))
  rw [hlast] at h3
  have h3' : (GeometryStep.runAll (GeometryStep.run c GeometryStep.enter).1 body).1.frameGeometry
      = r := h3
  refine ⟨hpre, (hpre body ⟨[], List.append_nil body⟩).1, ?_, ?_, ?_⟩ <;>
    simp only [GeometryStep.runAll, runAll_append, ho, h1, List.nil_append] <;>
    generalize (GeometryStep.runAll (GeometryStep.run c GeometryStep.enter).1 body).1 = c2
      at h2 h3' h4' <;>
    simp [GeometryStep.run, Client.blockGeometryUpdates, h2, h4', h3', h0]

/-- Witness for C16: two nested scopes in which `setGeometry` is called three
times; the one geometry commit carries the third rectangle. -/
theorem geometry_blocker_commits_once_witness :
    (GeometryStep.runAll {}
      (GeometryStep.enter ::
        ([GeometryStep.setGeometry ⟨0, 0, 1, 1⟩ ForceGeometry_t.NormalGeometrySet,
          GeometryStep.enter,
          GeometryStep.setGeometry ⟨0, 0, 2, 2⟩ ForceGeometry_t.ForceGeometrySet,
          GeometryStep.leave,
          GeometryStep.setGeometry ⟨0, 0, 3, 3⟩ ForceGeometry_t.NormalGeometrySet] ++
        [GeometryStep.leave]))).2 = [⟨0, 0, 3, 3⟩] :=
  (geometry_blocker_commits_once {}
    [GeometryStep.setGeometry ⟨0, 0, 1, 1⟩ ForceGeometry_t.NormalGeometrySet,
      GeometryStep.enter,
      GeometryStep.setGeometry ⟨0, 0, 2, 2⟩ ForceGeometry_t.ForceGeometrySet,
      GeometryStep.leave,
      GeometryStep.setGeometry ⟨0, 0, 3, 3⟩ ForceGeometry_t.NormalGeometrySet]
    ⟨0, 0, 3, 3⟩ (by decide) (by decide) (by decide)).2.2.1

/-! ### The main clients of a window, direct and indirect -/

/-- Finding a window does not raise the number of steps still to take for the
windows not found yet. -/
theorem steps_found_le (env : Env) (ws : Workspace) (windows set : List Toplevel)
    (x : Toplevel) :
    allMainClients.steps env ws windows [] (QList.append set x)
      ≤ allMainClients.steps env ws windows [] set := by
  induction windows with
  | nil => simp [allMainClients.steps]
  | cons y windows ih =>
    simp only [allMainClients.steps, List.length_nil, Nat.zero_add] at ih ⊢
    by_cases hy : y ∈ set
    · have h1 : y ∈ QList.append set x := by simp [QList.append, hy]
      simpa [List.filter_cons, QList.contains, hy, h1] using ih
    · by_cases hyx : y = x
      · have h1 : y ∈ QList.append set x := by simp [QList.append, hyx]
        simp only [List.filter_cons, QList.contains, hy, h1, decide_True, Bool.not_true,
          Bool.false_eq_true, if_false, decide_False, Bool.not_false, if_true, List.map_cons,
          List.sum_cons]
        have := ih
        simp only [QList.contains] at this
        omega
      · have h1 : y ∉ QList.append set x := by simp [QList.append, hy, hyx]
        simp only [List.filter_cons, QList.contains, hy, h1, decide_False, Bool.not_false,
          if_true, List.map_cons, List.sum_cons]
        have := ih
        simp only [QList.contains] at this
        omega

/-- Finding a window of `windows` that was not found before lowers the number of
steps still to take by one more than the window has main clients. -/
theorem steps_found_lt (env : Env) (ws : Workspace) (windows set : List Toplevel)
    (x : Toplevel) (hx : x ∈ windows) (hset : x ∉ set) :
    allMainClients.steps env ws windows [] (QList.append set x) + 1 +
        (mainClients env ws x).length
      ≤ allMainClients.steps env ws windows [] set := by
  induction windows with
  | nil => simp at hx
  | cons y windows ih =>
    by_cases hyx : y = x
    · subst hyx
      have h1 : y ∈ QList.append set y := by simp [QList.append]
      have h2 := steps_found_le env ws windows set y
      simp only [allMainClients.steps, List.length_nil, Nat.zero_add] at h2 ⊢
      simp only [List.filter_cons, QList.contains, hset, h1, decide_True, Bool.not_true,
        Bool.false_eq_true, if_false, decide_False, Bool.not_false, if_true, List.map_cons,
        List.sum_cons]
      simp only [QList.contains] at h2
      omega
    · have hx1 : x ∈ windows := by
        rcases List.mem_cons.mp hx with h | h
        · exact absurd h.symm hyx
        · exact h
      have h2 := ih hx1
      simp only [allMainClients.steps, List.length_nil, Nat.zero_add] at h2 ⊢
      simp only [QList.contains] at h2
      by_cases hy : y ∈ set
      · have h1 : y ∈ QList.append set x := by simp [QList.append, hy]
        simpa [List.filter_cons, QList.contains, hy, h1] using h2
      · have h1 : y ∉ QList.append set x := by simp [QList.append, hy, hyx]
        simp only [List.filter_cons, QList.contains, hy, h1, decide_False, Bool.not_false,
          if_true, List.map_cons, List.sum_cons]
        omega

/-- The walk of `allMainClients` returns when it is given as many steps as it
has to take at most, and the windows it returns are found once each. -/
theorem visit_returns (env : Env) (ws : Workspace) (windows : List Toplevel)
    (hwindows : ∀ x, ∀ m ∈ mainClients env ws x, m ∈ windows) :
    ∀ (fuel : Nat) (todo set : List Toplevel),
      (∀ x ∈ todo, x ∈ windows) → set.Nodup →
      allMainClients.steps env ws windows todo set ≤ fuel →
      ∃ r, allMainClients.visit env ws fuel todo set = some r ∧ r.Nodup := by
  intro fuel
  induction fuel with
  | zero =>
    intro todo set _ hnodup hle
    cases todo with
    | nil => exact ⟨set, rfl, hnodup⟩
    | cons x todo => simp [allMainClients.steps] at hle
  | succ fuel ih =>
    intro todo set htodo hnodup hle
    cases todo with
    | nil => exact ⟨set, rfl, hnodup⟩
    | cons x todo =>
      have hsplit : ∀ (t s : List Toplevel), allMainClients.steps env ws windows t s =
          t.length + allMainClients.steps env ws windows [] s := by
        intro t s
        simp [allMainClients.steps]
      rw [hsplit] at hle
      simp only [List.length_cons] at hle
      by_cases hx : x ∈ set
      · have : allMainClients.visit env ws (fuel + 1) (x :: todo) set
            = allMainClients.visit env ws fuel todo set := by
          simp [allMainClients.visit, QList.contains, hx]
        rw [this]
        apply ih todo set (fun y hy => htodo y (List.mem_cons_of_mem _ hy)) hnodup
        rw [hsplit]
        omega
      · have : allMainClients.visit env ws (fuel + 1) (x :: todo) set
            = allMainClients.visit env ws fuel (mainClients env ws x ++ todo)
                (QList.append set x) := by
          simp [allMainClients.visit, QList.contains, hx]
        rw [this]
        apply ih
        · intro y hy
          rcases List.mem_append.mp hy with h | h
          · exact hwindows x y h
          · exact htodo y (List.mem_cons_of_mem _ h)
        · unfold QList.append
          rw [List.nodup_append]
          refine ⟨hnodup, List.nodup_singleton x, ?_⟩
          intro a ha hb
          simp only [List.mem_singleton] at hb
          subst hb
          exact hx ha
        · rw [hsplit]
          have := steps_found_lt env ws windows set x (htodo x (List.mem_cons_self _ _)) hx
          simp only [List.length_append]
          omega

/-- What the walk of `allMainClients` returns: the windows found before, the
windows still to visit, and windows reached from these through the main
clients, and no other; and when the main clients of the windows found before
are found or still to visit, the main clients of the windows it returns are
among them. -/
theorem visit_closure (env : Env) (ws : Workspace) :
    ∀ (fuel : Nat) (todo set r : List Toplevel),
      allMainClients.visit env ws fuel todo set = some r →
      (∀ y ∈ set, y ∈ r) ∧ (∀ y ∈ todo, y ∈ r) ∧
      (∀ y ∈ r, y ∈ set ∨
        ∃ t ∈ todo, Relation.ReflTransGen (fun a b => b ∈ mainClients env ws a) t y) ∧
      ((∀ y ∈ set, ∀ m ∈ mainClients env ws y, m ∈ set ∨ m ∈ todo) →
        ∀ y ∈ r, ∀ m ∈ mainClients env ws y, m ∈ r) := by
  intro fuel
  induction fuel with
  | zero =>
    intro todo set r h
    cases todo with
    | nil =>
      simp only [allMainClients.visit, Option.some.injEq] at h
      subst h
      refine ⟨fun y hy => hy, fun y hy => by simp at hy, fun y hy => Or.inl hy, ?_⟩
      intro hinv y hy m hm
      rcases hinv y hy m hm with h | h
      · exact h
      · simp at h
    | cons x todo => simp [allMainClients.visit] at h
  | succ fuel ih =>
    intro todo set r h
    cases todo with
    | nil =>
      simp only [allMainClients.visit, Option.some.injEq] at h
      subst h
      refine ⟨fun y hy => hy, fun y hy => by simp at hy, fun y hy => Or.inl hy, ?_⟩
      intro hinv y hy m hm
      rcases hinv y hy m hm with h | h
      · exact h
      · simp at h
    | cons x todo =>
      by_cases hx : x ∈ set
      · have hv : allMainClients.visit env ws (fuel + 1) (x :: todo) set
            = allMainClients.visit env ws fuel todo set := by
          simp [allMainClients.visit, QList.contains, hx]
        rw [hv] at h
        obtain ⟨h1, h2, h3, h4⟩ := ih todo set r h
        refine ⟨h1, ?_, ?_, ?_⟩
        · intro y hy
          rcases List.mem_cons.mp hy with rfl | hy
          · exact h1 y hx
          · exact h2 y hy
        · intro y hy
          rcases h3 y hy with h | ⟨t, ht, hr⟩
          · exact Or.inl h
          · exact Or.inr ⟨t, List.mem_cons_of_mem _ ht, hr⟩
        · intro hinv
          apply h4
          intro y hy m hm
          rcases hinv y hy m hm with h | h
          · exact Or.inl h
          · rcases List.mem_cons.mp h with rfl | h
            · exact Or.inl hx
            · exact Or.inr h
      · have hv : allMainClients.visit env ws (fuel + 1) (x :: todo) set
            = allMainClients.visit env ws fuel (mainClients env ws x ++ todo)
                (QList.append set x) := by
          simp [allMainClients.visit, QList.contains, hx]
        rw [hv] at h
        obtain ⟨h1, h2, h3, h4⟩ := ih _ _ r h
        refine ⟨?_, ?_, ?_, ?_⟩
        · intro y hy
          exact h1 y (by simp [QList.append, hy])
        · intro y hy
          rcases List.mem_cons.mp hy with rfl | hy
          · exact h1 y (by simp [QList.append])
          · exact h2 y (List.mem_append_right _ hy)
        · intro y hy
          rcases h3 y hy with h | ⟨t, ht, hr⟩
          · rcases List.mem_append.mp h with h | h
            · exact Or.inl h
            · simp only [List.mem_singleton] at h
              subst h
              exact Or.inr ⟨y, List.mem_cons_self _ _, Relation.ReflTransGen.refl⟩
          · rcases List.mem_append.mp ht with ht | ht
            · exact Or.inr ⟨x, List.mem_cons_self _ _, Relation.ReflTransGen.head ht hr⟩
            · exact Or.inr ⟨t, List.mem_cons_of_mem _ ht, hr⟩
        · intro hinv
          apply h4
          intro y hy m hm
          rcases List.mem_append.mp hy with hy | hy
          · rcases hinv y hy m hm with h | h
            · exact Or.inl (by simp [QList.append, h])
            · rcases List.mem_cons.mp h with rfl | h
              · exact Or.inl (by simp [QList.append])
              · exact Or.inr (List.mem_append_right _ h)
          · simp only [List.mem_singleton] at hy
            subst hy
            exact Or.inr (List.mem_append_left _ hm)

/-- C18: whatever the transiency, a cycle included, `allMainClients(w)`
terminates and returns no window twice. The main clients of every window being
among the finitely many windows of `windows`, the walk returns within the number
of steps given by `allMainClients.steps`; the list it returns has no duplicates,
and it holds the windows that are reached from `w` through the main clients, the
transitive closure of `mainClients()`, and no other. -/
theorem allMainClients_terminates_without_duplicates (env : Env) (ws : Workspace)
    (w : Toplevel) (windows : List Toplevel)
    (hwindows : ∀ x, ∀ m ∈ mainClients env ws x, m ∈ windows) (fuel : Nat)
    (hfuel : allMainClients.steps env ws windows (mainClients env ws w) [] ≤ fuel) :
    ∃ r, allMainClients env ws fuel w = some r ∧ r.Nodup ∧
      ∀ m, m ∈ r ↔ Relation.TransGen (fun a b => b ∈ mainClients env ws a) w m := by
  obtain ⟨r, hr, hnodup⟩ := visit_returns env ws windows hwindows fuel (mainClients env ws w) []
    (fun x hx => hwindows w x hx) List.nodup_nil hfuel
  obtain ⟨_, h2, h3, h4⟩ := visit_closure env ws fuel (mainClients env ws w) [] r hr
  refine ⟨r, hr, hnodup, fun m => ⟨fun hm => ?_, fun hm => ?_⟩⟩
  · rcases h3 m hm with h | ⟨t, ht, hreach⟩
    · simp at h
    · exact Relation.TransGen.head' ht hreach
  · have hclosed := h4 (fun y hy => by simp at hy)
    induction hm with
    | single h => exact h2 _ h
    | tail _ h ih => exact hclosed _ ih _ h

/-- Witness for C18: the windows 1 and 2 are transient for each other, a cycle.
The walk from the window 1 returns within 6 steps, and it returns no window
twice. -/
theorem allMainClients_terminates_without_duplicates_witness :
    ∃ r,
      allMainClients {}
        { heap := fun x =>
            if x = 1 then { m_transientForId := 12, transient_for := some 2 }
            else if x = 2 then { m_transientForId := 11, transient_for := some 1 }
            else {} } 6 1 = some r ∧ r.Nodup ∧
      ∀ m, m ∈ r ↔ Relation.TransGen (fun a b => b ∈ mainClients {}
        { heap := fun x =>
            if x = 1 then { m_transientForId := 12, transient_for := some 2 }
            else if x = 2 then { m_transientForId := 11, transient_for := some 1 }
            else {} } a) 1 m :=
  allMainClients_terminates_without_duplicates {}
    { heap := fun x =>
        if x = 1 then { m_transientForId := 12, transient_for := some 2 }
        else if x = 2 then { m_transientForId := 11, transient_for := some 1 }
        else {} } 1 [1, 2]
    (by
      intro x m hm
      by_cases h1 : x = 1
      · subst h1
        have : m = 2 := by
          simpa [mainClients, Client.isTransient, Client.transientFor, XCB_WINDOW_NONE] using hm
        simp [this]
      · by_cases h2 : x = 2
        · subst h2
          have : m = 1 := by
            simpa [mainClients, Client.isTransient, Client.transientFor, XCB_WINDOW_NONE] using hm
          simp [this]
        · simp [mainClients, Client.isTransient, XCB_WINDOW_NONE, h1, h2] at hm)
    6 (by decide)

/-! ### The constrained stacking order -/

/-- The windows of a list that pass a test are counted as in the list when they
pass, and not at all otherwise. -/
theorem count_filter_eq (p : Toplevel → Bool) (a : Toplevel) (l : List Toplevel) :
    (l.filter p).count a = if p a then l.count a else 0 := by
  by_cases h : p a = true
  · rw [List.count_filter h]
    simp [h]
  · have : a ∉ l.filter p := fun hm => h (List.mem_filter.mp hm).2
    rw [List.count_eq_zero_of_not_mem this]
    simp [h]

/-- Layering reorders the windows. -/
theorem layered_perm (ws : Workspace) (order : List Toplevel) :
    (constrainedStackingOrder.layered ws order).Perm order := by
  rw [List.perm_iff_count]
  intro a
  simp only [constrainedStackingOrder.layered, Layer.all, List.count_flatMap, List.map_cons,
    List.map_nil, List.sum_cons, List.sum_nil, Function.comp, count_filter_eq]
  cases (ws.heap a).layer <;> simp

/-- The move of a transient above its highest main window reorders the
windows. -/
theorem raise_perm (isMain : Toplevel → Bool) (c : Toplevel) (above : List Toplevel) :
    (constrainedStackingOrder.raise isMain c above).Perm (c :: above) := by
  induction above with
  | nil => exact List.Perm.refl _
  | cons x above ih =>
    unfold constrainedStackingOrder.raise
    split_ifs
    · exact (List.Perm.cons x ih).trans (List.Perm.swap c x above)
    · exact List.Perm.refl _

/-- One fix reorders the windows. -/
theorem fix_perm (mains : Toplevel → List Toplevel) (order order1 : List Toplevel)
    (h : constrainedStackingOrder.fix mains order = some order1) : order1.Perm order := by
  induction order generalizing order1 with
  | nil => simp [constrainedStackingOrder.fix] at h
  | cons c above ih =>
    unfold constrainedStackingOrder.fix at h
    split_ifs at h
    · simp only [Option.some.injEq] at h
      rw [← h]
      exact raise_perm _ c above
    · simp only [Option.map_eq_some'] at h
      obtain ⟨l, hl, rfl⟩ := h
      exact List.Perm.cons c (ih l hl)

/-- When there is nothing to fix, no window sits below a main window of its
own. -/
theorem fix_none (mains : Toplevel → List Toplevel) (order : List Toplevel)
    (h : constrainedStackingOrder.fix mains order = none) :
    ∀ below c above, order = below ++ c :: above → ∀ m ∈ above, m ∉ mains c := by
  induction order with
  | nil =>
    intro below c above h1
    simp at h1
  | cons c0 rest ih =>
    unfold constrainedStackingOrder.fix at h
    split_ifs at h with hany
    simp only [Option.map_eq_none'] at h
    intro below c above h1 m hm
    cases below with
    | nil =>
      simp only [List.nil_append, List.cons.injEq] at h1
      obtain ⟨rfl, rfl⟩ := h1
      intro hmain
      apply hany
      rw [List.any_eq_true]
      exact ⟨m, hm, by simpa [QList.contains] using hmain⟩
    | cons b below =>
      simp only [List.cons_append, List.cons.injEq] at h1
      exact ih h below c above h1.2 m hm

/-- The move of a transient above its highest main window, which has a higher
rank, lowers the measure. -/
theorem raise_potential (rank : Toplevel → Nat) (base : Nat) (isMain : Toplevel → Bool)
    (c : Toplevel) (above : List Toplevel)
    (hmain : ∀ x ∈ above, isMain x = true → base * base ^ rank c ≤ base ^ rank x) (k : Nat) :
    (above.any isMain = false →
      constrainedStackingOrder.potential rank base k
          (constrainedStackingOrder.raise isMain c above)
        = constrainedStackingOrder.potential rank base k (c :: above)) ∧
    (above.any isMain = true →
      constrainedStackingOrder.potential rank base k
          (constrainedStackingOrder.raise isMain c above) + base * base ^ rank c
        ≤ constrainedStackingOrder.potential rank base k (c :: above)
          + above.length * base ^ rank c) := by
  induction above generalizing k with
  | nil =>
    refine ⟨fun _ => rfl, fun h => ?_⟩
    simp at h
  | cons x above ih =>
    have hmain1 : ∀ y ∈ above, isMain y = true → base * base ^ rank c ≤ base ^ rank y :=
      fun y hy => hmain y (List.mem_cons_of_mem _ hy)
    obtain ⟨ih1, ih2⟩ := ih hmain1 (k + 1)
    constructor
    · intro h
      simp [constrainedStackingOrder.raise, h]
    · intro h
      have hr : constrainedStackingOrder.raise isMain c (x :: above)
          = x :: constrainedStackingOrder.raise isMain c above := by
        simp [constrainedStackingOrder.raise, h]
      rw [hr]
      simp only [constrainedStackingOrder.potential, List.length_cons]
      by_cases hab : above.any isMain = true
      · have h1 := ih2 hab
        simp only [constrainedStackingOrder.potential] at h1
        generalize constrainedStackingOrder.potential rank base (k + 1)
          (constrainedStackingOrder.raise isMain c above) = p1 at h1 ⊢
        generalize constrainedStackingOrder.potential rank base (k + 1 + 1) above = p2 at h1 ⊢
        generalize base ^ rank c = wc at h1 ⊢
        generalize base ^ rank x = wx at h1 ⊢
        nlinarith [h1]
      · have hab1 : above.any isMain = false := by simpa using hab
        have h1 := ih1 hab1
        simp only [constrainedStackingOrder.potential] at h1
        have hx : isMain x = true := by
          simp only [List.any_cons, Bool.or_eq_true] at h
          rcases h with h | h
          · exact h
          · exact absurd h hab
        have h2 := hmain x (List.mem_cons_self _ _) hx
        generalize constrainedStackingOrder.potential rank base (k + 1)
          (constrainedStackingOrder.raise isMain c above) = p1 at h1 ⊢
        generalize constrainedStackingOrder.potential rank base (k + 1 + 1) above = p2 at h1 ⊢
        generalize base ^ rank c = wc at h1 h2 ⊢
        generalize base ^ rank x = wx at h1 h2 ⊢
        nlinarith [h1, h2]

/-- One fix lowers the measure, when the main windows of a window have a higher
rank than the window. -/
theorem fix_potential (mains : Toplevel → List Toplevel) (rank : Toplevel → Nat) (base : Nat)
    (order order1 : List Toplevel) (hbase : order.length < base)
    (hrank : ∀ c ∈ order, ∀ m ∈ order, m ∈ mains c → rank c < rank m)
    (h : constrainedStackingOrder.fix mains order = some order1) (k : Nat) :
    constrainedStackingOrder.potential rank base k order1
      < constrainedStackingOrder.potential rank base k order := by
  induction order generalizing order1 k with
  | nil => simp [constrainedStackingOrder.fix] at h
  | cons c above ih =>
    simp only [List.length_cons] at hbase
    unfold constrainedStackingOrder.fix at h
    split_ifs at h with hany
    · simp only [Option.some.injEq] at h
      rw [← h]
      have hmain : ∀ x ∈ above, QList.contains (mains c) x = true →
          base * base ^ rank c ≤ base ^ rank x := by
        intro x hx hm
        have hlt := hrank c (List.mem_cons_self _ _) x (List.mem_cons_of_mem _ hx)
          (by simpa [QList.contains] using hm)
        rw [← pow_succ']
        exact Nat.pow_le_pow_right (by omega) hlt
      have h1 := (raise_potential rank base (fun m => QList.contains (mains c) m) c above
        hmain k).2 hany
      have hpos : 0 < base ^ rank c := Nat.pow_pos (by omega)
      have h2 : above.length * base ^ rank c < base * base ^ rank c :=
        Nat.mul_lt_mul_of_pos_right (by omega) hpos
      omega
    · simp only [Option.map_eq_some'] at h
      obtain ⟨l, hl, rfl⟩ := h
      have := ih l (by omega)
        (fun c1 hc1 m hm => hrank c1 (List.mem_cons_of_mem _ hc1) m (List.mem_cons_of_mem _ hm))
        hl (k + 1)
      simp only [constrainedStackingOrder.potential]
      omega

/-- The pass that enforces the transiency constraint returns when it is given
as many moves as the measure of the order it starts from, the main windows of a
window having a higher rank than the window; it reorders the windows and leaves
nothing to fix. -/
theorem enforce_returns (mains : Toplevel → List Toplevel) (rank : Toplevel → Nat) (base : Nat) :
    ∀ (fuel : Nat) (order : List Toplevel), order.length < base →
      (∀ c ∈ order, ∀ m ∈ order, m ∈ mains c → rank c < rank m) →
      constrainedStackingOrder.potential rank base 0 order ≤ fuel →
      ∃ order1, constrainedStackingOrder.enforce mains fuel order = some order1 ∧
        order1.Perm order ∧ constrainedStackingOrder.fix mains order1 = none := by
  intro fuel
  induction fuel with
  | zero =>
    intro order hbase hrank hle
    cases hfix : constrainedStackingOrder.fix mains order with
    | none =>
      refine ⟨order, ?_, List.Perm.refl _, hfix⟩
      unfold constrainedStackingOrder.enforce
      rw [hfix]
    | some order1 =>
      have := fix_potential mains rank base order order1 hbase hrank hfix 0
      omega
  | succ fuel ih =>
    intro order hbase hrank hle
    cases hfix : constrainedStackingOrder.fix mains order with
    | none =>
      refine ⟨order, ?_, List.Perm.refl _, hfix⟩
      unfold constrainedStackingOrder.enforce
      rw [hfix]
    | some order1 =>
      have hlt := fix_potential mains rank base order order1 hbase hrank hfix 0
      have hperm := fix_perm mains order order1 hfix
      obtain ⟨order2, h2, hperm2, hnone⟩ := ih order1 (by rw [hperm.length_eq]; exact hbase)
        (fun c hc m hm => hrank c (hperm.mem_iff.mp hc) m (hperm.mem_iff.mp hm)) (by omega)
      refine ⟨order2, ?_, hperm2.trans hperm, hnone⟩
      unfold constrainedStackingOrder.enforce
      rw [hfix]
      exact h2

/-- In an order without duplicates in which no window sits below a main window
of its own, a main window of a window has a lower position than the window. -/
theorem indexOf_lt_of_fix_none (mains : Toplevel → List Toplevel) (order : List Toplevel)
    (hnodup : order.Nodup)
    (hnone : constrainedStackingOrder.fix mains order = none)
    (parent child : Toplevel) (hp : parent ∈ order) (hc : child ∈ order)
    (hne : parent ≠ child) (hmain : parent ∈ mains child) :
    List.indexOf parent order < List.indexOf child order := by
  obtain ⟨below, above, rfl⟩ := List.append_of_mem hc
  have hnot := fix_none mains _ hnone below child above rfl parent
  have hcb : child ∉ below := by
    intro h
    have := (List.nodup_append.mp hnodup).2.2
    exact this h (List.mem_cons_self _ _)
  have hpb : parent ∈ below := by
    rcases List.mem_append.mp hp with h | h
    · exact h
    · rcases List.mem_cons.mp h with h | h
      · exact absurd h hne
      · exact absurd hmain (hnot h)
  rw [List.indexOf_append_of_mem hpb, List.indexOf_append_of_not_mem hcb,
    List.indexOf_cons_self]
  have := List.indexOf_lt_length.mpr hpb
  omega

/-- C17: let the unconstrained order hold no window twice, and let a rank rise
from every window to its main windows, which says that no window is reached
from itself through the main windows. Then the recomputation of the constrained
stacking order returns, within the number of moves that the measure of the
layered order gives; the constrained order holds the windows of the
unconstrained order; and for every pair of its windows with `child` transient
to `parent`, the position of `child` is strictly above the position of
`parent`. -/
theorem transient_is_above_its_main_windows (env : Env) (ws : Workspace)
    (rank : Toplevel → Nat) (fuel : Nat)
    (hnodup : ws.unconstrained_stacking_order.Nodup)
    (hacyclic : ∀ child ∈ ws.unconstrained_stacking_order,
      ∀ parent ∈ ws.unconstrained_stacking_order,
        parent ∈ mainClients env ws child → rank child < rank parent)
    (hfuel : constrainedStackingOrder.potential rank
        (ws.unconstrained_stacking_order.length + 1) 0
        (constrainedStackingOrder.layered ws ws.unconstrained_stacking_order) ≤ fuel) :
    ∃ order, constrainedStackingOrder env ws fuel = some order ∧
      order.Perm ws.unconstrained_stacking_order ∧
      ∀ parent child, parent ∈ order → child ∈ order →
        parent ∈ mainClients env ws child →
        List.indexOf parent order < List.indexOf child order := by
  have hl := layered_perm ws ws.unconstrained_stacking_order
  obtain ⟨order, h1, hperm, hnone⟩ := enforce_returns (mainClients env ws) rank
    (ws.unconstrained_stacking_order.length + 1) fuel
    (constrainedStackingOrder.layered ws ws.unconstrained_stacking_order)
    (by rw [hl.length_eq]; omega)
    (fun c hc m hm => hacyclic c (hl.mem_iff.mp hc) m (hl.mem_iff.mp hm)) hfuel
  have hperm1 := hperm.trans hl
  refine ⟨order, h1, hperm1, ?_⟩
  intro parent child hp hc hmain
  have hne : parent ≠ child := by
    rintro rfl
    exact absurd (hacyclic parent (hperm1.mem_iff.mp hp) parent (hperm1.mem_iff.mp hp) hmain)
      (lt_irrefl _)
  exact indexOf_lt_of_fix_none (mainClients env ws) order (hperm1.nodup_iff.mpr hnodup) hnone
    parent child hp hc hne hmain

/-- Witness for C17: the dialog 2 is transient for the window 1 and lies below
it in the unconstrained order; in the constrained order it is above the
window 1. -/
theorem transient_is_above_its_main_windows_witness :
    ∃ order,
      constrainedStackingOrder {}
        { unconstrained_stacking_order := [2, 1, 3],
          heap := fun x =>
            if x = 2 then { m_transientForId := 11, transient_for := some 1 } else {} }
        6 = some order ∧
      List.indexOf 1 order < List.indexOf 2 order := by
  have hmains : ∀ child parent : Toplevel,
      parent ∈ mainClients {}
        { unconstrained_stacking_order := [2, 1, 3],
          heap := fun x =>
            if x = 2 then { m_transientForId := 11, transient_for := some 1 } else {} }
        child ↔ child = 2 ∧ parent = 1 := by
    intro child parent
    by_cases h2 : child = 2
    · subst h2
      simp [mainClients, Client.isTransient, Client.transientFor, XCB_WINDOW_NONE]
    · simp [mainClients, Client.isTransient, XCB_WINDOW_NONE, h2]
  obtain ⟨order, h1, hperm, h⟩ := transient_is_above_its_main_windows {}
    { unconstrained_stacking_order := [2, 1, 3],
      heap := fun x =>
        if x = 2 then { m_transientForId := 11, transient_for := some 1 } else {} }
    (fun x => if x = 1 then 1 else 0) 6 (by decide)
    (by
      intro child _ parent _ hm
      obtain ⟨rfl, rfl⟩ := (hmains child parent).mp hm
      decide)
    (by decide)
  refine ⟨order, h1, h 1 2 (hperm.mem_iff.mpr (by decide)) (hperm.mem_iff.mpr (by decide))
    ((hmains 2 1).mpr ⟨rfl, rfl⟩)⟩

/-! ### A desktop that does not exist -/

/-- C22: for a desktop that is neither a desktop number from 1 nor
`NET::OnAllDesktops`, or that is greater than the number of virtual desktops,
`sendClientToDesktop` returns at once. The workspace it leaves is the one it
found, with nothing but its own invocation recorded: the desktop of `c`, the
desktop of every other client, its transients among them, the active client,
the focus bookkeeping and both stacking orders are as before, and no call of
`setDesktop`, `requestFocus`, `raiseClient` or `updateClientArea` is issued. -/
theorem sendClientToDesktop_ignores_an_invalid_desktop (env : Env) (ws : Workspace)
    (c : Toplevel) (desk : Int) (dont_activate : Bool) (fuel : Nat)
    (hinvalid : (desk < 1 ∧ desk ≠ NET.OnAllDesktops) ∨ desk > (env.vdsCount : Int)) :
    ∃ ws1, sendClientToDesktop env (fuel + 1) ws c desk dont_activate = some ws1 ∧
      ws1 = ws.call (Call.sendClientToDesktop c desk dont_activate) ∧
      ws1.heap = ws.heap ∧
      (ws1.heap c).desktop = (ws.heap c).desktop ∧
      (∀ t ∈ (ws.heap c).transients, (ws1.heap t).desktop = (ws.heap t).desktop) ∧
      ws1.active_client = ws.active_client ∧
      ws1.last_active_client = ws.last_active_client ∧
      ws1.should_get_focus = ws.should_get_focus ∧
      ws1.focusChain.mostRecentlyUsed = ws.focusChain.mostRecentlyUsed ∧
      ws1.focusChain.desktopFocusChains = ws.focusChain.desktopFocusChains ∧
      ws1.stacking_order = ws.stacking_order ∧
      ws1.unconstrained_stacking_order = ws.unconstrained_stacking_order ∧
      issued ws ws1 = [Call.sendClientToDesktop c desk dont_activate] := by
  have h1 : ((decide (desk < 1) && desk != NET.OnAllDesktops) ||
      decide (desk > static_cast_int env.vdsCount)) = true := by
    rcases hinvalid with ⟨ha, hb⟩ | h
    · simp [ha, hb]
    · have hle := static_cast_int_le env.vdsCount
      have hgt : desk > static_cast_int env.vdsCount := by omega
      simp [hgt]
  have hself : sendClientToDesktop.self env ws c desk dont_activate =
      (ws.call (Call.sendClientToDesktop c desk dont_activate), none) := by
    rw [self_eq, h1]
    rfl
  refine ⟨ws.call (Call.sendClientToDesktop c desk dont_activate), ?_, rfl, rfl, rfl,
    fun _ _ => rfl, rfl, rfl, rfl, rfl, rfl, rfl, rfl, ?_⟩
  · rw [sendClientToDesktop_succ, hself]
  · exact issued_of_calls_eq rfl

/-- Witness for C22: desktop 5 of 2, and desktop 0. -/
theorem sendClientToDesktop_ignores_an_invalid_desktop_witness :
    ∃ ws1, sendClientToDesktop { vdsCount := 2 } 1
        { heap := fun _ => { desktop := 1, transients_list := [2] } } 1 5 false = some ws1 ∧
      (ws1.heap 1).desktop = 1 ∧ (ws1.heap 2).desktop = 1 ∧
      issued { heap := fun _ => { desktop := 1, transients_list := [2] } } ws1
        = [Call.sendClientToDesktop 1 5 false] := by
  obtain ⟨ws1, h1, _, _, h4, h5, _, _, _, _, _, _, _, h13⟩ :=
    sendClientToDesktop_ignores_an_invalid_desktop { vdsCount := 2 }
      { heap := fun _ => { desktop := 1, transients_list := [2] } } 1 5 false 0
      (Or.inr (by decide))
  exact ⟨ws1, h1, h4, h5 2 (by simp [Client.transients]), h13⟩

/-! ### The X screen of the input focus -/

/-- C21: `isOnCurrentHead` returns true when the setup is not multi-head, and
then it issues no request: the input focus is not inspected. In a multi-head
setup it returns false when the window with the input focus is none, and when
the geometry of that window cannot be queried; otherwise it returns true
exactly when the root in the geometry of that window is the root window of this
screen. -/
theorem isOnCurrentHead_answers (env : Env) (ws : Workspace) :
    (env.is_multihead = false →
      (isOnCurrentHead env ws).2 = true ∧ (isOnCurrentHead env ws).1 = ws ∧
        issued ws (isOnCurrentHead env ws).1 = []) ∧
    (env.is_multihead = true → env.currentInputWindow = XCB_WINDOW_NONE →
      (isOnCurrentHead env ws).2 = false) ∧
    (env.is_multihead = true → env.currentInputWindow ≠ XCB_WINDOW_NONE →
      env.windowGeometryRoot env.currentInputWindow = none →
      (isOnCurrentHead env ws).2 = false) ∧
    (env.is_multihead = true → env.currentInputWindow ≠ XCB_WINDOW_NONE →
      ∀ root, env.windowGeometryRoot env.currentInputWindow = some root →
        ((isOnCurrentHead env ws).2 = true ↔ env.rootWindow = root)) := by
  refine ⟨?_, ?_, ?_, ?_⟩
  · intro h
    simp [isOnCurrentHead, h, issued]
  · intro h hw
    simp [isOnCurrentHead, h, hw]
  · intro h hw hg
    simp [isOnCurrentHead, h, hw, hg]
  · intro h hw root hg
    simp [isOnCurrentHead, h, hw, hg]

/-! ### The client under the mouse -/

/-- The loop of `findClientToActivateOnDesktop` stops at the first window, from
the top, that is an X11 client, qualifies and has the cursor in its frame
geometry; it returns this window unless it is a desktop window. -/
theorem scan_eq (env : Env) (ws : Workspace) (desktop : Nat) (l : List Toplevel) :
    findClientToActivateOnDesktop.scan env ws desktop l =
      match l.find? (fun t =>
        decide ((ws.heap t).kind = Kind.X11Client) &&
          (Client.isShown t (ws.heap t) false && (ws.heap t).isOnDesktop (desktop : Int) &&
            isOnCurrentActivity env (ws.heap t) && (ws.heap t).onActiveScreen) &&
          (ws.heap t).frameGeometry.contains env.cursorPos) with
      | some c => if !(ws.heap c).isDesktop then some c else none
      | none => none := by
  induction l with
  | nil => rfl
  | cons t l ih =>
    unfold findClientToActivateOnDesktop.scan castX11Client
    by_cases hk : (ws.heap t).kind = Kind.X11Client
    · simp only [hk, if_true, decide_True, Bool.true_and, List.find?_cons]
      by_cases hq : (Client.isShown t (ws.heap t) false &&
          (ws.heap t).isOnDesktop (desktop : Int) &&
          isOnCurrentActivity env (ws.heap t) && (ws.heap t).onActiveScreen) = true
      · by_cases hc : (ws.heap t).frameGeometry.contains env.cursorPos = true
        · simp [hq, hc]
        · simp [hq, hc, ih]
      · simp [hq, ih]
    · simp only [hk, if_false, decide_False, Bool.false_and, List.find?_cons]
      exact ih

/-- C25: let `nextFocusPrefersMouse` be set and let the shortcut for the moving
client not apply. Then `findClientToActivateOnDesktop` looks, from the top of
the stacking order, for the first X11 client that is shown (`isShown(false)`),
on the desktop, on the current activity and on the active screen and whose frame
geometry contains the cursor. It returns that client when it is not a desktop
window; when it is a desktop window, and when there is no such client, it
returns `FocusChain::getForActivation(desktop)`. A client that the scan returns
is not a desktop window, qualifies, has the cursor in its frame geometry, and no
window above it in the stacking order qualifies with the cursor in its frame
geometry. -/
theorem findClientToActivateOnDesktop_prefers_the_mouse (env : Env) (ws : Workspace)
    (desktop : Nat) (hmouse : env.isNextFocusPrefersMouse = true)
    (hmoving : ¬(ws.movingClient ≠ none ∧ ws.active_client = ws.movingClient ∧
      ∃ a, ws.active_client = some a ∧ ws.focusChain.contains a desktop = true ∧
        Client.isShown a (ws.heap a) true = true ∧ isOnCurrentDesktop env (ws.heap a) = true)) :
    findClientToActivateOnDesktop env ws desktop =
      (match ws.stacking_order.reverse.find? (fun t =>
        decide ((ws.heap t).kind = Kind.X11Client) &&
          (Client.isShown t (ws.heap t) false && (ws.heap t).isOnDesktop (desktop : Int) &&
            isOnCurrentActivity env (ws.heap t) && (ws.heap t).onActiveScreen) &&
          (ws.heap t).frameGeometry.contains env.cursorPos) with
      | some c => if !(ws.heap c).isDesktop then some c else env.getForActivation ws desktop
      | none => env.getForActivation ws desktop) ∧
    (∀ c, findClientToActivateOnDesktop.scan env ws desktop ws.stacking_order.reverse = some c →
      (ws.heap c).isDesktop = false ∧
      (ws.heap c).kind = Kind.X11Client ∧
      Client.isShown c (ws.heap c) false = true ∧
      (ws.heap c).isOnDesktop (desktop : Int) = true ∧
      isOnCurrentActivity env (ws.heap c) = true ∧ (ws.heap c).onActiveScreen = true ∧
      (ws.heap c).frameGeometry.contains env.cursorPos = true ∧
      ∃ below above, ws.stacking_order = below ++ c :: above ∧
        ∀ d ∈ above, ¬((ws.heap d).kind = Kind.X11Client ∧
          Client.isShown d (ws.heap d) false = true ∧
          (ws.heap d).isOnDesktop (desktop : Int) = true ∧
          isOnCurrentActivity env (ws.heap d) = true ∧ (ws.heap d).onActiveScreen = true ∧
          (ws.heap d).frameGeometry.contains env.cursorPos = true)) := by
  have hm : (match ws.active_client with
      | some a =>
        ws.movingClient != none && ws.active_client == ws.movingClient &&
          ws.focusChain.contains a desktop &&
          Client.isShown a (ws.heap a) true && isOnCurrentDesktop env (ws.heap a)
      | none => false) = false := by
    cases ha : ws.active_client with
    | none => rfl
    | some a =>
      by_contra hne
      apply hmoving
      simp only [Bool.not_eq_false, Bool.and_eq_true, bne_iff_ne, ne_eq, beq_iff_eq] at hne
      obtain ⟨⟨⟨⟨h1, h2⟩, h3⟩, h4⟩, h5⟩ := hne
      rw [ha]
      exact ⟨h1, h2, a, rfl, h3, h4, h5⟩
  constructor
  · unfold findClientToActivateOnDesktop
    simp only [hm, Bool.false_eq_true, if_false, hmouse, if_true]
    rw [scan_eq]
    cases ws.stacking_order.reverse.find? _ with
    | none => rfl
    | some c =>
      dsimp only
      by_cases hd : (ws.heap c).isDesktop = true <;> simp [hd]
  · intro c hc
    rw [scan_eq] at hc
    cases hf : ws.stacking_order.reverse.find? (fun t =>
        decide ((ws.heap t).kind = Kind.X11Client) &&
          (Client.isShown t (ws.heap t) false && (ws.heap t).isOnDesktop (desktop : Int) &&
            isOnCurrentActivity env (ws.heap t) && (ws.heap t).onActiveScreen) &&
          (ws.heap t).frameGeometry.contains env.cursorPos) with
    | none =>
      rw [hf] at hc
      cases hc
    | some x =>
      rw [hf] at hc
      dsimp only at hc
      by_cases hd : (ws.heap x).isDesktop = true
      · simp [hd] at hc
      · simp only [hd, Bool.not_false, if_true, Option.some.injEq] at hc
        subst hc
        rw [List.find?_eq_some] at hf
        obtain ⟨hq, as, bs, hl, has⟩ := hf
        simp only [Bool.and_eq_true, decide_eq_true_eq] at hq
        obtain ⟨⟨hk, ⟨⟨⟨h1, h2⟩, h3⟩, h4⟩⟩, h5⟩ := hq
        refine ⟨by simpa using hd, hk, h1, h2, h3, h4, h5, bs.reverse, as.reverse, ?_, ?_⟩
        · have := congrArg List.reverse hl
          simpa using this
        · intro d hd1
          have := has d (List.mem_reverse.mp hd1)
          intro hall
          obtain ⟨g1, g2, g3, g4, g5, g6⟩ := hall
          simp [g1, g2, g3, g4, g5, g6] at this

/-- Witness for C25: the clients 1 and 2 both have the cursor in their frame
geometry; the client 2, the upper one, is returned. -/
theorem findClientToActivateOnDesktop_prefers_the_mouse_witness :
    findClientToActivateOnDesktop { isNextFocusPrefersMouse := true, cursorPos := ⟨5, 5⟩ }
      { stacking_order := [1, 2], heap := fun _ => { frameGeometry := ⟨0, 0, 10, 10⟩ } } 1
      = some 2 :=
  (findClientToActivateOnDesktop_prefers_the_mouse
    { isNextFocusPrefersMouse := true, cursorPos := ⟨5, 5⟩ }
    { stacking_order := [1, 2], heap := fun _ => { frameGeometry := ⟨0, 0, 10, 10⟩ } } 1
    rfl (by simp)).1.trans (by decide)

/-! ### Showing the desktop -/

/-- No call satisfies whatever is asked of every call. -/
theorem issuesOnly_refl (P : Call → Prop) (ws : Workspace) : issuesOnly P ws ws :=
  ⟨[], by simp, by simp⟩

/-- Statements in sequence that issue calls of one kind. -/
theorem issuesOnly_trans (P : Call → Prop) {ws ws1 ws2 : Workspace}
    (h1 : issuesOnly P ws ws1) (h2 : issuesOnly P ws1 ws2) : issuesOnly P ws ws2 := by
  obtain ⟨e1, he1, hc1⟩ := h1
  obtain ⟨e2, he2, hc2⟩ := h2
  refine ⟨e1 ++ e2, by rw [he2, he1, List.append_assoc], ?_⟩
  intro k hk
  rcases List.mem_append.mp hk with h | h
  · exact hc1 k h
  · exact hc2 k h

/-- A call of the kind asked for. -/
theorem issuesOnly_call (P : Call → Prop) (ws : Workspace) (k : Call) (hk : P k) :
    issuesOnly P ws (ws.call k) :=
  ⟨[k], rfl, by simpa using hk⟩

/-- The loop of `setShowingDesktop` issues calls of `updateLayer()` and
`lowerClient` only, and leaves `showing_desktop` and `stacking_order` as they
are. -/
theorem setShowingDesktop_loop (env : Env) (l : List Toplevel)
    (acc : Workspace × Option Toplevel) :
    issuesOnly Call.isLayering acc.1 (l.foldl (setShowingDesktop.step env) acc).1 ∧
    (l.foldl (setShowingDesktop.step env) acc).1.showing_desktop = acc.1.showing_desktop := by
  induction l generalizing acc with
  | nil => exact ⟨issuesOnly_refl _ _, rfl⟩
  | cons t l ih =>
    have hstep : issuesOnly Call.isLayering acc.1 (setShowingDesktop.step env acc t).1 ∧
        (setShowingDesktop.step env acc t).1.showing_desktop = acc.1.showing_desktop := by
      have hmembers : ∀ (m : List Toplevel) (w : Workspace),
          issuesOnly Call.isLayering w
            (m.foldl (fun ws cm => ws.call (Call.updateLayer cm)) w) ∧
          (m.foldl (fun ws cm => ws.call (Call.updateLayer cm)) w).showing_desktop
            = w.showing_desktop := by
        intro m
        induction m with
        | nil => exact fun w => ⟨issuesOnly_refl _ _, rfl⟩
        | cons x m ihm =>
          intro w
          obtain ⟨h1, h2⟩ := ihm (w.call (Call.updateLayer x))
          exact ⟨issuesOnly_trans _ (issuesOnly_call _ w (Call.updateLayer x) trivial) h1, h2⟩
      unfold setShowingDesktop.step
      dsimp only
      cases castAbstractClient acc.1 t with
      | none => exact ⟨issuesOnly_refl _ _, rfl⟩
      | some x =>
        dsimp only
        split_ifs <;>
          first
          | exact ⟨issuesOnly_refl _ _, rfl⟩
          | exact ⟨issuesOnly_call _ acc.1 (Call.updateLayer x) trivial, rfl⟩
          | exact ⟨issuesOnly_trans _
              (issuesOnly_trans _ (issuesOnly_call _ acc.1 (Call.updateLayer x) trivial)
                (issuesOnly_call _ _ (Call.lowerClient x) trivial))
              (hmembers _ _).1, (hmembers _ _).2⟩
    obtain ⟨h1, h2⟩ := ih (setShowingDesktop.step env acc t)
    exact ⟨issuesOnly_trans _ hstep.1 h1, by rw [List.foldl_cons, h2, hstep.2]⟩

/-- The calls of `setShowingDesktop`, in order: its own invocation; the notice
to `rootInfo()` when there is one and the value changes; the calls of the loop
between those of the stacking blocker; the focus action; and the signal when
the value changes. The focus action is a `requestFocus`, or when the desktop
stops being shown and the value changes, the `activateClient` of the client of
the focus chain, or nothing. -/
theorem setShowingDesktop_calls (env : Env) (ws : Workspace) (showing : Bool) :
    (setShowingDesktop env ws showing).showing_desktop = showing ∧
    ∃ loop focus,
      (setShowingDesktop env ws showing).calls =
        ws.calls ++ ([Call.setShowingDesktop showing] ++
          (if env.rootInfo && (showing != ws.showing_desktop) then
            [Call.rootInfoSetShowingDesktop showing] else []) ++
          [Call.blockStackingUpdates true] ++ loop ++ [Call.blockStackingUpdates false] ++
          focus ++
          (if showing != ws.showing_desktop then [Call.showingDesktopChanged showing]
            else [])) ∧
      (∀ k ∈ loop, Call.isLayering k) ∧
      (focus = [] ∨ (∃ t, focus = [Call.requestFocus t]) ∨
        (∃ c, focus = [Call.activateClient (some c)] ∧ showing = false ∧
          (showing != ws.showing_desktop) = true)) := by
  unfold setShowingDesktop
  lift_lets
  intro ws1 changed ws2 ws3 ws4 r ws5 topDesk ws6 ws7
  obtain ⟨⟨loop, hloop, hall⟩, hsd⟩ := setShowingDesktop_loop env ws4.stacking_order.reverse
    (ws4, none)
  have h5sd : ws5.showing_desktop = showing := hsd
  have h5calls : ws5.calls = ws4.calls ++ loop := hloop
  have h4calls : ws4.calls = ws.calls ++ ([Call.setShowingDesktop showing] ++
      (if env.rootInfo && (showing != ws.showing_desktop) then
        [Call.rootInfoSetShowingDesktop showing] else []) ++
      [Call.blockStackingUpdates true]) := by
    show (ws1.callIf (env.rootInfo && changed) (Call.rootInfoSetShowingDesktop showing)).calls
      ++ [Call.blockStackingUpdates true] = _
    cases hb : (env.rootInfo && changed)
    · have : (env.rootInfo && (showing != ws.showing_desktop)) = false := hb
      simp [Workspace.callIf, this, ws1, Workspace.call]
    · have : (env.rootInfo && (showing != ws.showing_desktop)) = true := hb
      simp [Workspace.callIf, this, ws1, Workspace.call]
  have h6sd : ws6.showing_desktop = showing := h5sd
  have h6calls : ws6.calls = ws5.calls ++ [Call.blockStackingUpdates false] := rfl
  have h7 : ws7.showing_desktop = showing ∧ ∃ focus, ws7.calls = ws6.calls ++ focus ∧
      (focus = [] ∨ (∃ t, focus = [Call.requestFocus t]) ∨
        (∃ c, focus = [Call.activateClient (some c)] ∧ showing = false ∧
          (showing != ws.showing_desktop) = true)) := by
    show (if ws6.showing_desktop && topDesk != none then ws6.call (Call.requestFocus topDesk)
      else if !ws6.showing_desktop && changed then
        ws6.callOn (env.getForActivation ws6 env.vdsCurrent)
          (fun client => Call.activateClient (some client))
      else ws6).showing_desktop = showing ∧ ∃ focus,
      (if ws6.showing_desktop && topDesk != none then ws6.call (Call.requestFocus topDesk)
      else if !ws6.showing_desktop && changed then
        ws6.callOn (env.getForActivation ws6 env.vdsCurrent)
          (fun client => Call.activateClient (some client))
      else ws6).calls = ws6.calls ++ focus ∧ _
    split_ifs with ha hb
    · exact ⟨h6sd, [Call.requestFocus topDesk], rfl, Or.inr (Or.inl ⟨topDesk, rfl⟩)⟩
    · cases hg : env.getForActivation ws6 env.vdsCurrent with
      | none => exact ⟨h6sd, [], by simp [Workspace.callOn], Or.inl rfl⟩
      | some x =>
        have hb1 : showing = false ∧ changed = true := by
          rw [h6sd] at hb
          simpa using hb
        exact ⟨h6sd, [Call.activateClient (some x)], rfl, Or.inr (Or.inr ⟨x, rfl, hb1.1, hb1.2⟩)⟩
    · exact ⟨h6sd, [], by simp, Or.inl rfl⟩
  obtain ⟨h7sd, focus, h7calls, hfocus⟩ := h7
  refine ⟨?_, loop, focus, ?_, hall, hfocus⟩
  · show (ws7.callIf changed (Call.showingDesktopChanged showing)).showing_desktop = showing
    cases changed <;> exact h7sd
  · show (ws7.callIf changed (Call.showingDesktopChanged showing)).calls = _
    have hch : changed = (showing != ws.showing_desktop) := rfl
    cases hc : changed
    · have hne : (showing != ws.showing_desktop) = false := by rw [← hch, hc]
      rw [h4calls] at h5calls
      rw [h5calls] at h6calls
      rw [h6calls] at h7calls
      simp only [hne] at h7calls ⊢
      simp [Workspace.callIf, h7calls]
    · have hne : (showing != ws.showing_desktop) = true := by rw [← hch, hc]
      rw [h4calls] at h5calls
      rw [h5calls] at h6calls
      rw [h6calls] at h7calls
      simp only [hne] at h7calls ⊢
      simp [Workspace.callIf, Workspace.call, h7calls]

/-- Calls of `updateLayer()` and `lowerClient` are of no kind that holds none of
them. -/
theorem countP_layering (p : Call → Bool) (hp : ∀ k, Call.isLayering k → p k = false)
    (loop : List Call) (hloop : ∀ k ∈ loop, Call.isLayering k) : loop.countP p = 0 := by
  rw [List.countP_eq_zero]
  intro k hk
  rw [hp k (hloop k hk)]
  simp

/-- C26, as the sources have it: `setShowingDesktop(showing)` leaves
`showing_desktop` equal to `showing`. It emits `showingDesktopChanged(showing)` once when the value differs
from the previous one and not at all otherwise, and it notifies `rootInfo()`,
when there is one, of `showing` once when the value differs and not at all
otherwise. The second of two consecutive calls with the same argument leaves
`showing_desktop` equal to `showing`, emits no signal, sends no notice to
`rootInfo()` and activates no client. -/
theorem setShowingDesktop_notifies_a_change (env : Env) (ws : Workspace) (showing : Bool) :
    (setShowingDesktop env ws showing).showing_desktop = showing ∧
    (issued ws (setShowingDesktop env ws showing)).countP Call.isShowingDesktopChanged =
      (if showing ≠ ws.showing_desktop then 1 else 0) ∧
    (∀ b, Call.showingDesktopChanged b ∈ issued ws (setShowingDesktop env ws showing) →
      b = showing) ∧
    (issued ws (setShowingDesktop env ws showing)).countP Call.isRootInfoSetShowingDesktop =
      (if env.rootInfo = true ∧ showing ≠ ws.showing_desktop then 1 else 0) ∧
    (∀ b, Call.rootInfoSetShowingDesktop b ∈ issued ws (setShowingDesktop env ws showing) →
      b = showing) ∧
    (setShowingDesktop env (setShowingDesktop env ws showing) showing).showing_desktop
      = showing ∧
    (issued (setShowingDesktop env ws showing)
      (setShowingDesktop env (setShowingDesktop env ws showing) showing)).countP
      Call.isShowingDesktopChanged = 0 ∧
    (issued (setShowingDesktop env ws showing)
      (setShowingDesktop env (setShowingDesktop env ws showing) showing)).countP
      Call.isRootInfoSetShowingDesktop = 0 ∧
    (issued (setShowingDesktop env ws showing)
      (setShowingDesktop env (setShowingDesktop env ws showing) showing)).countP
      Call.isActivateClient = 0 := by
  have hl1 : ∀ k, Call.isLayering k → Call.isShowingDesktopChanged k = false := by
    intro k hk
    cases k <;> first | rfl | exact absurd hk (by simp [Call.isLayering])
  have hl2 : ∀ k, Call.isLayering k → Call.isRootInfoSetShowingDesktop k = false := by
    intro k hk
    cases k <;> first | rfl | exact absurd hk (by simp [Call.isLayering])
  have hl3 : ∀ k, Call.isLayering k → Call.isActivateClient k = false := by
    intro k hk
    cases k <;> first | rfl | exact absurd hk (by simp [Call.isLayering])
  have key : ∀ w : Workspace,
      (setShowingDesktop env w showing).showing_desktop = showing ∧
      (issued w (setShowingDesktop env w showing)).countP Call.isShowingDesktopChanged =
        (if showing ≠ w.showing_desktop then 1 else 0) ∧
      (∀ b, Call.showingDesktopChanged b ∈ issued w (setShowingDesktop env w showing) →
        b = showing) ∧
      (issued w (setShowingDesktop env w showing)).countP Call.isRootInfoSetShowingDesktop =
        (if env.rootInfo = true ∧ showing ≠ w.showing_desktop then 1 else 0) ∧
      (∀ b, Call.rootInfoSetShowingDesktop b ∈ issued w (setShowingDesktop env w showing) →
        b = showing) ∧
      (showing = w.showing_desktop →
        (issued w (setShowingDesktop env w showing)).countP Call.isActivateClient = 0) := by
    intro w
    obtain ⟨hsd, loop, focus, hcalls, hloop, hfocus⟩ := setShowingDesktop_calls env w showing
    rw [issued_of_calls_eq hcalls]
    have c1 := countP_layering _ hl1 loop hloop
    have c2 := countP_layering _ hl2 loop hloop
    have c3 := countP_layering _ hl3 loop hloop
    have m1 : ∀ b, Call.showingDesktopChanged b ∉ loop :=
      fun b hb => by simpa [Call.isLayering] using hloop _ hb
    have m2 : ∀ b, Call.rootInfoSetShowingDesktop b ∉ loop :=
      fun b hb => by simpa [Call.isLayering] using hloop _ hb
    refine ⟨hsd, ?_, ?_, ?_, ?_, ?_⟩
    · rcases hfocus with rfl | ⟨t, rfl⟩ | ⟨c, rfl, _, _⟩ <;>
        by_cases hch : showing = w.showing_desktop <;>
        cases env.rootInfo <;>
        simp [List.countP_append, c1, hch, Call.isShowingDesktopChanged, List.countP_cons]
    · intro b hb
      rcases hfocus with rfl | ⟨t, rfl⟩ | ⟨c, rfl, _, _⟩ <;>
        by_cases hch : showing = w.showing_desktop <;>
        cases hr : env.rootInfo <;>
        simp [hch, hr, m1] at hb <;> exact hb
    · rcases hfocus with rfl | ⟨t, rfl⟩ | ⟨c, rfl, _, _⟩ <;>
        by_cases hch : showing = w.showing_desktop <;>
        cases env.rootInfo <;>
        simp [List.countP_append, c2, hch, Call.isRootInfoSetShowingDesktop, List.countP_cons]
    · intro b hb
      rcases hfocus with rfl | ⟨t, rfl⟩ | ⟨c, rfl, _, _⟩ <;>
        by_cases hch : showing = w.showing_desktop <;>
        cases hr : env.rootInfo <;>
        simp [hch, hr, m2] at hb <;> exact hb
    · intro hch
      rcases hfocus with rfl | ⟨t, rfl⟩ | ⟨c, rfl, _, hne⟩
      · cases env.rootInfo <;>
          simp [List.countP_append, c3, hch, Call.isActivateClient, List.countP_cons]
      · cases env.rootInfo <;>
          simp [List.countP_append, c3, hch, Call.isActivateClient, List.countP_cons]
      · rw [hch] at hne
        simp at hne
  obtain ⟨h1, h2, h3, h4, h5, _⟩ := key ws
  obtain ⟨g1, g2, _, g4, _, g6⟩ := key (setShowingDesktop env ws showing)
  refine ⟨h1, h2, h3, h4, h5, g1, ?_, ?_, g6 h1.symm⟩
  · rw [g2, h1]
    simp
  · rw [g4, h1]
    simp

/-- C26 fails when there is no `rootInfo()`: the desktop is not shown and
`setShowingDesktop(true)` is called, so that the value differs from the previous
one. The signal `showingDesktopChanged` is emitted, and no notice goes to
`rootInfo()`, which is null. -/
theorem setShowingDesktop_without_rootInfo_sends_no_notice :
    (true ≠ ({ heap := fun _ => {} } : Workspace).showing_desktop) ∧
    (issued { heap := fun _ => {} }
      (setShowingDesktop { rootInfo := false } { heap := fun _ => {} } true)).countP
      Call.isShowingDesktopChanged = 1 ∧
    (issued { heap := fun _ => {} }
      (setShowingDesktop { rootInfo := false } { heap := fun _ => {} } true)).countP
      Call.isRootInfoSetShowingDesktop = 0 := by
  decide

/-! ### The end of the recursion over the transients -/

/-- Whenever `sendClientToDesktop` returns, every client has the transients it
had. -/
theorem sendClientToDesktop_transients (env : Env) (dont_activate : Bool) :
    ∀ (fuel : Nat) (ws : Workspace) (c : Toplevel) (desk : Int) (ws1 : Workspace),
      sendClientToDesktop env fuel ws c desk dont_activate = some ws1 →
      ∀ x, (ws1.heap x).transients = (ws.heap x).transients := by
  intro fuel
  induction fuel with
  | zero =>
    intro ws c desk ws1 h
    simp [sendClientToDesktop] at h
  | succ fuel ih =>
    intro ws c desk ws1 h x
    rw [sendClientToDesktop_succ] at h
    cases hr : (sendClientToDesktop.self env ws c desk dont_activate).2 with
    | none =>
      rw [hr] at h
      simp only [Option.some.injEq] at h
      rw [← h, self_transients]
    | some d =>
      rw [hr] at h
      simp only [Option.map_eq_some'] at h
      obtain ⟨w2, hfold, hw2⟩ := h
      have hfoldl : ∀ (l : List Toplevel) (w1 w2 : Workspace),
          List.foldlM (fun w it => sendClientToDesktop env fuel w it d dont_activate) w1 l
            = some w2 → ∀ x, (w2.heap x).transients = (w1.heap x).transients := by
        intro l
        induction l with
        | nil =>
          intro w1 w2 h x
          simp only [List.foldlM_nil, Option.pure_def, Option.some.injEq] at h
          rw [h]
        | cons t l ihl =>
          intro w1 w2 h x
          simp only [List.foldlM_cons, Option.bind_eq_bind, Option.bind_eq_some] at h
          obtain ⟨wm, hwm, hrest⟩ := h
          rw [ihl wm w2 hrest x, ih w1 t d wm hwm x]
      rw [← hw2]
      show (w2.heap x).transients = _
      rw [hfoldl _ _ _ hfold x, self_transients]

/-- Whenever the loop of `sendClientToDesktop` returns, the invocation on every
window of its list has returned, from a state in which every client has the
transients it had. -/
theorem sendClientToDesktop_loop_returns (env : Env) (fuel : Nat) (desk : Int)
    (dont_activate : Bool) :
    ∀ (l : List Toplevel) (w1 w2 : Workspace),
      List.foldlM (fun w it => sendClientToDesktop env fuel w it desk dont_activate) w1 l
        = some w2 →
      ∀ t ∈ l, ∃ wa wb, sendClientToDesktop env fuel wa t desk dont_activate = some wb ∧
        ∀ x, (wa.heap x).transients = (w1.heap x).transients := by
  intro l
  induction l with
  | nil =>
    intro w1 w2 _ t ht
    simp at ht
  | cons t0 l ihl =>
    intro w1 w2 h t ht
    simp only [List.foldlM_cons, Option.bind_eq_bind, Option.bind_eq_some] at h
    obtain ⟨wm, hwm, hrest⟩ := h
    rcases List.mem_cons.mp ht with rfl | ht
    · exact ⟨w1, wm, hwm, fun _ => rfl⟩
    · obtain ⟨wa, wb, hab, htr⟩ := ihl wm w2 hrest t ht
      exact ⟨wa, wb, hab, fun x => by
        rw [htr x, sendClientToDesktop_transients env dont_activate fuel w1 t0 desk wm hwm x]⟩

/-- The recursion of `sendClientToDesktop` does not end when the desktop is
valid, as workspace.cpp:1169 tests it, every `setDesktop` takes effect and a window that is listed, directly or
indirectly, among its own transients is reached from the client through the
transients: whatever the bound on the depth of the recursion, it is reached. -/
theorem sendClientToDesktop_never_returns (env : Env) (desk : Int) (dont_activate : Bool)
    (tr : Toplevel → List Toplevel)
    (hvalid : ¬(desk < 1 ∧ desk ≠ NET.OnAllDesktops) ∧ desk ≤ static_cast_int env.vdsCount)
    (heffect : ∀ w x, env.setDesktop w x desk = desk)
    (hmem : ∀ w l x, x ∈ l → x ∈ env.ensureStackingOrder w l) :
    ∀ (fuel : Nat) (ws : Workspace) (c : Toplevel),
      (∀ x, (ws.heap x).transients = tr x) →
      (∃ y, Relation.ReflTransGen (fun p t => t ∈ tr p) c y ∧
        Relation.TransGen (fun p t => t ∈ tr p) y y) →
      sendClientToDesktop env fuel ws c desk dont_activate = none := by
  intro fuel
  induction fuel with
  | zero =>
    intro ws c _ _
    rfl
  | succ fuel ih =>
    intro ws c htr hbad
    have hnext : ∃ t, t ∈ tr c ∧ ∃ y, Relation.ReflTransGen (fun p t => t ∈ tr p) t y ∧
        Relation.TransGen (fun p t => t ∈ tr p) y y := by
      obtain ⟨y, hcy, hyy⟩ := hbad
      rcases Relation.ReflTransGen.cases_head hcy with rfl | ⟨t, hct, hty⟩
      · obtain ⟨t, hct, htc⟩ := Relation.TransGen.head'_iff.mp hyy
        exact ⟨t, hct, c, htc, hyy⟩
      · exact ⟨t, hct, y, hty, hyy⟩
    obtain ⟨t, hct, hbadt⟩ := hnext
    cases hs : sendClientToDesktop env (fuel + 1) ws c desk dont_activate with
    | none => rfl
    | some ws1 =>
      exfalso
      rw [sendClientToDesktop_succ] at hs
      have hloop := self_reaches_loop env ws c desk dont_activate hvalid (by
        rw [setDesktop_heap]
        simp only [if_true]
        exact heffect _ _)
      rw [hloop] at hs
      simp only [Option.map_eq_some'] at hs
      obtain ⟨w2, hfold, _⟩ := hs
      have htl : t ∈ env.ensureStackingOrder
          (sendClientToDesktop.self env ws c desk dont_activate).1
          ((sendClientToDesktop.self env ws c desk dont_activate).1.heap c).transients := by
        apply hmem
        rw [self_transients, htr c]
        exact hct
      obtain ⟨wa, wb, hab, hwa⟩ := sendClientToDesktop_loop_returns env fuel desk dont_activate
        _ _ _ hfold t htl
      have := ih wa t (fun x => by rw [hwa x, self_transients, htr x]) hbadt
      rw [this] at hab
      cases hab

/-- C23, as the sources have it: `sendClientToDesktop` terminates when no
window is listed, directly or indirectly, among its own transients, which a rank
that falls from every window to its transients says: the depth of the recursion
is then at most the rank of the client. When a window that is listed among its
own transients is reached from the client, the desktop is valid, as
workspace.cpp:1169 tests it with its `static_cast<int>` of the number of
desktops, and every `setDesktop` takes effect, the recursion does not end:
whatever the bound on its depth, the bound is reached. -/
theorem sendClientToDesktop_terminates_without_a_cycle (env : Env) (ws : Workspace)
    (c : Toplevel) (desk : Int) (dont_activate : Bool)
    (hperm : ∀ w l, (env.ensureStackingOrder w l).Perm l) :
    (∀ rank : Toplevel → Nat, (∀ p t, t ∈ (ws.heap p).transients → rank t < rank p) →
      ∀ fuel, rank c < fuel →
        (sendClientToDesktop env fuel ws c desk dont_activate).isSome = true) ∧
    (¬(desk < 1 ∧ desk ≠ NET.OnAllDesktops) ∧ desk ≤ static_cast_int env.vdsCount →
      (∀ w x, env.setDesktop w x desk = desk) →
      (∃ y, Relation.ReflTransGen (fun p t => t ∈ (ws.heap p).transients) c y ∧
        Relation.TransGen (fun p t => t ∈ (ws.heap p).transients) y y) →
      ∀ fuel, sendClientToDesktop env fuel ws c desk dont_activate = none) := by
  constructor
  · intro rank hrank fuel hlt
    obtain ⟨ws1, h, _⟩ := sendClientToDesktop_returns env dont_activate
      (fun x => (ws.heap x).transients) rank hrank (fun w l x hx => (hperm w l).mem_iff.mp hx)
      fuel ws c desk (fun _ => rfl) hlt
    rw [h]
    rfl
  · intro hvalid heffect hbad fuel
    exact sendClientToDesktop_never_returns env desk dont_activate
      (fun x => (ws.heap x).transients) hvalid heffect
      (fun w l x hx => (hperm w l).mem_iff.mpr hx) fuel ws c (fun _ => rfl) hbad

/-- Witness for C23: the client 1 has the transient 2, which has none; the call
returns with a recursion of depth 2. -/
theorem sendClientToDesktop_terminates_without_a_cycle_witness :
    (sendClientToDesktop {} 2
      { heap := fun x => { transients_list := if x = 1 then [2] else [] } } 1 1 false).isSome
      = true :=
  (sendClientToDesktop_terminates_without_a_cycle {}
    { heap := fun x => { transients_list := if x = 1 then [2] else [] } } 1 1 false
    (fun _ l => List.Perm.refl l)).1 (fun x => if x = 1 then 1 else 0)
    (by
      intro p t ht
      by_cases h1 : p = 1
      · subst h1
        have : t = 2 := by simpa [Client.transients] using ht
        subst this
        decide
      · simp [Client.transients, h1] at ht)
    2 (by decide)

/-- C23 fails for a window that is listed among its own transients: the client 1
is its own transient, the desktop 1 is valid and `setDesktop` takes effect. No
bound on the depth of the recursion lets `sendClientToDesktop` return: every
invocation on the client 1 goes on to invoke itself on the client 1. -/
theorem sendClientToDesktop_on_its_own_transient_never_returns :
    ¬∃ fuel : Nat, (sendClientToDesktop {} fuel
      { heap := fun _ => { transients_list := [1] } } 1 1 false).isSome = true := by
  rintro ⟨fuel, h⟩
  have hnone := sendClientToDesktop_never_returns {} 1 false (fun _ => [1]) (by decide)
    (fun _ _ => rfl) (fun _ _ _ hx => hx) fuel
    { heap := fun _ => { transients_list := [1] } } 1 (fun _ => rfl)
    ⟨1, Relation.ReflTransGen.refl, Relation.TransGen.single (by simp)⟩
  rw [hnone] at h
  cases h

/-! ### The handler of a removed desktop -/

/-- The statements of `sendClientToDesktop` before its loop write the client
only, and keep the list of all clients. -/
theorem self_frame (env : Env) (ws : Workspace) (c : Toplevel) (desk : Int)
    (dont_activate : Bool) :
    (sendClientToDesktop.self env ws c desk dont_activate).1.m_allClients = ws.m_allClients ∧
    ∀ x, x ≠ c → (sendClientToDesktop.self env ws c desk dont_activate).1.heap x = ws.heap x := by
  rw [self_eq]
  split_ifs
  · exact ⟨rfl, fun _ _ => rfl⟩
  · refine ⟨rfl, fun x hx => ?_⟩
    show (setDesktop env _ c desk).heap x = _
    rw [setDesktop_heap, if_neg hx]
    rfl
  · refine ⟨?_, fun x hx => ?_⟩
    · show (sendClientToDesktop.restack env _ c _ dont_activate).m_allClients = _
      unfold sendClientToDesktop.restack
      split_ifs <;> rfl
    · show (sendClientToDesktop.restack env _ c _ dont_activate).heap x = _
      rw [restack_heap, setDesktop_heap, if_neg hx]
      rfl

/-- Whenever `sendClientToDesktop` returns, it has kept the list of all clients
and has written no client but the one it is called on and the windows reached
from it through the transients. -/
theorem sendClientToDesktop_frame (env : Env) (dont_activate : Bool)
    (tr : Toplevel → List Toplevel)
    (hsub : ∀ w l x, x ∈ env.ensureStackingOrder w l → x ∈ l) :
    ∀ (fuel : Nat) (ws : Workspace) (c : Toplevel) (desk : Int) (ws1 : Workspace),
      (∀ x, (ws.heap x).transients = tr x) →
      sendClientToDesktop env fuel ws c desk dont_activate = some ws1 →
      ws1.m_allClients = ws.m_allClients ∧
        ∀ x, ¬Relation.ReflTransGen (fun p t => t ∈ tr p) c x → ws1.heap x = ws.heap x := by
  intro fuel
  induction fuel with
  | zero =>
    intro ws c desk ws1 _ h
    simp [sendClientToDesktop] at h
  | succ fuel ih =>
    intro ws c desk ws1 htr h
    rw [sendClientToDesktop_succ] at h
    obtain ⟨hall, hheap⟩ := self_frame env ws c desk dont_activate
    have hself : ∀ x, ¬Relation.ReflTransGen (fun p t => t ∈ tr p) c x →
        (sendClientToDesktop.self env ws c desk dont_activate).1.heap x = ws.heap x := by
      intro x hx
      apply hheap
      rintro rfl
      exact hx Relation.ReflTransGen.refl
    cases hr : (sendClientToDesktop.self env ws c desk dont_activate).2 with
    | none =>
      rw [hr] at h
      simp only [Option.some.injEq] at h
      rw [← h]
      exact ⟨hall, hself⟩
    | some d =>
      rw [hr] at h
      simp only [Option.map_eq_some'] at h
      obtain ⟨w2, hfold, hw2⟩ := h
      have hfoldl : ∀ (l : List Toplevel) (w1 w2 : Workspace),
          (∀ x, (w1.heap x).transients = tr x) → (∀ t ∈ l, t ∈ tr c) →
          List.foldlM (fun w it => sendClientToDesktop env fuel w it d dont_activate) w1 l
            = some w2 →
          w2.m_allClients = w1.m_allClients ∧
            ∀ x, ¬Relation.ReflTransGen (fun p t => t ∈ tr p) c x → w2.heap x = w1.heap x := by
        intro l
        induction l with
        | nil =>
          intro w1 w2 _ _ h
          simp only [List.foldlM_nil, Option.pure_def, Option.some.injEq] at h
          rw [h]
          exact ⟨rfl, fun _ _ => rfl⟩
        | cons t l ihl =>
          intro w1 w2 htr1 hl h
          simp only [List.foldlM_cons, Option.bind_eq_bind, Option.bind_eq_some] at h
          obtain ⟨wm, hwm, hrest⟩ := h
          obtain ⟨hm1, hm2⟩ := ih w1 t d wm htr1 hwm
          have htrm : ∀ x, (wm.heap x).transients = tr x := fun x => by
            rw [sendClientToDesktop_transients env dont_activate fuel w1 t d wm hwm x, htr1 x]
          obtain ⟨hr1, hr2⟩ := ihl wm w2 htrm (fun t ht => hl t (List.mem_cons_of_mem _ ht)) hrest
          refine ⟨by rw [hr1, hm1], fun x hx => ?_⟩
          rw [hr2 x hx]
          apply hm2
          intro htx
          exact hx (Relation.ReflTransGen.head (hl t (List.mem_cons_self _ _)) htx)
      obtain ⟨hf1, hf2⟩ := hfoldl _ _ _
        (fun x => by rw [self_transients, htr x])
        (fun t ht => by
          have := hsub _ _ _ ht
          rw [self_transients, htr c] at this
          exact this) hfold
      rw [← hw2]
      refine ⟨?_, fun x hx => ?_⟩
      · show w2.m_allClients = _
        rw [hf1, hall]
      · show w2.heap x = _
        rw [hf2 x hx, hself x hx]

/-- One client in the X11 branch of the `desktopRemoved` handler, when the
earlier clients have only put windows on the last desktop: the windows written
are reached from the client, which was beyond the range from the start, and
have all been put on the last desktop. -/
theorem desktopRemoved_x11_step (env : Env) (fuel : Nat) (ws : Workspace)
    (hcount : 1 ≤ env.vdsCount) (hint : env.vdsCount < 2 ^ 31)
    (heffect : ∀ w x, env.setDesktop w x (env.vdsCount : Int) = (env.vdsCount : Int))
    (hperm : ∀ w l, (env.ensureStackingOrder w l).Perm l)
    (w w1 : Workspace) (c : Toplevel)
    (htr : ∀ x, (w.heap x).transients = (ws.heap x).transients)
    (hmoved : movedTo (env.vdsCount : Int) ws w)
    (h : desktopRemoved.x11 env fuel w c = some w1) :
    (∀ x, (w1.heap x).transients = (ws.heap x).transients) ∧
    w1.m_allClients = w.m_allClients ∧
    movedTo (env.vdsCount : Int) w w1 ∧
    (∀ x, w1.heap x ≠ w.heap x →
      desktopRemoved.beyond env w c = true ∧ desktopRemoved.beyond env ws c = true ∧
        reachedFrom ws c x) ∧
    (desktopRemoved.beyond env w c = true →
      ∀ y, reachedFrom ws c y → (w1.heap y).desktop = (env.vdsCount : Int)) := by
  have hcast := static_cast_int_of_lt env.vdsCount hint
  unfold desktopRemoved.x11 at h
  rw [hcast] at h
  split_ifs at h with hb
  · have hvalid : ¬((env.vdsCount : Int) < 1 ∧ (env.vdsCount : Int) ≠ NET.OnAllDesktops) ∧
        (env.vdsCount : Int) ≤ static_cast_int env.vdsCount :=
      ⟨fun hh => by omega, by rw [hcast]⟩
    obtain ⟨hm, hcd, hreach⟩ := sendClientToDesktop_reaches env (env.vdsCount : Int) true
      (fun x => (ws.heap x).transients) hvalid heffect
      (fun w l x hx => (hperm w l).mem_iff.mpr hx) fuel w c w1 htr h
    obtain ⟨hall, hframe⟩ := sendClientToDesktop_frame env true
      (fun x => (ws.heap x).transients) (fun w l x hx => (hperm w l).mem_iff.mp hx)
      fuel w c (env.vdsCount : Int) w1 htr h
    have hbws : desktopRemoved.beyond env ws c = true := by
      rcases hmoved c with e | e
      · unfold desktopRemoved.beyond at hb ⊢
        rw [e] at hb
        exact hb
      · unfold desktopRemoved.beyond at hb
        rw [e, hcast] at hb
        simp at hb
    refine ⟨fun x => ?_, hall, hm, fun x hne => ?_, fun _ y hy => ?_⟩
    · rw [sendClientToDesktop_transients env true fuel w c _ w1 h x, htr x]
    · by_cases hx : reachedFrom ws c x
      · exact ⟨hb, hbws, hx⟩
      · exact absurd (hframe x hx) hne
    · rcases Relation.reflTransGen_iff_eq_or_transGen.mp hy with rfl | ht
      · exact hcd
      · exact hreach y ht
  · simp only [Option.some.injEq] at h
    subst h
    exact ⟨htr, rfl, movedTo_refl _ _, fun x hne => absurd rfl hne,
      fun hb' => absurd hb' hb⟩

/-- The loop of the X11 branch of the `desktopRemoved` handler: what holds of
the state it starts in, with respect to the state in which the handler was
called, holds of the state it ends in, and every client of the list that was
beyond the range is on the last desktop with the windows reached from it. -/
theorem desktopRemoved_x11_loop (env : Env) (fuel : Nat) (ws : Workspace)
    (hcount : 1 ≤ env.vdsCount) (hint : env.vdsCount < 2 ^ 31)
    (heffect : ∀ w x, env.setDesktop w x (env.vdsCount : Int) = (env.vdsCount : Int))
    (hperm : ∀ w l, (env.ensureStackingOrder w l).Perm l) :
    ∀ (l visited : List Toplevel) (w w1 : Workspace),
      (∀ x, (w.heap x).transients = (ws.heap x).transients) →
      w.m_allClients = ws.m_allClients →
      movedTo (env.vdsCount : Int) ws w →
      (∀ x, w.heap x ≠ ws.heap x →
        ∃ c ∈ ws.m_allClients, desktopRemoved.beyond env ws c = true ∧ reachedFrom ws c x) →
      (∀ x, w.heap x = ws.heap x ∨
        ∀ y, reachedFrom ws x y → (w.heap y).desktop = (env.vdsCount : Int)) →
      (∀ c ∈ visited, desktopRemoved.beyond env ws c = true →
        ∀ y, reachedFrom ws c y → (w.heap y).desktop = (env.vdsCount : Int)) →
      (∀ c ∈ l, c ∈ ws.m_allClients) →
      l.foldlM (desktopRemoved.x11 env fuel) w = some w1 →
      w1.m_allClients = ws.m_allClients ∧
      movedTo (env.vdsCount : Int) ws w1 ∧
      (∀ x, w1.heap x ≠ ws.heap x →
        ∃ c ∈ ws.m_allClients, desktopRemoved.beyond env ws c = true ∧ reachedFrom ws c x) ∧
      (∀ c ∈ visited ++ l, desktopRemoved.beyond env ws c = true →
        ∀ y, reachedFrom ws c y → (w1.heap y).desktop = (env.vdsCount : Int)) := by
  intro l
  induction l with
  | nil =>
    intro visited w w1 _ hall hmoved h4 _ h6 _ h
    simp only [List.foldlM_nil, Option.pure_def, Option.some.injEq] at h
    subst h
    exact ⟨hall, hmoved, h4, by simpa using h6⟩
  | cons c l ihl =>
    intro visited w w1 htr hall hmoved h4 h5 h6 hl h
    simp only [List.foldlM_cons, Option.bind_eq_bind, Option.bind_eq_some] at h
    obtain ⟨wm, hwm, hrest⟩ := h
    obtain ⟨s1, s2, s3, s4, s5⟩ := desktopRemoved_x11_step env fuel ws hcount hint heffect
      hperm w wm c htr hmoved hwm
    have hkeep : ∀ x, (∀ y, reachedFrom ws x y → (w.heap y).desktop = (env.vdsCount : Int)) →
        ∀ y, reachedFrom ws x y → (wm.heap y).desktop = (env.vdsCount : Int) :=
      fun x hx y hy => movedTo_desktop _ s3 y (hx y hy)
    have h5w : ∀ x, wm.heap x = ws.heap x ∨
        ∀ y, reachedFrom ws x y → (wm.heap y).desktop = (env.vdsCount : Int) := by
      intro x
      by_cases e : wm.heap x = w.heap x
      · rcases h5 x with e1 | e1
        · exact Or.inl (by rw [e, e1])
        · exact Or.inr (hkeep x e1)
      · obtain ⟨hb, _, hcx⟩ := s4 x e
        exact Or.inr (fun y hy => s5 hb y (Relation.ReflTransGen.trans hcx hy))
    have h := ihl (visited ++ [c]) wm w1 s1 (by rw [s2, hall]) (movedTo_trans _ hmoved s3)
      (by
        intro x hne
        by_cases e : wm.heap x = w.heap x
        · exact h4 x (by rw [← e]; exact hne)
        · obtain ⟨_, hbws, hcx⟩ := s4 x e
          exact ⟨c, hl c (List.mem_cons_self _ _), hbws, hcx⟩)
      h5w
      (by
        intro c1 hc1 hb1
        rcases List.mem_append.mp hc1 with hc1 | hc1
        · exact hkeep c1 (h6 c1 hc1 hb1)
        · have : c1 = c := by simpa using hc1
          subst this
          by_cases hb : desktopRemoved.beyond env w c1 = true
          · exact s5 hb
          · have hne : w.heap c1 ≠ ws.heap c1 := by
              intro e
              apply hb
              unfold desktopRemoved.beyond at hb1 ⊢
              rw [e]
              exact hb1
            rcases h5 c1 with e1 | e1
            · exact absurd e1 hne
            · exact hkeep c1 e1)
      (fun c1 hc1 => hl c1 (List.mem_cons_of_mem _ hc1)) hrest
    simpa using h

/-- The loop of the X11 branch of the `desktopRemoved` handler returns when a
rank falls from every window to its transients and the bound on the depth of
the recursion is above the rank of every client of the list. -/
theorem desktopRemoved_x11_returns (env : Env) (fuel : Nat)
    (tr : Toplevel → List Toplevel) (rank : Toplevel → Nat)
    (hrank : ∀ p t, t ∈ tr p → rank t < rank p)
    (hsub : ∀ w l x, x ∈ env.ensureStackingOrder w l → x ∈ l) :
    ∀ (l : List Toplevel) (w : Workspace),
      (∀ x, (w.heap x).transients = tr x) → (∀ c ∈ l, rank c < fuel) →
      (l.foldlM (desktopRemoved.x11 env fuel) w).isSome = true := by
  intro l
  induction l with
  | nil =>
    intro w _ _
    rfl
  | cons c l ihl =>
    intro w htr hl
    have hstep : ∃ wm, desktopRemoved.x11 env fuel w c = some wm ∧
        ∀ x, (wm.heap x).transients = tr x := by
      unfold desktopRemoved.x11
      split_ifs
      · exact sendClientToDesktop_returns env true tr rank hrank hsub fuel w c _ htr
          (hl c (List.mem_cons_self _ _))
      · exact ⟨w, rfl, htr⟩
    obtain ⟨wm, hwm, htrm⟩ := hstep
    simp only [List.foldlM_cons, Option.bind_eq_bind, hwm, Option.some_bind]
    exact ihl wm htrm (fun c1 hc1 => hl c1 (List.mem_cons_of_mem _ hc1))

/-- C24, as the sources have it: let the `desktopRemoved` handler run in X11
mode with a number of desktops that is at least 1 and that an `int` holds, so
that `static_cast<int>` leaves it as it is, every `setDesktop` to the last
desktop taking effect. Afterwards every client of `m_allClients` is on all
desktops or on a desktop that is not greater than the number of desktops: the
test of the handler fails on it. Every client that was beyond the range is on
the last desktop, and so is every window reached from such a client through the
transients, the windows on all desktops among them; every other window is as it
was. The handler returns when a rank falls from every window to its transients
and the bound on the depth of the recursion is above the rank of every
client. -/
theorem desktopRemoved_leaves_no_client_beyond_the_range (env : Env) (ws : Workspace)
    (desktop fuel : Nat)
    (hx11 : env.operationMode = OperationMode.OperationModeX11)
    (hcount : 1 ≤ env.vdsCount) (hint : env.vdsCount < 2 ^ 31)
    (heffect : ∀ w x, env.setDesktop w x (env.vdsCount : Int) = (env.vdsCount : Int))
    (hperm : ∀ w l, (env.ensureStackingOrder w l).Perm l) :
    static_cast_int env.vdsCount = (env.vdsCount : Int) ∧
    (∀ ws1, desktopRemoved env fuel ws desktop = some ws1 →
      ws1.m_allClients = ws.m_allClients ∧
      (∀ c ∈ ws1.m_allClients, (ws1.heap c).isOnAllDesktops = true ∨
        (ws1.heap c).desktop ≤ (env.vdsCount : Int)) ∧
      (∀ c ∈ ws1.m_allClients, desktopRemoved.beyond env ws1 c = false) ∧
      (∀ c ∈ ws.m_allClients, desktopRemoved.beyond env ws c = true →
        ∀ x, reachedFrom ws c x → (ws1.heap x).desktop = (env.vdsCount : Int)) ∧
      (∀ x, (∀ c ∈ ws.m_allClients, desktopRemoved.beyond env ws c = true →
        ¬reachedFrom ws c x) → ws1.heap x = ws.heap x) ∧
      movedTo (env.vdsCount : Int) ws ws1) ∧
    (∀ rank : Toplevel → Nat, (∀ p t, t ∈ (ws.heap p).transients → rank t < rank p) →
      (∀ c ∈ ws.m_allClients, rank c < fuel) →
      (desktopRemoved env fuel ws desktop).isSome = true) := by
  have hdef : desktopRemoved env fuel ws desktop =
      ws.m_allClients.foldlM (desktopRemoved.x11 env fuel)
        (ws.call (Call.desktopRemoved desktop)) := by
    unfold desktopRemoved
    simp only [hx11]
    rfl
  have hcast := static_cast_int_of_lt env.vdsCount hint
  refine ⟨hcast, ?_, ?_⟩
  · intro ws1 h
    rw [hdef] at h
    obtain ⟨r1, r2, r3, r4⟩ := desktopRemoved_x11_loop env fuel ws hcount hint heffect hperm
      ws.m_allClients [] (ws.call (Call.desktopRemoved desktop)) ws1
      (fun _ => rfl) rfl (movedTo_of_heap_eq _ rfl) (fun x hne => absurd rfl hne)
      (fun _ => Or.inl rfl) (fun c hc => by simp at hc) (fun _ hc => hc) h
    have r4w : ∀ c ∈ ws.m_allClients, desktopRemoved.beyond env ws c = true →
        ∀ x, reachedFrom ws c x → (ws1.heap x).desktop = (env.vdsCount : Int) :=
      fun c hc => r4 c (by simpa using hc)
    have hnot : ∀ c ∈ ws1.m_allClients, desktopRemoved.beyond env ws1 c = false := by
      intro c hc
      rw [r1] at hc
      rcases r2 c with e | e
      · cases hb : desktopRemoved.beyond env ws c with
        | false =>
          unfold desktopRemoved.beyond at hb ⊢
          rw [e]
          exact hb
        | true =>
          have hd := r4w c hc hb c Relation.ReflTransGen.refl
          unfold desktopRemoved.beyond
          rw [hd, hcast]
          simp
      · unfold desktopRemoved.beyond
        rw [e, hcast]
        simp
    refine ⟨r1, fun c hc => ?_, hnot, r4w, fun x hx => ?_, r2⟩
    · have hb := hnot c hc
      unfold desktopRemoved.beyond at hb
      rw [hcast] at hb
      cases ha : (ws1.heap c).isOnAllDesktops with
      | true => exact Or.inl rfl
      | false =>
        right
        simpa [ha] using hb
    · by_contra hne
      obtain ⟨c, hc, hb, hcx⟩ := r3 x hne
      exact hx c hc hb hcx
  · intro rank hrank hfuel
    rw [hdef]
    exact desktopRemoved_x11_returns env fuel (fun x => (ws.heap x).transients) rank hrank
      (fun w l x hx => (hperm w l).mem_iff.mp hx) ws.m_allClients _ (fun _ => rfl) hfuel

/-- Witness for C24: two desktops remain, the client 1 is on the desktop 3 and
has the transient 2, which is on all desktops. The handler returns and the client
1 is on the desktop 2. -/
theorem desktopRemoved_leaves_no_client_beyond_the_range_witness :
    (desktopRemoved { vdsCount := 2 } 3
      { m_allClients := [1, 2],
        heap := fun x => if x = 1 then { desktop := 3, transients_list := [2] }
          else { desktop := -1 } } 3).isSome = true :=
  (desktopRemoved_leaves_no_client_beyond_the_range { vdsCount := 2 }
    { m_allClients := [1, 2],
      heap := fun x => if x = 1 then { desktop := 3, transients_list := [2] }
        else { desktop := -1 } } 3 3 rfl (by decide) (by decide) (fun _ _ => rfl)
    (fun _ l => List.Perm.refl l)).2.2 (fun x => if x = 1 then 1 else 0)
    (by
      intro p t ht
      by_cases h1 : p = 1
      · subst h1
        have : t = 2 := by simpa [Client.transients] using ht
        subst this
        decide
      · simp [Client.transients, h1] at ht)
    (by
      intro c hc
      have : c = 1 ∨ c = 2 := by simpa using hc
      rcases this with rfl | rfl <;> decide)

/-- C24 fails for a client on all desktops that is a transient of a client
beyond the range: two desktops remain, the client 1 is on the desktop 3 and has
the transient 2, which is on all desktops. The handler sends the client 1 to the
desktop 2, and `sendClientToDesktop` puts the transient 2 there as well: it is no
longer on all desktops. -/
theorem desktopRemoved_moves_a_transient_on_all_desktops :
    (Client.isOnAllDesktops { desktop := -1 } = true) ∧
    (desktopRemoved { vdsCount := 2 } 3
      { m_allClients := [1, 2],
        heap := fun x => if x = 1 then { desktop := 3, transients_list := [2] }
          else { desktop := -1 } } 3).map
      (fun ws1 => ((ws1.heap 2).desktop, (ws1.heap 2).isOnAllDesktops)) = some (2, false) := by
  decide

/-! ### Showing and hiding the tool windows -/

/-- The cast `qobject_cast<AbstractClient *>` answers the window it is given. -/
theorem castAbstractClient_eq (ws : Workspace) (t c : Toplevel)
    (h : castAbstractClient ws t = some c) : c = t := by
  unfold castAbstractClient at h
  split at h <;> simp at h <;> exact h.symm

/-- A loop that only records one call for each window of a list. -/
theorem foldl_call (k : Toplevel → Call) (l : List Toplevel) (ws : Workspace) :
    l.foldl (fun ws c => ws.call (k c)) ws = { ws with calls := ws.calls ++ l.map k } := by
  induction l generalizing ws with
  | nil => simp
  | cons t l ih =>
    rw [List.foldl_cons, ih]
    simp [Workspace.call]

/-- The main clients of a window that `updateToolWindows` hides: there is one,
and none is a special window. -/
theorem showForMainClients_false (env : Env) (ws : Workspace) (c : Toplevel)
    (h : updateToolWindows.showForMainClients env ws c = false) :
    mainClients env ws c ≠ [] ∧ ∀ m ∈ mainClients env ws c, (ws.heap m).specialWindow = false := by
  have hfold : ∀ (l : List Toplevel) (b : Bool),
      l.foldl (fun b it2 => if (ws.heap it2).specialWindow then true else b) b = false →
      b = false ∧ ∀ m ∈ l, (ws.heap m).specialWindow = false := by
    intro l
    induction l with
    | nil =>
      intro b hb
      exact ⟨hb, fun m hm => by simp at hm⟩
    | cons t l ih =>
      intro b hb
      rw [List.foldl_cons] at hb
      obtain ⟨h1, h2⟩ := ih _ hb
      cases hs : (ws.heap t).specialWindow with
      | true => simp [hs] at h1
      | false =>
        simp only [hs] at h1
        refine ⟨by simpa using h1, fun m hm => ?_⟩
        rcases List.mem_cons.mp hm with rfl | hm
        · exact hs
        · exact h2 m hm
  unfold updateToolWindows.showForMainClients at h
  obtain ⟨h1, h2⟩ := hfold _ _ h
  refine ⟨fun he => ?_, h2⟩
  rw [he] at h1
  simp [QList.isEmpty] at h1

/-- The lists `to_show` and `to_hide` of `updateToolWindows` after its loop over
a list of windows: the utility, menu and toolbar windows of the list that are
clients, in the order of the list, in `to_show` when the value of `show` is true
at the end of the iteration and in `to_hide` when it is false and `also_hide`
is set. -/
theorem step_foldl (env : Env) (ws : Workspace) (also_hide : Bool) (client : Option Toplevel)
    (group : Option Group) :
    ∀ (l : List Toplevel) (acc : List Toplevel × List Toplevel),
      l.foldl (updateToolWindows.step env ws also_hide client group) acc =
        (acc.1 ++ l.filter (fun t => (castAbstractClient ws t).isSome &&
            ((ws.heap t).isUtility || (ws.heap t).isMenu || (ws.heap t).isToolbar) &&
            (if !updateToolWindows.show env ws client group t && also_hide then
              updateToolWindows.showForMainClients env ws t
            else updateToolWindows.show env ws client group t)),
          acc.2 ++ l.filter (fun t => (castAbstractClient ws t).isSome &&
            ((ws.heap t).isUtility || (ws.heap t).isMenu || (ws.heap t).isToolbar) &&
            !(if !updateToolWindows.show env ws client group t && also_hide then
              updateToolWindows.showForMainClients env ws t
            else updateToolWindows.show env ws client group t) && also_hide)) := by
  have hstep : ∀ (acc : List Toplevel × List Toplevel) (t : Toplevel),
      updateToolWindows.step env ws also_hide client group acc t =
        (acc.1 ++ [t].filter (fun t => (castAbstractClient ws t).isSome &&
            ((ws.heap t).isUtility || (ws.heap t).isMenu || (ws.heap t).isToolbar) &&
            (if !updateToolWindows.show env ws client group t && also_hide then
              updateToolWindows.showForMainClients env ws t
            else updateToolWindows.show env ws client group t)),
          acc.2 ++ [t].filter (fun t => (castAbstractClient ws t).isSome &&
            ((ws.heap t).isUtility || (ws.heap t).isMenu || (ws.heap t).isToolbar) &&
            !(if !updateToolWindows.show env ws client group t && also_hide then
              updateToolWindows.showForMainClients env ws t
            else updateToolWindows.show env ws client group t) && also_hide)) := by
    intro acc t
    unfold updateToolWindows.step
    cases hc : castAbstractClient ws t with
    | none => simp [List.filter_cons, hc]
    | some c =>
      have hct := castAbstractClient_eq ws t c hc
      subst hct
      cases htool : ((ws.heap c).isUtility || (ws.heap c).isMenu || (ws.heap c).isToolbar) with
      | false => simp [List.filter_cons, hc, htool]
      | true =>
        simp only [List.filter_cons, hc, htool, Option.isSome_some, Bool.true_and,
          List.filter_nil, if_true]
        generalize updateToolWindows.show env ws client group c = s0
        generalize updateToolWindows.showForMainClients env ws c = m
        cases s0 <;> cases m <;> cases also_hide <;> simp [QList.append]
  intro l
  induction l with
  | nil =>
    intro acc
    simp
  | cons t l ih =>
    intro acc
    rw [List.foldl_cons, ih, hstep]
    simp only [List.append_assoc, ← List.filter_append, List.singleton_append]

/-- The loop of `updateToolWindows` that goes up in the transiency hierarchy
ends when a rank falls from every window it leaves to the window it goes to, and
the bound on its steps is above the rank of the window it starts at. -/
theorem climb_returns (env : Env) (ws : Workspace) (rank : Toplevel → Nat)
    (hrank : ∀ p q, (ws.heap p).isTransient = true → (ws.heap p).groupTransient env = false →
      (ws.heap p).transientFor = some q → rank q < rank p) :
    ∀ (fuel : Nat) (a : Option Toplevel), (∀ c, a = some c → rank c < fuel) →
      (updateToolWindows.climb env ws fuel a).isSome = true := by
  intro fuel
  induction fuel with
  | zero =>
    intro a ha
    cases a with
    | none => rfl
    | some c => exact absurd (ha c rfl) (Nat.not_lt_zero _)
  | succ fuel ih =>
    intro a ha
    cases a with
    | none => rfl
    | some c =>
      unfold updateToolWindows.climb
      cases ht : (ws.heap c).isTransient with
      | false => simp
      | true =>
        cases hg : (ws.heap c).groupTransient env with
        | true => simp
        | false =>
          simp only [Bool.not_true, Bool.false_eq_true, if_false]
          apply ih
          intro q hq
          have := hrank c q ht hg hq
          have := ha c rfl
          omega

/-- The calls of `updateToolWindows` when the utility windows of inactive
applications are hidden, and the function returns: its own, `hideClient(false)`
on the windows of `to_show` from the last to the first, and then either
`hideClient(true)` on the windows of `to_hide` and the stop of the timer, or the
restart of the timer. -/
theorem updateToolWindows_calls (env : Env) (fuel : Nat) (ws ws1 : Workspace) (also_hide : Bool)
    (henabled : env.isHideUtilityWindowsForInactive = true)
    (h : updateToolWindows env fuel ws also_hide = some ws1) :
    ∃ client group,
      issued ws ws1 = Call.updateToolWindows also_hide ::
        (((ws.stacking_order.filter (fun t =>
            (castAbstractClient ws t).isSome &&
            ((ws.heap t).isUtility || (ws.heap t).isMenu || (ws.heap t).isToolbar) &&
            (if !updateToolWindows.show env (ws.call (Call.updateToolWindows also_hide))
                client group t && also_hide then
              updateToolWindows.showForMainClients env ws t
            else updateToolWindows.show env (ws.call (Call.updateToolWindows also_hide))
                client group t))).reverse.map (fun c => Call.hideClient c false)) ++
          (if also_hide then
            (ws.stacking_order.filter (fun t =>
              (castAbstractClient ws t).isSome &&
              ((ws.heap t).isUtility || (ws.heap t).isMenu || (ws.heap t).isToolbar) &&
              !(if !updateToolWindows.show env (ws.call (Call.updateToolWindows also_hide))
                  client group t && also_hide then
                updateToolWindows.showForMainClients env ws t
              else updateToolWindows.show env (ws.call (Call.updateToolWindows also_hide))
                  client group t) && also_hide)).map (fun c => Call.hideClient c true) ++
              [Call.updateToolWindowsTimerStop]
          else [Call.resetUpdateToolWindowsTimer, Call.updateToolWindowsTimerStart 200])) := by
  unfold updateToolWindows at h
  simp only [henabled, Bool.not_true, Bool.false_eq_true, if_false] at h
  cases hcl : updateToolWindows.climb env (ws.call (Call.updateToolWindows also_hide)) fuel
      (ws.call (Call.updateToolWindows also_hide)).active_client with
  | none =>
    rw [hcl] at h
    cases h
  | some r =>
    obtain ⟨client, group⟩ := r
    rw [hcl] at h
    refine ⟨client, group, ?_⟩
    apply issued_of_calls_eq
    simp only [step_foldl, foldl_call] at h
    cases also_hide with
    | true =>
      simp only [if_true, Option.some.injEq] at h
      rw [← h]
      simp [Workspace.call]
      rfl
    | false =>
      simp only [Bool.false_eq_true, if_false, Option.some.injEq] at h
      rw [← h]
      simp [Workspace.call, resetUpdateToolWindowsTimer]
      rfl

/-- C27: `updateToolWindows(also_hide)`, when the utility windows of inactive
applications are hidden, calls `hideClient`, to show or to hide, only on
utility, menu and toolbar windows of the stacking order that are clients; it
calls `hideClient(false)` and `hideClient(true)` on no common window; it calls
`hideClient(true)` on a window only if `also_hide` is set, the window has a main
client and none of its main clients is a special window, so that it hides
nothing when `also_hide` is not set. It returns when a rank falls from every
window its first loop leaves to the window the loop goes to, and the bound on
the steps of that loop is above the rank of the active client. When the utility
windows of inactive applications are not hidden, it returns after
`hideClient(false)` on every client of `clients`, in their order, and no other
call. -/
theorem updateToolWindows_shows_and_hides_tool_windows (env : Env) (ws : Workspace)
    (also_hide : Bool) (fuel : Nat) :
    (env.isHideUtilityWindowsForInactive = true →
      (∀ ws1, updateToolWindows env fuel ws also_hide = some ws1 →
        (∀ c b, Call.hideClient c b ∈ issued ws ws1 →
          c ∈ ws.stacking_order ∧ castAbstractClient ws c = some c ∧
          ((ws.heap c).isUtility || (ws.heap c).isMenu || (ws.heap c).isToolbar) = true) ∧
        (∀ c, ¬(Call.hideClient c false ∈ issued ws ws1 ∧
          Call.hideClient c true ∈ issued ws ws1)) ∧
        (∀ c, Call.hideClient c true ∈ issued ws ws1 →
          also_hide = true ∧ mainClients env ws c ≠ [] ∧
          ∀ m ∈ mainClients env ws c, (ws.heap m).specialWindow = false) ∧
        (also_hide = false → ∀ c, Call.hideClient c true ∉ issued ws ws1)) ∧
      (∀ rank : Toplevel → Nat,
        (∀ p q, (ws.heap p).isTransient = true → (ws.heap p).groupTransient env = false →
          (ws.heap p).transientFor = some q → rank q < rank p) →
        (∀ a, ws.active_client = some a → rank a < fuel) →
        (updateToolWindows env fuel ws also_hide).isSome = true)) ∧
    (env.isHideUtilityWindowsForInactive = false →
      ∃ ws1, updateToolWindows env fuel ws also_hide = some ws1 ∧
        issued ws ws1 = Call.updateToolWindows also_hide ::
          ws.clients.map (fun c => Call.hideClient c false)) := by
  refine ⟨fun henabled => ⟨fun ws1 h => ?_, fun rank hrank hfuel => ?_⟩, fun hdisabled => ?_⟩
  · obtain ⟨client, group, hcalls⟩ := updateToolWindows_calls env fuel ws ws1 also_hide henabled h
    have hcast : ∀ c, (castAbstractClient ws c).isSome = true → castAbstractClient ws c = some c := by
      intro c hc
      obtain ⟨d, hd⟩ := Option.isSome_iff_exists.mp hc
      rw [hd, castAbstractClient_eq ws c d hd]
    have hshown : ∀ c, Call.hideClient c false ∈ issued ws ws1 →
        c ∈ ws.stacking_order ∧ castAbstractClient ws c = some c ∧
        ((ws.heap c).isUtility || (ws.heap c).isMenu || (ws.heap c).isToolbar) = true ∧
        (if !updateToolWindows.show env (ws.call (Call.updateToolWindows also_hide))
            client group c && also_hide then
          updateToolWindows.showForMainClients env ws c
        else updateToolWindows.show env (ws.call (Call.updateToolWindows also_hide))
            client group c) = true := by
      intro c hc
      rw [hcalls] at hc
      cases also_hide with
      | true =>
        simp only [List.mem_cons, List.mem_append, List.mem_map, List.mem_reverse,
          List.mem_filter, if_true, reduceCtorEq, false_or, Call.hideClient.injEq,
          Bool.and_eq_true, List.mem_singleton, List.not_mem_nil, or_false] at hc
        rcases hc with ⟨a, ⟨ha, ⟨hc1, hc2⟩, hc3⟩, rfl, _⟩ | ⟨a, _, _, hab⟩
        · exact ⟨ha, hcast a hc1, hc2, by simpa using hc3⟩
        · cases hab
      | false =>
        simp only [List.mem_cons, List.mem_append, List.mem_map, List.mem_reverse,
          List.mem_filter, Bool.false_eq_true, if_false, reduceCtorEq, false_or,
          Call.hideClient.injEq, Bool.and_eq_true, List.not_mem_nil, or_false] at hc
        obtain ⟨a, ⟨ha, ⟨hc1, hc2⟩, hc3⟩, rfl, _⟩ := hc
        exact ⟨ha, hcast a hc1, hc2, by simpa using hc3⟩
    have hhidden : ∀ c, Call.hideClient c true ∈ issued ws ws1 →
        also_hide = true ∧
        c ∈ ws.stacking_order ∧ castAbstractClient ws c = some c ∧
        ((ws.heap c).isUtility || (ws.heap c).isMenu || (ws.heap c).isToolbar) = true ∧
        (if !updateToolWindows.show env (ws.call (Call.updateToolWindows also_hide))
            client group c && also_hide then
          updateToolWindows.showForMainClients env ws c
        else updateToolWindows.show env (ws.call (Call.updateToolWindows also_hide))
            client group c) = false := by
      intro c hc
      rw [hcalls] at hc
      cases also_hide with
      | true =>
        simp only [List.mem_cons, List.mem_append, List.mem_map, List.mem_reverse,
          List.mem_filter, if_true, reduceCtorEq, false_or, Call.hideClient.injEq,
          Bool.and_eq_true, List.mem_singleton, List.not_mem_nil, or_false, Bool.not_eq_true',
          and_true] at hc
        rcases hc with ⟨a, _, _, hab⟩ | ⟨a, ⟨ha, ⟨hc1, hc2⟩, hc3⟩, rfl⟩
        · cases hab
        · exact ⟨rfl, ha, hcast a hc1, hc2, by simpa using hc3⟩
      | false =>
        simp only [List.mem_cons, List.mem_append, List.mem_map, List.mem_reverse,
          List.mem_filter, Bool.false_eq_true, if_false, reduceCtorEq, false_or,
          Call.hideClient.injEq, Bool.and_eq_true, List.not_mem_nil, or_false] at hc
        obtain ⟨a, _, _, hab⟩ := hc
        cases hab
    refine ⟨fun c b hc => ?_, fun c hc => ?_, fun c hc => ?_, fun hno c hc => ?_⟩
    · cases b with
      | false =>
        obtain ⟨h1, h2, h3, _⟩ := hshown c hc
        exact ⟨h1, h2, h3⟩
      | true =>
        obtain ⟨_, h1, h2, h3, _⟩ := hhidden c hc
        exact ⟨h1, h2, h3⟩
    · obtain ⟨_, _, _, h1⟩ := hshown c hc.1
      obtain ⟨_, _, _, _, h2⟩ := hhidden c hc.2
      rw [h1] at h2
      cases h2
    · obtain ⟨h0, _, _, _, h2⟩ := hhidden c hc
      subst h0
      refine ⟨rfl, ?_⟩
      cases hs : updateToolWindows.show env (ws.call (Call.updateToolWindows true)) client group c with
      | true => simp [hs] at h2
      | false =>
        simp only [hs, Bool.not_false, Bool.and_self, if_true] at h2
        exact showForMainClients_false env ws c h2
    · obtain ⟨h0, _⟩ := hhidden c hc
      rw [hno] at h0
      cases h0
  · unfold updateToolWindows
    simp only [henabled, Bool.not_true, Bool.false_eq_true, if_false]
    have hcl := climb_returns env (ws.call (Call.updateToolWindows also_hide)) rank hrank fuel
      ws.active_client hfuel
    obtain ⟨r, hr⟩ := Option.isSome_iff_exists.mp hcl
    have hr' : updateToolWindows.climb env (ws.call (Call.updateToolWindows also_hide)) fuel
        (ws.call (Call.updateToolWindows also_hide)).active_client = some r := hr
    rw [hr']
    obtain ⟨client, group⟩ := r
    cases also_hide <;> rfl
  · unfold updateToolWindows
    simp only [hdisabled, Bool.not_false, if_true]
    refine ⟨_, rfl, ?_⟩
    apply issued_of_calls_eq
    rw [foldl_call]
    simp [Workspace.call]

/-- An instance of `updateToolWindows(true)`: the active client 1 is a plain
window, the utility window 2 is a transient of the window 3, the toolbar 4 is a
transient of nothing that exists, and the three are in the stacking order. The
toolbar has no main client and is shown; the utility window has the main client
3, which is not special, and is hidden. -/
theorem updateToolWindows_hides_the_tools_of_another_window :
    (updateToolWindows {} 1
      { active_client := some 1
        stacking_order := [1, 2, 3, 4]
        heap := fun x =>
          if x = 2 then
            { kind := Kind.X11Client, windowType := WindowType.Utility, m_transientForId := 30,
              transient_for := some 3, in_group := some 7 }
          else if x = 4 then
            { kind := Kind.X11Client, windowType := WindowType.Toolbar, m_transientForId := 50,
              in_group := some 7 }
          else { kind := Kind.X11Client } } true).map (fun ws1 => ws1.calls)
      = some [Call.updateToolWindows true, Call.hideClient 4 false, Call.hideClient 2 true,
          Call.updateToolWindowsTimerStop] := by
  rfl

end KWin
